import Mathlib

/-!
# jetex: fragment and table lookup, packet codec

A shallow embedding of `server/src/fragment.c`, `server/src/table.c`,
`server/src/namespace.c`, `server/shared/packet.h` and `shared/packet.c`.
The library function `qsort` is an insertion sort, of which the proofs use
only that it returns a sorted permutation.

Machine integers are natural numbers; every place where the C code can wrap
carries an explicit `% 2 ^ 64` (or `% 2 ^ 32`, `% 2 ^ 8`).  A pointer into the
item array of a mapped fragment is the word offset from the start of that
array, and `NULL` is `none`.
-/

namespace Jetex

/-! ## Machine arithmetic -/

/-- The largest `uint64_t`. -/
def UINT64_MAX : Nat := 2 ^ 64 - 1

/-- The largest `size_t` (64-bit target: the code uses `unsigned __int128`). -/
def SIZE_MAX : Nat := 2 ^ 64 - 1

/-- Unsigned 64-bit subtraction `a - b`, wrapping around. -/
def sub64 (a b : Nat) : Nat := (a + 2 ^ 64 - b % 2 ^ 64) % 2 ^ 64

/-- Unsigned 64-bit addition `a + b`, wrapping around. -/
def add64 (a b : Nat) : Nat := (a + b) % 2 ^ 64

/-- Unsigned 64-bit multiplication `a * b`, wrapping around. -/
def mul64 (a b : Nat) : Nat := (a * b) % 2 ^ 64

/-- The C expression `x << count` on a `uint64_t`.  C leaves the shift
undefined when `count` is 64 or more; the embedding takes what the shift
instructions of x86-64 and AArch64 compute, which use the count modulo 64. -/
def shl64 (x count : Nat) : Nat := (x <<< (count % 64)) % 2 ^ 64

/-- The C expression `x >> count` on a `uint64_t`, with the count taken modulo
64 as in `shl64`. -/
def shr64 (x count : Nat) : Nat := x >>> (count % 64)

/-! ## fragment.h -/

/-- The constant `FRAGMENT_HEADER_MAGIC`: "JetX" in little endian. -/
def FRAGMENT_HEADER_MAGIC : Nat := 0x5874654A

/-- The value of `sizeof(struct fragment_header)`: 4+4+8+1+1+2+2+2+8+8+8+8+8+64. -/
def sizeof_header : Nat := 128

/-- The on-disk `struct fragment_header` (padding and signature are not read
by the code and are left out). -/
structure fragment_header where
  magic : Nat
  version : Nat
  pattern : Nat
  n_bits : Nat
  key_size : Nat
  item_size : Nat
  max_displacement : Nat
  table_size : Nat
  min : Nat
  max : Nat
  multiplier : Nat

/-- Every field of the header is inside the range of its C type. -/
def fragment_header.inRange (h : fragment_header) : Prop :=
  h.magic < 2 ^ 32 ∧ h.version < 2 ^ 32 ∧ h.pattern < 2 ^ 64 ∧ h.n_bits < 2 ^ 8 ∧
  h.key_size < 2 ^ 8 ∧ h.item_size < 2 ^ 16 ∧ h.max_displacement < 2 ^ 16 ∧
  h.table_size < 2 ^ 64 ∧ h.min < 2 ^ 64 ∧ h.max < 2 ^ 64 ∧ h.multiplier < 2 ^ 64

instance (h : fragment_header) : Decidable h.inRange := by
  unfold fragment_header.inRange; infer_instance

/-- What a file descriptor denotes: the header that `pread` returns, the size
that `fstat` reports (`none` when `fstat` fails), the 64-bit words that follow
the header, and the address at which `mmap` places the file. -/
structure File where
  fd : Nat
  header : fragment_header
  st_size : Option Nat
  items : Nat → Nat
  addr : Nat

/-- A mapped fragment file: what a non-null `const struct fragment_header *`
points to.  `items` is the array `fragment_header_data` returns. -/
structure Mapping where
  addr : Nat
  header : fragment_header
  items : Nat → Nat

/-- The in-memory view `struct fragment`; `data = none` is the null pointer. -/
structure fragment where
  data : Option Mapping
  n_bytes : Nat
  min : Nat
  range : Nat
  multiplier : Nat
  item_size : Nat
  max_displacement : Nat
  key_size : Nat
  fd : Nat
  data_offset : Nat

/-- The all-zero view that `calloc` and `(struct fragment) { .data = NULL }` give. -/
def fragment.zero : fragment :=
  { data := none, n_bytes := 0, min := 0, range := 0, multiplier := 0, item_size := 0,
    max_displacement := 0, key_size := 0, fd := 0, data_offset := 0 }

/-! ## fragment.c -/

/-- The function `scale`: the high 64 bits of the 128-bit product. -/
def scale (delta multiplier : Nat) : Nat :=
  ((multiplier * delta) % 2 ^ 128 / 2 ^ 64) % 2 ^ 64

/-- The pattern step of `validate_header` (lines 36-53): `true` when the header
is rejected. -/
def pattern_rejected (header : fragment_header) : Bool :=
  if header.n_bits = 0 then
    decide (header.pattern ≠ 0)
  else if header.n_bits ≥ 64 then
    true
  else
    let mask := shl64 UINT64_MAX (64 - header.n_bits)
    decide (header.pattern ≠ header.pattern &&& mask)

/-- The size-bound block of `validate_header` (lines 70-93): `true` when the
header is rejected. -/
def size_rejected (header : fragment_header) : Bool :=
  let range := sub64 header.max header.min
  let guess := scale range header.multiplier
  if UINT64_MAX - guess < header.max_displacement then
    true
  else
    let max_index := add64 guess header.max_displacement
    if max_index > UINT64_MAX / (8 * header.item_size) then
      true
    else
      let max_offset := mul64 (mul64 max_index 8) header.item_size
      if max_offset > UINT64_MAX - sizeof_header then
        true
      else
        decide (add64 max_offset sizeof_header > header.table_size)

/-- The `fstat` block of `validate_header` (lines 95-103): `true` when the
header is rejected. -/
def fstat_rejected (header : fragment_header) (st_size : Option Nat) : Bool :=
  match st_size with
  | none => true
  | some size => decide (header.table_size < size % 2 ^ 64)

/-- The function `validate_header`: 0 when the header is accepted, -1 otherwise. -/
def validate_header (header : fragment_header) (st_size : Option Nat) : Int :=
  if header.magic ≠ FRAGMENT_HEADER_MAGIC then -1
  else if header.version ≠ 0 then -1
  else if pattern_rejected header then -1
  else if header.key_size ≠ 1 ∧ header.key_size ≠ 2 ∧ header.key_size ≠ 4 ∧
      header.key_size ≠ 8 then -1
  else if header.item_size < header.key_size then -1
  else if header.max < header.min then -1
  else if size_rejected header then -1
  else if fstat_rejected header st_size then -1
  else 0

/-- The function `fragment_validate`, with every `pread` returning the whole
header: the status, `*OUT_pattern` and `*OUT_nbits`. -/
def fragment_validate (file : File) : Int × Nat × Nat :=
  let r := validate_header file.header file.st_size
  if r ≠ 0 then (r, 0, 0) else (0, file.header.pattern, file.header.n_bits)

/-- The function `fragment_map`: `none` when one of its assertions fails (the
header read and the `mmap` call themselves are taken to succeed).  The compound
literal names neither `item_size` nor `key_size`, so C zero-initialises them. -/
def fragment_map (file : File) : Option fragment :=
  if validate_header file.header file.st_size ≠ 0 then none
  else some
    { data := some { addr := file.addr, header := file.header, items := file.items },
      n_bytes := sub64 file.header.table_size sizeof_header,
      min := file.header.min,
      range := sub64 file.header.max file.header.min,
      multiplier := file.header.multiplier,
      item_size := 0,
      max_displacement := file.header.max_displacement,
      key_size := 0,
      fd := file.fd,
      data_offset := file.header.table_size }

/-- The probe loop of `lookup8`, with `n` iterations left and the cursor at
word `offset`. -/
def lookup8_loop (data : Nat → Nat) (key0 item_size : Nat) : Nat → Nat → Option Nat
  | 0, _ => none
  | n + 1, offset =>
    let current := data offset
    if current = key0 then some offset
    else if current > key0 then none
    else lookup8_loop data key0 item_size n (add64 offset item_size)

/-- The word offset of the cursor of a probe loop after `i` iterations, for a
loop that starts at word `offset` and advances by `item_size`. -/
def probe_offset (offset item_size : Nat) : Nat → Nat
  | 0 => offset
  | i + 1 => probe_offset (add64 offset item_size) item_size i

/-- The function `lookup8`. -/
def lookup8 (f : fragment) (data : Nat → Nat) (_key : Nat → Nat) (key0 guess : Nat) :
    Option Nat :=
  if key0 = add64 f.min f.range then
    some (add64 (mul64 guess f.item_size) f.max_displacement)
  else
    lookup8_loop data key0 f.item_size (f.max_displacement + 1) (mul64 guess f.item_size)

/-- The probe loop of `lookup16`. -/
def lookup16_loop (data : Nat → Nat) (key0 key1 item_size : Nat) : Nat → Nat → Option Nat
  | 0, _ => none
  | n + 1, offset =>
    let c0 := data offset
    let c1 := data (add64 offset 1)
    if ((c0 ^^^ key0) ||| (c1 &&& key1)) = 0 then some offset
    else if c0 > key0 then none
    else lookup16_loop data key0 key1 item_size n (add64 offset item_size)

/-- The function `lookup16`. -/
def lookup16 (f : fragment) (data : Nat → Nat) (key : Nat → Nat) (key0 guess : Nat) :
    Option Nat :=
  let key1 := key 1
  if key0 = add64 f.min f.range ∧ key1 = UINT64_MAX then
    some (add64 (mul64 guess f.item_size) f.max_displacement)
  else
    lookup16_loop data key0 key1 f.item_size (f.max_displacement + 1)
      (mul64 guess f.item_size)

/-- The probe loop of `lookup32`. -/
def lookup32_loop (data : Nat → Nat) (key : Nat → Nat) (key0 key1 item_size : Nat) :
    Nat → Nat → Option Nat
  | 0, _ => none
  | n + 1, offset =>
    let c0 := data offset
    let c1 := data (add64 offset 1)
    if ((c0 ^^^ key0) ||| (c1 &&& key1)) = 0 ∧
        (key 2 = data (add64 offset 2) ∧ key 3 = data (add64 offset 3)) then some offset
    else if c0 > key0 then none
    else lookup32_loop data key key0 key1 item_size n (add64 offset item_size)

/-- The function `lookup32`. -/
def lookup32 (f : fragment) (data : Nat → Nat) (key : Nat → Nat) (key0 guess : Nat) :
    Option Nat :=
  let key1 := key 1
  if key0 = add64 f.min f.range ∧
      (key1 = UINT64_MAX ∧ key 2 = UINT64_MAX ∧ key 3 = UINT64_MAX) then
    some (add64 (mul64 guess f.item_size) f.max_displacement)
  else
    lookup32_loop data key key0 key1 f.item_size (f.max_displacement + 1)
      (mul64 guess f.item_size)

/-- The probe loop of `lookup64`. -/
def lookup64_loop (data : Nat → Nat) (key : Nat → Nat) (key0 key1 item_size : Nat) :
    Nat → Nat → Option Nat
  | 0, _ => none
  | n + 1, offset =>
    let c0 := data offset
    let c1 := data (add64 offset 1)
    if ((c0 ^^^ key0) ||| (c1 &&& key1)) = 0 ∧
        (key 2 = data (add64 offset 2) ∧ key 3 = data (add64 offset 3) ∧
         key 4 = data (add64 offset 4) ∧ key 5 = data (add64 offset 5) ∧
         key 6 = data (add64 offset 6) ∧ key 7 = data (add64 offset 7)) then some offset
    else if c0 > key0 then none
    else lookup64_loop data key key0 key1 item_size n (add64 offset item_size)

/-- The function `lookup64`. -/
def lookup64 (f : fragment) (data : Nat → Nat) (key : Nat → Nat) (key0 guess : Nat) :
    Option Nat :=
  let key1 := key 1
  if key0 = add64 f.min f.range ∧
      (key1 = UINT64_MAX ∧ key 2 = UINT64_MAX ∧ key 3 = UINT64_MAX ∧
       key 4 = UINT64_MAX ∧ key 5 = UINT64_MAX ∧ key 6 = UINT64_MAX ∧
       key 7 = UINT64_MAX) then
    some (add64 (mul64 guess f.item_size) f.max_displacement)
  else
    lookup64_loop data key key0 key1 f.item_size (f.max_displacement + 1)
      (mul64 guess f.item_size)

/-- The function `fragment_lookup`: the returned pointer, as a word offset into
the item array (`none` for `NULL`), and the final value of `*OUT_item_size`. -/
def fragment_lookup (f : fragment) (key : Nat → Nat) : Option Nat × Nat :=
  let key0 := key 0
  let delta := sub64 key0 f.min
  match f.data with
  | none => (none, 0)
  | some map =>
    if delta > f.range then (none, 0)
    else
      let guess := scale delta f.multiplier
      if f.key_size = 1 then (lookup8 f map.items key key0 guess, f.item_size)
      else if f.key_size = 2 then (lookup16 f map.items key key0 guess, f.item_size)
      else if f.key_size = 4 then (lookup32 f map.items key key0 guess, f.item_size)
      else if f.key_size = 8 then (lookup64 f map.items key key0 guess, f.item_size)
      else (none, 0)

/-- The function `fragment_unmap`: the base address and length handed to
`munmap` (which is taken to succeed), or `none` for the null view. -/
def fragment_unmap (f : fragment) : Option (Nat × Nat) :=
  match f.data with
  | none => none
  | some map => some (map.addr, map.header.table_size)

/-! ## table.h and table.c -/

/-- The value of `sizeof(struct jetex_table)`: 16 + 4 + 4 + 1 + 7. -/
def sizeof_table : Nat := 32

/-- The value of `sizeof(struct fragment)` (64-byte aligned). -/
def sizeof_fragment : Nat := 64

/-- The `struct jetex_table` together with the fragment slots allocated right
after it (`jetex_table_fragment(table, i)` is `fragments[i]`). -/
structure jetex_table where
  uuid_bytes : List Nat
  min_fragment : Nat
  n_fragment : Nat
  fragment_shift : Nat
  fragments : List fragment

/-- The `struct table_scan_result`. -/
structure table_scan_result where
  max_pattern : Nat
  min_pattern : Nat
  n_bits : Nat
  fail : Nat

/-- The body of the loop of `table_scan` once the fragment is validated (lines
39-56): the running minimum, maximum and `n_bits` after a fragment with the
given pattern and `n_bits`. -/
def table_scan_step (ret : table_scan_result) (pattern cur_n_bits : Nat) :
    table_scan_result :=
  let top :=
    if cur_n_bits = 0 then UINT64_MAX
    else pattern ||| sub64 (shl64 1 (64 - cur_n_bits)) 1
  { min_pattern := if pattern < ret.min_pattern then pattern else ret.min_pattern,
    max_pattern := if top > ret.max_pattern then top else ret.max_pattern,
    n_bits := if cur_n_bits > ret.n_bits then cur_n_bits else ret.n_bits,
    fail := ret.fail }

/-- The loop of `table_scan` over the remaining descriptors. -/
def table_scan_loop : List File → table_scan_result → table_scan_result
  | [], ret => ret
  | file :: rest, ret =>
    let r := (fragment_validate file).1
    let pattern := (fragment_validate file).2.1
    let cur_n_bits := (fragment_validate file).2.2
    if r ≠ 0 ∨ cur_n_bits ≥ 32 then
      { max_pattern := 0, min_pattern := 0, n_bits := 0, fail := 1 }
    else
      table_scan_loop rest (table_scan_step ret pattern cur_n_bits)

/-- The function `table_scan`. -/
def table_scan (fds : List File) : table_scan_result :=
  table_scan_loop fds { max_pattern := 0, min_pattern := UINT64_MAX, n_bits := 0, fail := 0 }

/-- The function `extract`; for `n_bits = 0` the shift count is 64. -/
def extract (pattern n_bits : Nat) : Nat := shr64 pattern (64 - n_bits)

/-- The ways a run of `jetex_table_create` can go wrong instead of returning. -/
inductive Fault where
  | assertion
  | out_of_bounds
  | null_deref
  deriving DecidableEq, Repr

/-- The arrays `jetex_table_create` fills in: the table's fragment slots,
`slot_index` and the caller's `refcounts`. -/
structure build_state where
  slots : List fragment
  slot_index : List Nat
  refcounts : List Nat

/-- The block `if (dst->data != NULL) { ... }` of the placement loop (lines
137-141): the refcounts after the previous owner of slot `j` lost the slot. -/
def release_slot (n : Nat) (st : build_state) (dst : fragment) (j : Nat) :
    Except Fault (List Nat) :=
  if dst.data.isSome then
    let k := st.slot_index.getD j 0
    if ¬ k < n then Except.error Fault.assertion
    else if ¬ st.refcounts.getD k 0 > 0 then Except.error Fault.assertion
    else Except.ok (st.refcounts.set k (st.refcounts.getD k 0 - 1))
  else Except.ok st.refcounts

/-- The body of the inner placement loop of `jetex_table_create` for slot `j`
and input `i` with view `cur` (lines 134-146). -/
def place_slot (n_fragment n i : Nat) (cur : fragment) (st : build_state) (j : Nat) :
    Except Fault build_state :=
  if ¬ j ≤ n_fragment then Except.error Fault.assertion
  else
    match st.slots[j]? with
    | none => Except.error Fault.out_of_bounds
    | some dst =>
      match release_slot n st dst j with
      | Except.error e => Except.error e
      | Except.ok refcounts =>
        if ¬ refcounts.getD i 0 < UINT64_MAX then Except.error Fault.assertion
        else Except.ok
          { slots := st.slots.set j cur,
            slot_index := st.slot_index.set j i,
            refcounts := refcounts.set i (refcounts.getD i 0 + 1) }

/-- The inner placement loop `for (j = lo; j <= hi; j++)`, with `count` slots
left and the cursor at `j`.  It is started with `count = hi + 1 - lo`; a run
cannot reach `j = UINT64_MAX` without failing `assert(j <= n_fragment)` first,
so the wrap of `j++` is never met. -/
def place_range (n_fragment n i : Nat) (cur : fragment) :
    Nat → Nat → build_state → Except Fault build_state
  | 0, _, st => Except.ok st
  | count + 1, j, st =>
    match place_slot n_fragment n i cur st j with
    | Except.error e => Except.error e
    | Except.ok st1 => place_range n_fragment n i cur count (j + 1) st1

/-- The final value of `lo` in the placement loop of `jetex_table_create`
(lines 125, 128 and 130) for a mapped header. -/
def slot_lo (min_fragment fragment_shift : Nat) (header : fragment_header) : Nat :=
  let lo := header.pattern
  sub64 (shr64 lo fragment_shift) min_fragment

/-- The final value of `hi` in the placement loop of `jetex_table_create`
(lines 125, 126, 129 and 131) for a mapped header.  The loop has no special
case for `n_bits = 0`, where the count of `1ULL << (64 - n_bits)` is 64. -/
def slot_hi (min_fragment fragment_shift : Nat) (header : fragment_header) : Nat :=
  let lo := header.pattern
  let hi := lo ||| sub64 (shl64 1 (64 - header.n_bits)) 1
  sub64 (shr64 hi fragment_shift) min_fragment

/-- The body of the outer placement loop of `jetex_table_create` for input `i`
(lines 122-147). -/
def place_fragment (n_fragment n min_fragment fragment_shift i : Nat) (cur : fragment)
    (st : build_state) : Except Fault build_state :=
  match cur.data with
  | none => Except.error Fault.null_deref
  | some map =>
    let lo := slot_lo min_fragment fragment_shift map.header
    let hi := slot_hi min_fragment fragment_shift map.header
    place_range n_fragment n i cur (hi + 1 - lo) lo st

/-- The outer placement loop over the inputs from index `i` on. -/
def place_all (n_fragment n min_fragment fragment_shift : Nat) :
    List fragment → Nat → build_state → Except Fault build_state
  | [], _, st => Except.ok st
  | cur :: rest, i, st =>
    match place_fragment n_fragment n min_fragment fragment_shift i cur st with
    | Except.error e => Except.error e
    | Except.ok st1 => place_all n_fragment n min_fragment fragment_shift rest (i + 1) st1

/-- The loop `fragments[i] = fragment_map(fds[i])`: `none` when an assertion of
`fragment_map` fails. -/
def map_all : List File → Option (List fragment)
  | [] => some []
  | file :: rest =>
    match fragment_map file, map_all rest with
    | some f, some fs => some (f :: fs)
    | _, _ => none

/-- The final loop of `jetex_table_create`: the mappings of the inputs whose
refcount is zero are unmapped; the result lists the addresses given to
`munmap`, in order. -/
def unmap_unreferenced : List fragment → List Nat → List Nat
  | f :: fs, r :: rs =>
    if r = 0 then
      match fragment_unmap f with
      | some region => region.1 :: unmap_unreferenced fs rs
      | none => unmap_unreferenced fs rs
    else unmap_unreferenced fs rs
  | _, _ => []

/-- What a successful `jetex_table_create` leaves behind: the table, the
caller's `refcounts` array and the addresses unmapped along the way. -/
structure created where
  table : jetex_table
  refcounts : List Nat
  unmapped : List Nat

/-- The function `jetex_table_create` (the three `calloc` calls are taken to
succeed).  `Except.ok none` is the `NULL` return. -/
def jetex_table_create (uuid : List Nat) (fds : List File) : Except Fault (Option created) :=
  let n := fds.length
  if n = 0 then Except.ok none
  else
    let scan_result := table_scan fds
    if scan_result.fail ≠ 0 then Except.ok none
    else
      let max_pattern := scan_result.max_pattern
      let min_pattern := scan_result.min_pattern
      let n_bits := scan_result.n_bits % 2 ^ 8
      let n_fragment := add64 1 (extract (sub64 max_pattern min_pattern) n_bits)
      if n_fragment > (SIZE_MAX - sizeof_table) / sizeof_fragment then Except.ok none
      else
        match map_all fds with
        | none => Except.error Fault.assertion
        | some fragments =>
          let min_fragment := extract min_pattern n_bits % 2 ^ 32
          let fragment_shift := (64 - n_bits) % 2 ^ 8
          let st0 : build_state :=
            { slots := List.replicate n_fragment fragment.zero,
              slot_index := List.replicate n_fragment 0,
              refcounts := List.replicate n 0 }
          match place_all n_fragment n min_fragment fragment_shift fragments 0 st0 with
          | Except.error e => Except.error e
          | Except.ok st =>
            Except.ok (some
              { table :=
                  { uuid_bytes := uuid.take 16,
                    min_fragment := min_fragment,
                    n_fragment := n_fragment % 2 ^ 32,
                    fragment_shift := fragment_shift,
                    fragments := st.slots },
                refcounts := st.refcounts,
                unmapped := unmap_unreferenced fragments st.refcounts })

/-- The slot index `table_lookup` dispatches to (lines 216-224), or `none`
when it returns `NULL` before reaching a fragment. -/
def table_index (table : jetex_table) (key : Nat → Nat) : Option Nat :=
  let key0 := key 0
  let idx := if table.fragment_shift ≥ 64 then 0 else shr64 key0 table.fragment_shift
  if idx < table.min_fragment then none
  else
    let idx1 := sub64 idx table.min_fragment
    if idx1 ≥ table.n_fragment then none else some idx1

/-- The function `table_lookup`: the returned pointer and `*OUT_item_size`. -/
def table_lookup (table : jetex_table) (key : Nat → Nat) : Option Nat × Nat :=
  match table_index table key with
  | none => (none, 0)
  | some idx => fragment_lookup (table.fragments.getD idx fragment.zero) key

/-! ## Reading the outcome of a run -/

/-- What a run of `jetex_table_create` returned, when it returned a table. -/
def created_of (r : Except Fault (Option created)) : Option created :=
  match r with
  | Except.ok (some c) => some c
  | _ => none

/-- The fault a run of `jetex_table_create` ended in, when it did not return. -/
def fault_of (r : Except Fault (Option created)) : Option Fault :=
  match r with
  | Except.error e => some e
  | _ => none

/-- The base address of the mapping each slot of a table points to (`none`
for a slot whose `data` is `NULL`). -/
def slot_addrs (table : jetex_table) : List (Option Nat) :=
  table.fragments.map (fun f => f.data.map Mapping.addr)

/-- The top `n_bits` bits of the 64-bit word `k0` equal those of `pattern`. -/
def prefix_matches (pattern n_bits k0 : Nat) : Prop :=
  k0 / 2 ^ (64 - n_bits) = pattern / 2 ^ (64 - n_bits)

instance (pattern n_bits k0 : Nat) : Decidable (prefix_matches pattern n_bits k0) := by
  unfold prefix_matches; infer_instance

/-! ## Sample inputs -/

/-- A fragment file of 144 bytes whose header passes `validate_header`, with
the given descriptor, prefix and mapping address. -/
def prefix_file (fd pattern n_bits addr : Nat) : File :=
  { fd := fd,
    header :=
      { magic := FRAGMENT_HEADER_MAGIC, version := 0, pattern := pattern, n_bits := n_bits,
        key_size := 1, item_size := 2, max_displacement := 0, table_size := 144,
        min := pattern, max := pattern, multiplier := 0 },
    st_size := some 144,
    items := fun _ => pattern,
    addr := addr }

/-- The "wide" fragment of the spec's scenario 4: pattern 0, `n_bits = 0`. -/
def wide_file : File := prefix_file 3 0 0 0x10000

/-- The "narrow" fragment of the spec's scenario 4: pattern `0x05 << 56`, `n_bits = 8`. -/
def narrow_file : File := prefix_file 4 (0x05 <<< 56) 8 0x20000

/-- Fragment A of the spec's scenario 3: pattern `0x00 << 56`, `n_bits = 8`. -/
def file_a : File := prefix_file 5 (0x00 <<< 56) 8 0x30000

/-- Fragment B of the spec's scenario 3: pattern `0x01 << 56`, `n_bits = 8`. -/
def file_b : File := prefix_file 6 (0x01 <<< 56) 8 0x40000

/-- A table UUID. -/
def sample_uuid : List Nat := List.replicate 16 0xAB

/-- A key buffer `uint64_t key[8]` given by its first two words, the rest zero. -/
def key_of (k0 k1 : Nat) : Nat → Nat := fun i => if i = 0 then k0 else if i = 1 then k1 else 0

/-- An item array whose first slot is the two-word item `(7, 5)` and whose
other words are zero. -/
def pair_items : Nat → Nat := fun i => if i = 0 then 7 else if i = 1 then 5 else 0

/-- A header that passes every step of `validate_header` for a file of
`table_size` bytes or fewer: one-word keys, two-word items, keys 100..109. -/
def sample_header : fragment_header :=
  { magic := FRAGMENT_HEADER_MAGIC, version := 0, pattern := 0, n_bits := 0,
    key_size := 1, item_size := 2, max_displacement := 3, table_size := 256,
    min := 100, max := 109, multiplier := 2 ^ 63 }

/-- A file that starts with `sample_header` and is exactly `table_size` long. -/
def sample_file : File :=
  { fd := 3, header := sample_header, st_size := some 256, items := fun i => 100 + i,
    addr := 4096 }

/-- A view with two-word keys over `pair_items`: one slot in every probe window. -/
def pair_view : fragment :=
  { data := some { addr := 4096, header := sample_header, items := pair_items },
    n_bytes := 16, min := 0, range := 10, multiplier := 0, item_size := 2,
    max_displacement := 0, key_size := 2, fd := 3, data_offset := 144 }

/-- A view with one-word keys, two-word items, `min = 100`, `range = 9`, three
slots of displacement and a multiplier that sends key 109 to slot 4. -/
def sentinel_view : fragment :=
  { data := some { addr := 4096, header := sample_header, items := fun i => 100 + i },
    n_bytes := 128, min := 100, range := 9, multiplier := 2 ^ 63, item_size := 2,
    max_displacement := 3, key_size := 1, fd := 3, data_offset := 256 }

/-- Fragment C: pattern `0x02 << 56`, `n_bits = 8`. -/
def file_c : File := prefix_file 7 (0x02 <<< 56) 8 0x50000

/-- The view `fragment_map` returns for a file whose header passes validation
with `max >= min` and `table_size >= sizeof(header)`. -/
def mapped_view (file : File) : fragment :=
  { data := some { addr := file.addr, header := file.header, items := file.items },
    n_bytes := file.header.table_size - sizeof_header,
    min := file.header.min,
    range := file.header.max - file.header.min,
    multiplier := file.header.multiplier,
    item_size := 0,
    max_displacement := file.header.max_displacement,
    key_size := 0,
    fd := file.fd,
    data_offset := file.header.table_size }

/-- The table of the spec's scenario 3, built from `file_a` and `file_b`. -/
def table_ab : created :=
  { table :=
      { uuid_bytes := sample_uuid, min_fragment := 0, n_fragment := 2, fragment_shift := 56,
        fragments := [mapped_view file_a, mapped_view file_b] },
    refcounts := [1, 1],
    unmapped := [] }

/-- The table built from `file_a` and `file_c`: no input covers slot 1. -/
def table_ac : created :=
  { table :=
      { uuid_bytes := sample_uuid, min_fragment := 0, n_fragment := 3, fragment_shift := 56,
        fragments := [mapped_view file_a, fragment.zero, mapped_view file_c] },
    refcounts := [1, 1],
    unmapped := [] }

/-! ## shared/packet.h -/

/-- The `struct jetex_header` (packed, 8 bytes). -/
structure jetex_header where
  len : Nat
  type : Nat
  extra : Nat
  expiry : Nat
  deriving DecidableEq, Repr

/-- The value of `sizeof(struct jetex_header)`. -/
def sizeof_jetex_header : Nat := 8

/-- A `struct timeval`. -/
structure timeval where
  tv_sec : Int
  tv_usec : Int
  deriving DecidableEq, Repr

/-- The C expression `(uint32_t)(tv->tv_sec * 1000 + tv->tv_usec / 1000)`: the
time in milliseconds (signed 64-bit arithmetic, taken not to overflow, with
the division truncating) converted to `uint32_t`. -/
def timeval_millis (tv : timeval) : Nat :=
  ((tv.tv_sec * 1000 + Int.tdiv tv.tv_usec 1000) % 2 ^ 32).toNat

/-- Unsigned 32-bit subtraction `a - b`, wrapping around. -/
def sub32 (a b : Nat) : Nat := (a + 2 ^ 32 - b % 2 ^ 32) % 2 ^ 32

/-- The conversion `(int32_t)x` of a `uint32_t` (two's complement). -/
def to_int32 (x : Nat) : Int := if x < 2 ^ 31 then (x : Int) else (x : Int) - 2 ^ 32

/-- The function `jetex_packet_set_ttl`; `ttl` is a `uint8_t`. -/
def jetex_packet_set_ttl (header : jetex_header) (ttl : Nat) : jetex_header :=
  { header with expiry := (header.expiry &&& 0xFFFFFF00) ||| ttl }

/-- The function `jetex_packet_dec_ttl`: the returned flag and the header it
leaves behind. -/
def jetex_packet_dec_ttl (header : jetex_header) : Bool × jetex_header :=
  if header.expiry &&& 0xFF = 0 then (true, header)
  else
    let expiry := sub32 header.expiry 1
    (decide (expiry ≠ 0), { header with expiry := expiry })

/-- The function `jetex_packet_set_deadline`. -/
def jetex_packet_set_deadline (header : jetex_header) (tv : timeval) : jetex_header :=
  let limit := (timeval_millis tv <<< 8) % 2 ^ 32
  let limit1 := if limit = 0 then 0x100 else limit
  { header with expiry := limit1 ||| (header.expiry &&& 0xFF) }

/-- The function `jetex_packet_expired`. -/
def jetex_packet_expired (header : jetex_header) (tv : timeval) : Bool :=
  let now := (timeval_millis tv <<< 8) % 2 ^ 32
  let limit := header.expiry ||| 0xFF
  decide (limit ≠ 0xFF ∧ to_int32 (sub32 limit now) < 0)

/-- The header after `n` calls of `jetex_packet_dec_ttl`, with the flags the
calls returned, first call first. -/
def dec_ttl_times : Nat → jetex_header → List Bool × jetex_header
  | 0, header => ([], header)
  | n + 1, header =>
    let r := jetex_packet_dec_ttl header
    let rest := dec_ttl_times n r.2
    (r.1 :: rest.1, rest.2)

/-- The low 24 bits of the time in milliseconds `tv_sec * 1000 + tv_usec / 1000`. -/
def millis_low24 (tv : timeval) : Nat :=
  ((tv.tv_sec * 1000 + Int.tdiv tv.tv_usec 1000) % 2 ^ 24).toNat

/-- A header whose `expiry` has the given 24-bit deadline field and TTL byte. -/
def expiry_header (deadline ttl : Nat) : jetex_header :=
  { len := 40, type := 0, extra := 0, expiry := 256 * deadline + ttl }

/-- The `struct timeval` of a time given in milliseconds since the epoch. -/
def timeval_of_millis (ms : Nat) : timeval :=
  { tv_sec := (ms / 1000 : Nat), tv_usec := (ms % 1000 * 1000 : Nat) }

/-! ## shared/packet.c -/

/-- A socket address (`struct sockaddr`, `struct sockaddr_in`, `struct
sockaddr_in6` of `<netinet/in.h>`), by the fields `packet.c` reads and writes:
the family, the port (`sin_port` or `sin6_port`, 2 bytes in network order), the
address (`sin_addr`, 4 bytes, or `sin6_addr`, 16 bytes) and every other byte of
the structure. -/
structure sockaddr where
  sa_family : Nat
  port : List Nat
  addr : List Nat
  rest : List Nat
  deriving DecidableEq, Repr

/-- The constant `AF_INET` (its value on Linux). -/
def AF_INET : Nat := 2

/-- The constant `AF_INET6` (its value on Linux). -/
def AF_INET6 : Nat := 10

/-- The value of `sizeof(struct sockaddr_in)`. -/
def sizeof_sockaddr_in : Nat := 16

/-- The value of `sizeof(struct sockaddr_in6)`. -/
def sizeof_sockaddr_in6 : Nat := 28

/-- The value of `sizeof(struct sockaddr_storage)`. -/
def sizeof_sockaddr_storage : Nat := 128

/-- The value of `sizeof(dst->data)` for a `struct jetex_header_lookup`. -/
def sizeof_lookup_data : Nat := 128 + 18 + 16 + 64

/-- The value of `sizeof(dst->data)` for a `struct jetex_response_header`. -/
def sizeof_response_data : Nat := 128 + 16 + 64

/-- The `struct jetex_header_lookup` and, with a `data` array of 208 bytes, the
`struct jetex_response_header` (which `struct jetex_header_found` and `struct
jetex_header_missing` wrap): a header followed by the bytes of `data`. -/
structure jetex_packet where
  header : jetex_header
  data : List Nat
  deriving DecidableEq, Repr

/-- The compound literal `{ .header.len = 0 }` for a packet whose `data` array
has `size` bytes: everything zero. -/
def jetex_packet.zero (size : Nat) : jetex_packet :=
  { header := { len := 0, type := 0, extra := 0, expiry := 0 },
    data := List.replicate size 0 }

/-- The write position of the encoders: the array `dst->data`, the offset of
`bytes` from `&dst->data[0]`, and `remaining`. -/
structure cursor where
  data : List Nat
  bytes : Nat
  remaining : Nat
  deriving DecidableEq, Repr

/-- The call `memcpy(&data[dst], src, src.length)`. -/
def memcpy (data : List Nat) (dst : Nat) (src : List Nat) : List Nat :=
  data.take dst ++ src ++ data.drop (dst + src.length)

/-- The macro `ADV(N)`: `none` for `goto fail`, else the value of the
expression (the old offset) and the advanced position. -/
def ADV (c : cursor) (n : Nat) : Option (Nat × cursor) :=
  if n > c.remaining then none
  else some (c.bytes, { c with bytes := c.bytes + n, remaining := c.remaining - n })

/-- The statement `memcpy(ADV(n), src, len)` with `src` the `len` bytes that are
copied: `none` for `goto fail`, else the position after it. -/
def ADV_memcpy (c : cursor) (n : Nat) (src : List Nat) : Option cursor :=
  match ADV c n with
  | none => none
  | some (dst, c1) => some { c1 with data := memcpy c1.data dst src }

/-- The macro `OUT(SRC)` for a source object with the given bytes: `none` for
`goto fail`. -/
def OUT (c : cursor) (src : List Nat) : Option cursor :=
  if c.remaining < src.length then none
  else ADV_memcpy c src.length src

/-- The correlation block shared by `jetex_packet_lookup_encode` (lines 58-67)
and `jetex_response_header_encode` (lines 248-257): the position after it and
the value stored in `header.extra`, or `none` for `goto fail`. -/
def encode_correlation (c : cursor) (correlation : List Nat) : Option (cursor × Nat) :=
  let correlation_len := correlation.length
  if correlation_len = 0 then
    match ADV c 8 with
    | none => none
    | some (_, c1) => some (c1, 0)
  else
    let u64sz := 8
    let count := (correlation_len + u64sz - 1) / u64sz
    match ADV_memcpy c (count * u64sz) correlation with
    | none => none
    | some c1 => some (c1, (count - 1) % 2 ^ 8)

/-- The block `if (addr != NULL) { switch (addr->sa_family) ... }` of
`jetex_packet_lookup_encode` (lines 69-112): the position after it and the
new `header.extra`, or `none` for `goto fail`. -/
def encode_destination (c : cursor) (extra : Nat) (addr : Option sockaddr)
    (addr_len : Nat) : Option (cursor × Nat) :=
  match addr with
  | none => some (c, extra)
  | some a =>
    if a.sa_family = AF_INET then
      if addr_len < sizeof_sockaddr_in then none
      else
        match OUT c a.addr with
        | none => none
        | some c1 =>
          match OUT c1 a.port with
          | none => none
          | some c2 => some (c2, (extra ||| (1 <<< 4)) % 2 ^ 8)
    else if a.sa_family = AF_INET6 then
      if addr_len < sizeof_sockaddr_in6 then none
      else
        match OUT c a.addr with
        | none => none
        | some c1 =>
          match OUT c1 a.port with
          | none => none
          | some c2 => some (c2, (extra ||| (2 <<< 4)) % 2 ^ 8)
    else none

/-- The function `jetex_packet_lookup_encode`: the returned value and `*dst`.
The correlation, the table UUID and the key are the bytes behind the pointers,
`correlation_len` and `key_len` their lengths. -/
def jetex_packet_lookup_encode (correlation : List Nat) (addr : Option sockaddr)
    (addr_len : Nat) (table key : List Nat) : Int × jetex_packet :=
  let dst0 := jetex_packet.zero sizeof_lookup_data
  let fail : Int × jetex_packet := (-1, jetex_packet.zero sizeof_lookup_data)
  let c0 : cursor := { data := dst0.data, bytes := 0, remaining := sizeof_lookup_data }
  let correlation_len := correlation.length
  let key_len := key.length
  if addr = none ∧ addr_len ≠ 0 then (-1, dst0)
  else if correlation_len > 128 ∨ correlation_len > c0.remaining then (-1, dst0)
  else
    match encode_correlation c0 correlation with
    | none => fail
    | some (c1, extra1) =>
      match encode_destination c1 extra1 addr addr_len with
      | none => fail
      | some (c2, extra2) =>
        if c2.remaining < 16 then fail
        else
          match ADV_memcpy c2 16 table with
          | none => fail
          | some c3 =>
            if key_len < 8 ∨ key_len > 64 ∨ (key_len &&& (key_len - 1)) ≠ 0 then
              (-1, { header := { len := 0, type := 0, extra := extra2, expiry := 0 },
                     data := c3.data })
            else if c3.remaining < key_len then fail
            else
              match ADV_memcpy c3 key_len key with
              | none => fail
              | some c4 =>
                let len : Nat := (sizeof_jetex_header + c4.bytes) % 2 ^ 16
                ((len : Int),
                  { header := { len := len, type := 0, extra := extra2, expiry := 0 },
                    data := c4.data })

/-- The bytes of a packed `struct jetex_header` in memory (little endian). -/
def header_bytes (h : jetex_header) : List Nat :=
  [h.len % 256, h.len / 256 % 256, h.type % 256, h.extra % 256,
   h.expiry % 256, h.expiry / 2 ^ 8 % 256, h.expiry / 2 ^ 16 % 256, h.expiry / 2 ^ 24 % 256]

/-- The `struct jetex_header` that 8 bytes of memory hold (little endian). -/
def header_of_bytes (b : List Nat) : jetex_header :=
  { len := b.getD 0 0 + 2 ^ 8 * b.getD 1 0,
    type := b.getD 2 0,
    extra := b.getD 3 0,
    expiry := b.getD 4 0 + 2 ^ 8 * b.getD 5 0 + 2 ^ 16 * b.getD 6 0 + 2 ^ 24 * b.getD 7 0 }

/-- The datagram a packet is sent as: the header bytes, then `data`, cut at
`header.len` bytes. -/
def datagram (p : jetex_packet) : List Nat :=
  (header_bytes p.header ++ p.data).take p.header.len

/-- The `struct jetex_lookup`; `dst = none` is the zeroed `sockaddr_storage`,
`base_data = none` the null pointer, and `key` the 64 bytes of `uint64_t key[8]`. -/
structure jetex_lookup where
  base_data : Option (List Nat)
  dst : Option sockaddr
  dstlen : Nat
  correlation_key_offset : Nat
  correlation_key_length : Nat
  table_uuid : List Nat
  key : List Nat
  deriving DecidableEq, Repr

/-- The compound literal `{ .base_data = NULL }`. -/
def jetex_lookup.zero : jetex_lookup :=
  { base_data := none, dst := none, dstlen := 0, correlation_key_offset := 0,
    correlation_key_length := 0, table_uuid := List.replicate 16 0,
    key := List.replicate 64 0 }

/-- The read position of the decoder: the offset of `bytes` from `packet`, and
`remaining`. -/
structure reader where
  bytes : Nat
  remaining : Nat
  deriving DecidableEq, Repr

/-- The macro `IN(DST)` for an object of `size` bytes: `none` for `goto fail`,
else the bytes read and the advanced position. -/
def IN (packet : List Nat) (c : reader) (size : Nat) : Option (List Nat × reader) :=
  if c.remaining < size then none
  else some ((packet.drop c.bytes).take size,
    { bytes := c.bytes + size, remaining := c.remaining - size })

/-- The switch on `header.extra >> 4` of `jetex_packet_lookup_decode` (lines
171-214): `dst->dst`, `dst->dstlen` and the position after the destination, or
`none` for `goto fail`. -/
def decode_destination (packet : List Nat) (c : reader) (kind : Nat) (src : sockaddr)
    (srclen : Nat) : Option (sockaddr × Nat × reader) :=
  if kind = 0 then
    if srclen > sizeof_sockaddr_storage then none
    else some (src, srclen, c)
  else if kind = 1 then
    match IN packet c 4 with
    | none => none
    | some (sin_addr, c1) =>
      match IN packet c1 2 with
      | none => none
      | some (sin_port, c2) =>
        some ({ sa_family := AF_INET, port := sin_port, addr := sin_addr,
                rest := List.replicate 8 0 }, sizeof_sockaddr_in, c2)
  else if kind = 2 then
    match IN packet c 16 with
    | none => none
    | some (sin6_addr, c1) =>
      match IN packet c1 2 with
      | none => none
      | some (sin6_port, c2) =>
        some ({ sa_family := AF_INET6, port := sin6_port, addr := sin6_addr,
                rest := List.replicate 8 0 }, sizeof_sockaddr_in6, c2)
  else none

/-- The function `jetex_packet_lookup_decode`: the returned status and `*dst`.
The source address `src` is `srclen` bytes long. -/
def jetex_packet_lookup_decode (packet : List Nat) (src : sockaddr) (srclen : Nat) :
    Int × jetex_lookup :=
  let fail : Int × jetex_lookup := (-1, jetex_lookup.zero)
  let packet_len := packet.length
  match IN packet { bytes := 0, remaining := packet_len } sizeof_jetex_header with
  | none => fail
  | some (raw, c1) =>
    let header := header_of_bytes raw
    if packet_len > sizeof_jetex_header + sizeof_lookup_data then (-1, jetex_lookup.zero)
    else if header.type ≠ 0 then (-1, jetex_lookup.zero)
    else if header.len ≠ packet_len then (-1, jetex_lookup.zero)
    else
      let correlation_key_offset := c1.bytes % 2 ^ 32
      let correlation_key_length := 8 * (1 + header.extra % 16)
      if correlation_key_length > c1.remaining then fail
      else
        let c2 : reader :=
          { bytes := c1.bytes + correlation_key_length,
            remaining := c1.remaining - correlation_key_length }
        match decode_destination packet c2 (header.extra >>> 4) src srclen with
        | none => fail
        | some (dst, dstlen, c3) =>
          match IN packet c3 16 with
          | none => fail
          | some (table_uuid, c4) =>
            let key :=
              if c4.remaining ≥ 64 then
                memcpy (List.replicate 64 0) 0 ((packet.drop c4.bytes).take 64)
              else
                memcpy (List.replicate 64 0) 0 ((packet.drop c4.bytes).take c4.remaining)
            (0, { base_data := some packet, dst := some dst, dstlen := dstlen,
                  correlation_key_offset := correlation_key_offset,
                  correlation_key_length := correlation_key_length,
                  table_uuid := table_uuid, key := key })

/-- The function `jetex_response_header_encode`: the returned value and `*dst`. -/
def jetex_response_header_encode (type : Nat) (correlation table key : List Nat) :
    Int × jetex_packet :=
  let fail : Int × jetex_packet := (-1, jetex_packet.zero sizeof_response_data)
  let c0 : cursor :=
    { data := List.replicate sizeof_response_data 0, bytes := 0,
      remaining := sizeof_response_data }
  let correlation_len := correlation.length
  let key_len := key.length
  if correlation_len > 128 ∨ correlation_len > c0.remaining then fail
  else
    match encode_correlation c0 correlation with
    | none => fail
    | some (c1, extra1) =>
      match ADV_memcpy c1 16 table with
      | none => fail
      | some c2 =>
        let high : Option Nat :=
          if key_len = 8 then some 0
          else if key_len = 16 then some (1 <<< 4)
          else if key_len = 32 then some (2 <<< 4)
          else if key_len = 64 then some (3 <<< 4)
          else none
        match high with
        | none => fail
        | some bits =>
          match ADV_memcpy c2 key_len key with
          | none => fail
          | some c3 =>
            let len : Nat := (sizeof_jetex_header + c3.bytes) % 2 ^ 16
            ((len : Int),
              { header := { len := len, type := type, extra := (extra1 ||| bits) % 2 ^ 8,
                            expiry := 0 },
                data := c3.data })

/-- The function `jetex_packet_missing_encode`. -/
def jetex_packet_missing_encode (correlation table key : List Nat) : Int × jetex_packet :=
  jetex_response_header_encode 3 correlation table key

/-- The function `jetex_packet_found_encode`; `value_len` is a `size_t`, and the
sum `header.len + value_len` is computed in 64 bits. -/
def jetex_packet_found_encode (correlation table key : List Nat) (value_len : Nat) :
    Int × jetex_packet :=
  let r := jetex_response_header_encode 1 correlation table key
  if r.1 < 0 then r
  else if (r.2.header.len + value_len) % 2 ^ 64 ≥ 1 <<< 15 then
    (-1, jetex_packet.zero sizeof_response_data)
  else
    (r.1, { r.2 with header :=
      { r.2.header with len := ((r.2.header.len + value_len) % 2 ^ 64) % 2 ^ 16 } })

/-! ## The wire format in the words of the specification -/

/-- The number of 8-byte words the correlation takes on the wire:
`max(1, ceil(correlation_len / 8))`. -/
def correlation_count (correlation_len : Nat) : Nat :=
  max 1 ((correlation_len + 7) / 8)

/-- The bytes `bytes` followed by zeros up to `size` bytes. -/
def zero_padded (bytes : List Nat) (size : Nat) : List Nat :=
  bytes ++ List.replicate (size - bytes.length) 0

/-- The write position after the bytes `out` went into a zeroed `data` array of
`size` bytes. -/
def cursor_after (out : List Nat) (size : Nat) : cursor :=
  { data := out ++ List.replicate (size - out.length) 0,
    bytes := out.length,
    remaining := size - out.length }

/-- The destination section of a lookup: nothing, or the address bytes followed
by the port bytes. -/
def destination_bytes (addr : Option sockaddr) : List Nat :=
  match addr with
  | none => []
  | some a => a.addr ++ a.port

/-- The size of the destination section of a lookup: 0, 6 or 18 bytes for no
destination, IPv4 or IPv6. -/
def destination_size (addr : Option sockaddr) : Nat :=
  match addr with
  | none => 0
  | some a => if a.sa_family = AF_INET then 6 else 18

/-- The destination kind stored in the high nibble of `extra`: 0 for none, 1
for IPv4, 2 for IPv6. -/
def destination_kind (addr : Option sockaddr) : Nat :=
  match addr with
  | none => 0
  | some a => if a.sa_family = AF_INET then 1 else 2

/-- The address a decoded lookup is answered to: the source address when no
destination was encoded, else an address of the destination's family with its
address and port bytes and every other byte zero. -/
def reply_address (addr : Option sockaddr) (src : sockaddr) : sockaddr :=
  match addr with
  | none => src
  | some a =>
    { sa_family := a.sa_family, port := a.port, addr := a.addr, rest := List.replicate 8 0 }

/-- The length stored with the reply address: the length of the source address,
or the size of the socket address of the destination's family. -/
def reply_address_len (addr : Option sockaddr) (srclen : Nat) : Nat :=
  match addr with
  | none => srclen
  | some a => if a.sa_family = AF_INET then sizeof_sockaddr_in else sizeof_sockaddr_in6

/-- A destination the lookup encoder accepts: no address with `addr_len = 0`,
an IPv4 address (4 address bytes, 2 port bytes) of at least
`sizeof(struct sockaddr_in)` bytes, or an IPv6 address (16 address bytes, 2
port bytes) of at least `sizeof(struct sockaddr_in6)` bytes. -/
def valid_destination (addr : Option sockaddr) (addr_len : Nat) : Prop :=
  match addr with
  | none => addr_len = 0
  | some a =>
    (a.sa_family = AF_INET ∧ sizeof_sockaddr_in ≤ addr_len) ∨
    (a.sa_family = AF_INET6 ∧ sizeof_sockaddr_in6 ≤ addr_len)

instance (addr : Option sockaddr) (addr_len : Nat) :
    Decidable (valid_destination addr addr_len) := by
  cases addr <;> simp only [valid_destination] <;> infer_instance

/-- The sizes the type of a socket address fixes: 2 port bytes, and 4 address
bytes for `AF_INET`, 16 for `AF_INET6`. -/
def sockaddr_sized (addr : Option sockaddr) : Prop :=
  match addr with
  | none => True
  | some a =>
    a.port.length = 2 ∧ (a.sa_family = AF_INET → a.addr.length = 4) ∧
    (a.sa_family = AF_INET6 → a.addr.length = 16)

instance (addr : Option sockaddr) : Decidable (sockaddr_sized addr) := by
  cases addr <;> simp only [sockaddr_sized] <;> infer_instance

/-- A key length the encoders accept: 8, 16, 32 or 64 bytes. -/
def valid_key_len (key_len : Nat) : Prop :=
  key_len = 8 ∨ key_len = 16 ∨ key_len = 32 ∨ key_len = 64

instance (key_len : Nat) : Decidable (valid_key_len key_len) := by
  unfold valid_key_len; infer_instance

/-- The key-size code stored in the high nibble of `extra` by the response
encoder: 0, 1, 2, 3 for 8, 16, 32, 64 bytes. -/
def key_size_code (key_len : Nat) : Nat :=
  if key_len = 8 then 0 else if key_len = 16 then 1 else if key_len = 32 then 2 else 3

/-- The 64-bit word `key[i]` of the decoded key bytes (little endian). -/
def key_word (key : List Nat) (i : Nat) : Nat :=
  ((key.drop (8 * i)).take 8).foldr (fun b acc => b + 256 * acc) 0

/-! ## Sample packets -/

/-- The correlation `0xDEADBEEF` of the spec's scenario 5, 4 bytes. -/
def sample_correlation : List Nat := [0xDE, 0xAD, 0xBE, 0xEF]

/-- An 8-byte key, the word `0x0807060504030201`. -/
def sample_key : List Nat := [1, 2, 3, 4, 5, 6, 7, 8]

/-- An IPv4 source address, 16 bytes long. -/
def sample_source : sockaddr :=
  { sa_family := AF_INET, port := [0x1F, 0x90], addr := [192, 0, 2, 1],
    rest := List.replicate 8 0 }

/-- An IPv6 destination. -/
def sample_destination6 : sockaddr :=
  { sa_family := AF_INET6, port := [0x00, 0x35],
    addr := [0x20, 0x01, 0x0d, 0xb8, 0, 0, 0, 0, 0, 0, 0, 0, 0, 0, 0, 1],
    rest := List.replicate 8 0 }

/-- A lookup datagram of 35 bytes whose key section has 3 bytes: an 8-byte
correlation, no destination, the UUID `sample_uuid` and the key bytes 1, 2, 3. -/
def short_key_datagram : List Nat :=
  header_bytes { len := 35, type := 0, extra := 0, expiry := 0 } ++
    zero_padded sample_correlation 8 ++ sample_uuid ++ [1, 2, 3]

/-- A lookup datagram of 32 bytes with an empty key section. -/
def empty_key_datagram : List Nat :=
  header_bytes { len := 32, type := 0, extra := 0, expiry := 0 } ++
    zero_padded sample_correlation 8 ++ sample_uuid

/-! ## namespace.h and namespace.c -/

/-- The word `uuid[i]` of the union in `struct jetex_table`: bytes `8 * i` to
`8 * i + 7` of `uuid_bytes` read as one `uint64_t` in host order (little
endian, as on x86-64 and AArch64). -/
def jetex_table.uuid (table : jetex_table) (i : Nat) : Nat :=
  ((table.uuid_bytes.drop (8 * i)).take 8).foldr (fun b acc => b % 256 + 256 * acc) 0

/-- The function `cmp_jetex_table_ptr`.  A `const struct jetex_table *` is the
address of the table, and `mem` gives the table an address points to. -/
def cmp_jetex_table_ptr (mem : Nat → jetex_table) (px py : Nat) : Int :=
  let x := mem px
  let y := mem py
  if x.uuid 0 ≠ y.uuid 0 then
    if x.uuid 0 < y.uuid 0 then -1 else 1
  else if x.uuid 1 ≠ y.uuid 1 then
    if x.uuid 1 < y.uuid 1 then -1 else 1
  else 0

/-- The library function `qsort` on an array given as a list, driven by the
comparison function `compar`.  The C standard fixes the result only up to the
order of elements that compare equal; the embedding takes an insertion sort. -/
def qsort {α : Type} (compar : α → α → Int) (base : List α) : List α :=
  base.insertionSort (fun x y => compar x y ≤ 0)

/-- The `struct jetex_namespace`: `ntable` and the flexible array `tables` of
table addresses. -/
structure jetex_namespace where
  ntable : Nat
  tables : List Nat
  deriving DecidableEq, Repr

/-- The function `jetex_namespace_create` (`calloc` is taken to succeed); the
argument list is the array `tables[0 .. n - 1]`. -/
def jetex_namespace_create (mem : Nat → jetex_table) (tables : List Nat) : jetex_namespace :=
  { ntable := tables.length,
    tables := qsort (cmp_jetex_table_ptr mem) tables }

/-- The order of the specification on UUIDs: by the first 8 bytes, then by the
next 8, each compared as an unsigned 64-bit word in host order. -/
def uuid_le (x y : jetex_table) : Prop :=
  x.uuid 0 < y.uuid 0 ∨ (x.uuid 0 = y.uuid 0 ∧ x.uuid 1 ≤ y.uuid 1)

instance (x y : jetex_table) : Decidable (uuid_le x y) := by
  unfold uuid_le; infer_instance

/-- A table with the given UUID bytes and no fragment. -/
def table_of_uuid (uuid_bytes : List Nat) : jetex_table :=
  { uuid_bytes := uuid_bytes, min_fragment := 0, n_fragment := 0, fragment_shift := 64,
    fragments := [] }

/-- A memory with four tables, at addresses 0x1000, 0x2000, 0x3000 and 0x4000
(every other address holds the table of 0x1000). -/
def sample_tables (addr : Nat) : jetex_table :=
  if addr = 0x2000 then table_of_uuid ([0, 0, 0, 0, 0, 0, 0, 1] ++ List.replicate 8 0)
  else if addr = 0x3000 then table_of_uuid ([1, 0, 0, 0, 0, 0, 0, 0] ++ List.replicate 8 9)
  else if addr = 0x4000 then table_of_uuid ([1, 0, 0, 0, 0, 0, 0, 0] ++ List.replicate 8 2)
  else table_of_uuid (List.replicate 16 0xFF)

/-! ## Scenario 1 of the specification -/

/-- The view of the spec's scenario 1 over the item array `items`: one-word
keys, two-word items, `min = 100`, `range = 9`, `max_displacement = 0`, ten
slots, with the given multiplier. -/
def scenario_view (multiplier : Nat) (items : Nat → Nat) : fragment :=
  { data := some
      { addr := 4096,
        header :=
          { magic := FRAGMENT_HEADER_MAGIC, version := 0, pattern := 0, n_bits := 0,
            key_size := 1, item_size := 2, max_displacement := 0, table_size := 288,
            min := 100, max := 109, multiplier := multiplier },
        items := items },
    n_bytes := 160, min := 100, range := 9, multiplier := multiplier, item_size := 2,
    max_displacement := 0, key_size := 1, fd := 3, data_offset := 288 }

/-- The two-word item a result of `fragment_lookup` points to: its key word and
its value word (`none` for the `NULL` result). -/
def item_at (items : Nat → Nat) (r : Option Nat × Nat) : Option (Nat × Nat) :=
  r.1.map (fun p => (items p, items (p + 1)))

/-- An item array with the items `(100, 7)`, `(105, 8)` and `(109, 9)` in slots
0, 4 and 8 of two words each, every other word being `2^64 - 1`. -/
def scenario_items : Nat → Nat := fun i =>
  if i = 0 then 100 else if i = 1 then 7
  else if i = 8 then 105 else if i = 9 then 8
  else if i = 16 then 109 else if i = 17 then 9
  else UINT64_MAX

/-! ## The probe loop and the way it leaves -/

/-- The ways the probe loop of `lookup8`, `lookup16`, `lookup32` and `lookup64`
leaves: `return &data[offset]`, the `return NULL` inside the loop (taken in
iteration `i`, when the first word of the slot is greater than `key0`), and the
`return NULL` after the loop. -/
inductive probe_exit where
  | found (offset : Nat)
  | greater (i : Nat)
  | exhausted
  deriving DecidableEq, Repr

/-- The pointer a probe loop returns. -/
def probe_exit.result : probe_exit → Option Nat
  | probe_exit.found offset => some offset
  | probe_exit.greater _ => none
  | probe_exit.exhausted => none

/-- The test under which the probe loop for keys of `key_size` words returns
the slot at word `offset` (lines 215, 250, 287-289 and the same test of
`lookup64` on eight words). -/
def slot_accepted (key_size : Nat) (data key : Nat → Nat) (offset : Nat) : Prop :=
  if key_size = 1 then data offset = key 0
  else if key_size = 2 then
    ((data offset ^^^ key 0) ||| (data (add64 offset 1) &&& key 1)) = 0
  else if key_size = 4 then
    ((data offset ^^^ key 0) ||| (data (add64 offset 1) &&& key 1)) = 0 ∧
      (key 2 = data (add64 offset 2) ∧ key 3 = data (add64 offset 3))
  else
    ((data offset ^^^ key 0) ||| (data (add64 offset 1) &&& key 1)) = 0 ∧
      (key 2 = data (add64 offset 2) ∧ key 3 = data (add64 offset 3) ∧
       key 4 = data (add64 offset 4) ∧ key 5 = data (add64 offset 5) ∧
       key 6 = data (add64 offset 6) ∧ key 7 = data (add64 offset 7))

instance (key_size : Nat) (data key : Nat → Nat) (offset : Nat) :
    Decidable (slot_accepted key_size data key offset) := by
  unfold slot_accepted; infer_instance

/-- The probe loop the four lookup functions share, keeping the way it leaves:
`i` is the loop counter, `n` the number of iterations left and `offset` the
cursor. -/
def probe_loop (key_size : Nat) (data key : Nat → Nat) (item_size : Nat) :
    Nat → Nat → Nat → probe_exit
  | 0, _, _ => probe_exit.exhausted
  | n + 1, i, offset =>
    if slot_accepted key_size data key offset then probe_exit.found offset
    else if data offset > key 0 then probe_exit.greater i
    else probe_loop key_size data key item_size n (i + 1) (add64 offset item_size)

/-- The probe loop `fragment_lookup` runs for `key` on the view `f` over the
item array `data`: `max_displacement + 1` iterations from slot `guess`. -/
def fragment_probe (f : fragment) (data key : Nat → Nat) : probe_exit :=
  probe_loop f.key_size data key f.item_size (f.max_displacement + 1) 0
    (mul64 (scale (sub64 (key 0) f.min) f.multiplier) f.item_size)

/-- The key is the one the lookup functions answer before the loop: first word
`min + range` and every further key word `UINT64_MAX`. -/
def sentinel_key (f : fragment) (key : Nat → Nat) : Prop :=
  key 0 = add64 f.min f.range ∧ ∀ w, w < f.key_size → 1 ≤ w → key w = UINT64_MAX

instance (f : fragment) (key : Nat → Nat) : Decidable (sentinel_key f key) := by
  unfold sentinel_key; infer_instance

/-- The first words of the slots of a probe window of `max_displacement + 1`
slots starting at word `offset` are non-decreasing. -/
def window_sorted (data : Nat → Nat) (offset item_size max_displacement : Nat) : Prop :=
  ∀ b, b ≤ max_displacement → ∀ a, a ≤ b →
    data (probe_offset offset item_size a) ≤ data (probe_offset offset item_size b)

instance (data : Nat → Nat) (offset item_size max_displacement : Nat) :
    Decidable (window_sorted data offset item_size max_displacement) := by
  unfold window_sorted; infer_instance

/-! ## Times in milliseconds -/

/-- The time of a `struct timeval` in milliseconds, `tv_sec * 1000 + tv_usec /
1000`, before the conversion to `uint32_t`. -/
def millis (tv : timeval) : Int := tv.tv_sec * 1000 + Int.tdiv tv.tv_usec 1000

/-- The time whose low 24 bits `jetex_packet_set_deadline` writes into the
header for the deadline `tv`: `tv` itself, or one millisecond later when the
low 24 bits of `tv` are zero (line 110: the field value 0 means "no limit"). -/
def stored_deadline (tv : timeval) : Int :=
  if millis tv % 2 ^ 24 = 0 then millis tv + 1 else millis tv

/-! ## A view that takes every field from the header -/

/-- The view over a mapped file whose `min`, `range`, `multiplier`,
`item_size`, `max_displacement` and `key_size` are those of the header
(`fragment_map` itself leaves `item_size` and `key_size` zero). -/
def view_of_header (file : File) : fragment :=
  { data := some { addr := file.addr, header := file.header, items := file.items },
    n_bytes := sub64 file.header.table_size sizeof_header,
    min := file.header.min,
    range := sub64 file.header.max file.header.min,
    multiplier := file.header.multiplier,
    item_size := file.header.item_size,
    max_displacement := file.header.max_displacement,
    key_size := file.header.key_size,
    fd := file.fd,
    data_offset := file.header.table_size }

/-- A file of 240 bytes: the 128-byte header and an item array of 14 words,
that is seven two-word slots, numbered 0 to 6, with the keys 100, 101, 102,
103, 105, 106, 107 and the value 0.  The header has `min = 100`, `max = 109`,
`multiplier = 2^63` and `max_displacement = 3`, so the probe window of key 108
is slots 4 to 7.  The words from 14 on lie after the end of the file; `tail` is
what the memory after the mapped file holds. -/
def short_file (tail : Nat) : File :=
  { fd := 3,
    header :=
      { magic := FRAGMENT_HEADER_MAGIC, version := 0, pattern := 0, n_bits := 0,
        key_size := 1, item_size := 2, max_displacement := 3, table_size := 240,
        min := 100, max := 109, multiplier := 2 ^ 63 },
    st_size := some 240,
    items := fun i =>
      if i < 14 then
        if i % 2 = 0 then 100 + i / 2 + (if i ≥ 8 then 1 else 0) else 0
      else tail,
    addr := 4096 }

/-! ## Sample responses -/

/-- A 9-byte correlation: two 8-byte words on the wire. -/
def long_correlation : List Nat := [1, 2, 3, 4, 5, 6, 7, 8, 9]

/-- A 16-byte key. -/
def wide_key : List Nat := List.replicate 16 0x5A

/-! ## table.c: destruction -/

/-- The pointer `fragment->data` as an integer, `(uintptr_t)fragment->data`:
the base address of the mapping, and 0 for `NULL`. -/
def data_pointer (f : fragment) : Nat :=
  match f.data with
  | none => 0
  | some map => map.addr

/-- The function `cmp_fragment`. -/
def cmp_fragment (x y : fragment) : Int :=
  if data_pointer x ≠ data_pointer y then
    if data_pointer x < data_pointer y then -1 else 1
  else 0

/-- The loop of `jetex_table_destroy` over the sorted slots (lines 191-200),
with `last_data` as an integer: the addresses given to `munmap`, in order. -/
def destroy_walk : List fragment → Nat → List Nat
  | [], _ => []
  | f :: rest, last_data =>
    if f.data.isSome ∧ data_pointer f ≠ last_data then
      match fragment_unmap f with
      | some region => region.1 :: destroy_walk rest (data_pointer f)
      | none => destroy_walk rest (data_pointer f)
    else destroy_walk rest (data_pointer f)

/-- The function `jetex_table_destroy`: the addresses it gives to `munmap`, in
order (`none` is the `NULL` table).  It sorts and walks the first
`table->n_fragment` slots. -/
def jetex_table_destroy (table : Option jetex_table) : List Nat :=
  match table with
  | none => []
  | some t => destroy_walk (qsort cmp_fragment (t.fragments.take t.n_fragment)) 0

/-- The input that owns slot `j` in the placement loop of `jetex_table_create`:
`slot_index[j]` when the slot holds a mapping, and `none` for an empty slot. -/
def slot_owner (st : build_state) (j : Nat) : Option Nat :=
  match st.slots[j]? with
  | none => none
  | some f => if f.data.isSome then some (st.slot_index.getD j 0) else none

/-- The owners of all slots, slot 0 first. -/
def owners (st : build_state) : List (Option Nat) :=
  (List.range st.slots.length).map (slot_owner st)

/-- A fragment with `n_bits = 7` and pattern `0x02 << 56`: two slots of a table
with `n_bits = 8`. -/
def file_pair : File := prefix_file 8 (0x02 <<< 56) 7 0x60000

/-- A second fragment with the prefix of `file_a`, mapped elsewhere. -/
def file_shadowed : File := prefix_file 9 (0x00 <<< 56) 8 0x70000

/-- The table built from `file_shadowed`, `file_a` and `file_pair`, in this
order: `file_a` takes slot 0 from `file_shadowed`, slot 1 is empty and
`file_pair` holds slots 2 and 3. -/
def table_shared : created :=
  { table :=
      { uuid_bytes := sample_uuid, min_fragment := 0, n_fragment := 4, fragment_shift := 56,
        fragments :=
          [mapped_view file_a, fragment.zero, mapped_view file_pair, mapped_view file_pair] },
    refcounts := [0, 1, 2],
    unmapped := [0x70000] }

/-- The invariant of the placement loop of `jetex_table_create` over the
mapped inputs `fragments`: `slot_index` is as long as the slot array,
`refcounts` as long as the inputs, every owned slot holds a copy of the view of
its owner, and `refcounts[k]` is the number of slots input `k` owns. -/
def placed_inv (fragments : List fragment) (st : build_state) : Prop :=
  st.slot_index.length = st.slots.length ∧
  st.refcounts.length = fragments.length ∧
  (∀ j k, slot_owner st j = some k →
    k < fragments.length ∧ st.slots[j]? = fragments[k]?) ∧
  (∀ k, k < fragments.length → st.refcounts.getD k 0 = (owners st).count (some k))

/-! ## Lemmas on the machine arithmetic -/

theorem sub64_of_le {a b : Nat} (ha : a < 2 ^ 64) (hb : b ≤ a) : sub64 a b = a - b := by
  unfold sub64
  have hb' : b % 2 ^ 64 = b := Nat.mod_eq_of_lt (by omega)
  rw [hb']
  have : a + 2 ^ 64 - b = (a - b) + 2 ^ 64 := by omega
  rw [this, Nat.add_mod_right]
  exact Nat.mod_eq_of_lt (by omega)

theorem sub64_of_lt {a b : Nat} (hb : b < 2 ^ 64) (hab : a < b) :
    sub64 a b = a + 2 ^ 64 - b := by
  unfold sub64
  rw [Nat.mod_eq_of_lt hb]
  exact Nat.mod_eq_of_lt (by omega)

theorem scale_lt (delta multiplier : Nat) : scale delta multiplier < 2 ^ 64 := by
  unfold scale
  exact Nat.mod_lt _ (by norm_num)

/-! ## Fragment lookup -/

/-- The probe loop of `lookup8` over a window whose first words are
non-decreasing: it returns the first slot of the window whose first word is
`key0`, and returns `NULL` only when no slot of the window has it. -/
theorem lookup8_loop_round_trip (data : Nat → Nat) (key0 item_size : Nat) :
    ∀ (n offset : Nat),
      (∀ i j, i ≤ j → j < n →
        data (probe_offset offset item_size i) ≤ data (probe_offset offset item_size j)) →
      match lookup8_loop data key0 item_size n offset with
      | some r => ∃ i, i < n ∧ r = probe_offset offset item_size i ∧ data r = key0 ∧
          ∀ j, j < i → data (probe_offset offset item_size j) ≠ key0
      | none => ∀ i, i < n → data (probe_offset offset item_size i) ≠ key0
  | 0, offset, _ => by
    simp only [lookup8_loop]
    intro i hi
    exact absurd hi (Nat.not_lt_zero i)
  | n + 1, offset, hmono => by
    simp only [lookup8_loop]
    by_cases heq : data offset = key0
    · rw [if_pos heq]
      exact ⟨0, Nat.succ_pos n, rfl, heq, fun j hj => absurd hj (Nat.not_lt_zero j)⟩
    · rw [if_neg heq]
      by_cases hgt : data offset > key0
      · rw [if_pos hgt]
        intro i hi
        have := hmono 0 i (Nat.zero_le i) hi
        simp only [probe_offset] at this
        omega
      · rw [if_neg hgt]
        have ih := lookup8_loop_round_trip data key0 item_size n (add64 offset item_size)
          (fun i j hij hj => hmono (i + 1) (j + 1) (by omega) (by omega))
        cases hres : lookup8_loop data key0 item_size n (add64 offset item_size) with
        | none =>
          rw [hres] at ih
          intro i hi
          cases i with
          | zero => exact heq
          | succ k => exact ih k (by omega)
        | some r =>
          rw [hres] at ih
          obtain ⟨i, hi, hr, hd, hfirst⟩ := ih
          refine ⟨i + 1, by omega, hr, hd, ?_⟩
          intro j hj
          cases j with
          | zero => exact heq
          | succ k => exact hfirst k (by omega)

/-- With one-word keys, an in-range key that is not the tail sentinel is looked
up by the probe loop of `lookup8`, and `*OUT_item_size` is `item_size`. -/
theorem fragment_lookup_key_size_one (f : fragment) (map : Mapping) (key : Nat → Nat)
    (hdata : f.data = some map) (hsize : f.key_size = 1)
    (hrange : sub64 (key 0) f.min ≤ f.range) (hsent : key 0 ≠ add64 f.min f.range) :
    fragment_lookup f key =
      (lookup8_loop map.items (key 0) f.item_size (f.max_displacement + 1)
        (mul64 (scale (sub64 (key 0) f.min) f.multiplier) f.item_size), f.item_size) := by
  simp only [fragment_lookup, hdata, hsize, lookup8]
  rw [if_neg (by omega), if_neg hsent]
  simp

/-- C1, evaluated on `pair_view`: the only slot of the probe window holds the
key words `(7, 5)`, the key `(7, 5)` is in range and is not the tail sentinel,
and `fragment_lookup` returns `NULL` for it, because `lookup16` accepts a slot
only when `c1 & key1` is zero; the key `(7, 2)`, stored nowhere, is found at
slot 0. -/
theorem lookup16_misses_stored_key :
    pair_view.key_size = 2 ∧ pair_view.key_size ≤ pair_view.item_size ∧
    pair_view.min ≤ key_of 7 5 0 ∧ key_of 7 5 0 < pair_view.min + pair_view.range ∧
    scale (key_of 7 5 0 - pair_view.min) pair_view.multiplier = 0 ∧
    pair_view.max_displacement = 0 ∧
    pair_items (0 * pair_view.item_size) = key_of 7 5 0 ∧
    pair_items (0 * pair_view.item_size + 1) = key_of 7 5 1 ∧
    fragment_lookup pair_view (key_of 7 5) = (none, 2) ∧
    pair_items (0 * pair_view.item_size + 1) ≠ key_of 7 2 1 ∧
    fragment_lookup pair_view (key_of 7 2) = (some 0, 2) := by
  decide

/-- A view made by `fragment_map` has `key_size = 0` and `item_size = 0`
whatever the header says, and every lookup on it returns `NULL` with
`*OUT_item_size = 0`. -/
theorem fragment_map_sizes (file : File) (f : fragment) (key : Nat → Nat)
    (h : fragment_map file = some f) :
    f.key_size = 0 ∧ f.item_size = 0 ∧ fragment_lookup f key = (none, 0) := by
  unfold fragment_map at h
  split at h
  · exact absurd h (by simp)
  · have hf := (Option.some.inj h).symm
    subst hf
    refine ⟨rfl, rfl, ?_⟩
    simp only [fragment_lookup]
    split <;> rfl

/-- C2, evaluated on `sample_file`: the header passes validation with
`key_size = 1` and `item_size = 2`, yet the view `fragment_map` returns has
`key_size = 0` and `item_size = 0`, and looking up the in-range key 105 takes
the `default` branch: `NULL`, `*OUT_item_size = 0`. -/
theorem fragment_map_forgets_key_and_item_size :
    validate_header sample_file.header sample_file.st_size = 0 ∧
    sample_file.header.key_size = 1 ∧ sample_file.header.item_size = 2 ∧
    (fragment_map sample_file).map (fun f => (f.key_size, f.item_size)) = some (0, 0) ∧
    (fragment_map sample_file).map (fun f => fragment_lookup f (key_of 105 0)) =
      some (none, 0) := by
  decide

/-- C3, evaluated on `sentinel_view`: for the key `min + range = 109` the guess
is slot 4, the slot at `guess + max_displacement` starts at word
`(4 + 3) * 2 = 14`, and `fragment_lookup` returns word
`4 * 2 + 3 = 11` instead. -/
theorem sentinel_offset_not_scaled :
    key_of 109 0 0 = sentinel_view.min + sentinel_view.range ∧
    scale sentinel_view.range sentinel_view.multiplier = 4 ∧
    (scale sentinel_view.range sentinel_view.multiplier + sentinel_view.max_displacement) *
      sentinel_view.item_size = 14 ∧
    fragment_lookup sentinel_view (key_of 109 0) = (some 11, 2) := by
  decide

/-- C4: a key whose first word is below `min` or above `min + range` is not
found and `*OUT_item_size` is 0; the wrapped difference `key[0] - min` exceeds
`range` in both cases. -/
theorem fragment_lookup_out_of_range (f : fragment) (key : Nat → Nat)
    (hview : f.min + f.range ≤ UINT64_MAX) (hkey : key 0 < 2 ^ 64)
    (hout : key 0 < f.min ∨ key 0 > f.min + f.range) :
    sub64 (key 0) f.min > f.range ∧ fragment_lookup f key = (none, 0) := by
  unfold UINT64_MAX at hview
  have hdelta : sub64 (key 0) f.min > f.range := by
    rcases hout with hlt | hgt
    · rw [sub64_of_lt (by omega) hlt]; omega
    · rw [sub64_of_le hkey (by omega)]; omega
  refine ⟨hdelta, ?_⟩
  simp only [fragment_lookup]
  split
  · rfl
  · rw [if_pos hdelta]

/-- The view `sentinel_view` (keys 100..109) misses key 99 and key 110. -/
theorem fragment_lookup_out_of_range_witness :
    (sub64 (key_of 99 0 0) sentinel_view.min > sentinel_view.range ∧
      fragment_lookup sentinel_view (key_of 99 0) = (none, 0)) ∧
    (sub64 (key_of 110 0 0) sentinel_view.min > sentinel_view.range ∧
      fragment_lookup sentinel_view (key_of 110 0) = (none, 0)) :=
  ⟨fragment_lookup_out_of_range sentinel_view (key_of 99 0) (by decide) (by decide)
      (Or.inl (by decide)),
   fragment_lookup_out_of_range sentinel_view (key_of 110 0) (by decide) (by decide)
      (Or.inr (by decide))⟩

/-! ## Header validation -/

/-- The size-bound block of `validate_header` rejects exactly the headers whose
last probed slot, computed over the natural numbers, ends beyond `table_size`. -/
theorem size_rejected_iff (h : fragment_header) (hr : h.inRange) (hi : 1 ≤ h.item_size)
    (hm : h.min ≤ h.max) :
    size_rejected h = false ↔
      (scale (h.max - h.min) h.multiplier + h.max_displacement) * h.item_size * 8 + 128
        ≤ h.table_size := by
  obtain ⟨-, -, -, -, -, his, hmd, hts, hmin, hmax, -⟩ := hr
  have hsub : sub64 h.max h.min = h.max - h.min := sub64_of_le hmax hm
  have hg := scale_lt (h.max - h.min) h.multiplier
  generalize hgdef : scale (h.max - h.min) h.multiplier = g at hg
  unfold size_rejected
  simp only [hsub, hgdef, UINT64_MAX, sizeof_header, add64, mul64]
  generalize h.max_displacement = md at hmd ⊢
  generalize h.item_size = isz at his hi ⊢
  generalize h.table_size = ts at hts ⊢
  have hpos : 0 < 8 * isz := by omega
  by_cases h1 : 2 ^ 64 - 1 - g < md
  · rw [if_pos h1]
    have : g + md ≤ (g + md) * isz := Nat.le_mul_of_pos_right _ (by omega)
    constructor
    · intro hf; exact absurd hf (by simp)
    · intro hb; omega
  · rw [if_neg h1]
    have hM : (g + md) % 2 ^ 64 = g + md := Nat.mod_eq_of_lt (by omega)
    rw [hM]
    by_cases h2 : g + md > (2 ^ 64 - 1) / (8 * isz)
    · rw [if_pos h2]
      have : 2 ^ 64 - 1 < (g + md) * (8 * isz) := (Nat.div_lt_iff_lt_mul hpos).1 h2
      have e : (g + md) * (8 * isz) = (g + md) * isz * 8 := by ring
      constructor
      · intro hf; exact absurd hf (by simp)
      · intro hb; omega
    · rw [if_neg h2]
      have h2' : (g + md) * (8 * isz) ≤ 2 ^ 64 - 1 :=
        (Nat.le_div_iff_mul_le hpos).1 (by omega)
      have e : (g + md) * (8 * isz) = (g + md) * isz * 8 := by ring
      have e8 : (g + md) * 8 ≤ (g + md) * (8 * isz) := by
        rw [← Nat.mul_assoc]; exact Nat.le_mul_of_pos_right _ (by omega)
      have m1 : (g + md) * 8 % 2 ^ 64 = (g + md) * 8 := Nat.mod_eq_of_lt (by omega)
      have e2 : (g + md) * 8 * isz = (g + md) * isz * 8 := by ring
      have m2 : (g + md) * 8 * isz % 2 ^ 64 = (g + md) * isz * 8 := by
        rw [e2]; exact Nat.mod_eq_of_lt (by omega)
      rw [m1, m2]
      generalize (g + md) * isz * 8 = off at *
      by_cases h3 : off > 2 ^ 64 - 1 - 128
      · rw [if_pos h3]
        constructor
        · intro hf; exact absurd hf (by simp)
        · intro hb; omega
      · rw [if_neg h3]
        have m3 : (off + 128) % 2 ^ 64 = off + 128 := Nat.mod_eq_of_lt (by omega)
        rw [m3]
        simp only [decide_eq_false_iff_not, not_lt, gt_iff_lt]

/-- C5: for a header that passes the magic, version, pattern, key_size,
item_size and `max >= min` checks, the size-bound step of `validate_header`
passes iff `(scale(max - min, multiplier) + max_displacement) * item_size * 8 +
sizeof(header) <= table_size` holds over the natural numbers, and
`validate_header` accepts iff that bound holds and the `fstat` step passes. -/
theorem size_check_exact (h : fragment_header) (st_size : Option Nat) (hr : h.inRange)
    (hmagic : h.magic = FRAGMENT_HEADER_MAGIC) (hversion : h.version = 0)
    (hpattern : pattern_rejected h = false)
    (hkey : h.key_size = 1 ∨ h.key_size = 2 ∨ h.key_size = 4 ∨ h.key_size = 8)
    (hitem : h.key_size ≤ h.item_size) (hm : h.min ≤ h.max) :
    (size_rejected h = false ↔
      (scale (h.max - h.min) h.multiplier + h.max_displacement) * h.item_size * 8
        + sizeof_header ≤ h.table_size) ∧
    (validate_header h st_size = 0 ↔
      ((scale (h.max - h.min) h.multiplier + h.max_displacement) * h.item_size * 8
        + sizeof_header ≤ h.table_size ∧ fstat_rejected h st_size = false)) := by
  have hi : 1 ≤ h.item_size := by omega
  have hsz := size_rejected_iff h hr hi hm
  have hk : ¬ (h.key_size ≠ 1 ∧ h.key_size ≠ 2 ∧ h.key_size ≠ 4 ∧ h.key_size ≠ 8) := by
    omega
  refine ⟨hsz, ?_⟩
  unfold validate_header
  rw [if_neg (by simpa using hmagic), if_neg (by simpa using hversion), hpattern,
    if_neg (by simp), if_neg hk, if_neg (by omega), if_neg (by omega)]
  unfold sizeof_header
  rw [← hsz]
  cases hs : size_rejected h <;> cases hf : fstat_rejected h st_size <;> simp

/-- The header `sample_header` needs `(4 + 3) * 2 * 8 + 128 = 240` bytes, which
its `table_size` of 256 covers: the size-bound step passes and, with a file of
256 bytes, the header is accepted. -/
theorem size_check_exact_witness :
    (size_rejected sample_header = false ↔
      (scale (sample_header.max - sample_header.min) sample_header.multiplier
        + sample_header.max_displacement) * sample_header.item_size * 8
        + sizeof_header ≤ sample_header.table_size) ∧
    (validate_header sample_header (some 256) = 0 ↔
      ((scale (sample_header.max - sample_header.min) sample_header.multiplier
        + sample_header.max_displacement) * sample_header.item_size * 8
        + sizeof_header ≤ sample_header.table_size ∧
        fstat_rejected sample_header (some 256) = false)) :=
  size_check_exact sample_header (some 256) (by decide) (by decide) (by decide) (by decide)
    (by decide) (by decide) (by decide)

/-- What the `fstat` step of `validate_header` enforces: an accepted header has
a `table_size` that is at least the size of the file. -/
theorem validate_header_file_size (h : fragment_header) (size : Nat)
    (hsize : size < 2 ^ 64) (hv : validate_header h (some size) = 0) :
    size ≤ h.table_size := by
  unfold validate_header at hv
  repeat' split at hv
  all_goals first
    | exact absurd hv (by decide)
    | skip
  rename_i hf
  simp only [fstat_rejected, Nat.mod_eq_of_lt hsize, decide_eq_true_eq] at hf
  omega

/-- C6, evaluated on `sample_header` (`table_size = 256`): a file of 0 bytes
and a file of 255 bytes, both shorter than `table_size`, are accepted, and a
file of 257 bytes, longer than `table_size`, is rejected: the comparison of the
`fstat` step is the reverse of `table_size <= file size`. -/
theorem validate_header_accepts_short_file :
    sample_header.table_size = 256 ∧
    validate_header sample_header (some 0) = 0 ∧
    validate_header sample_header (some 255) = 0 ∧
    validate_header sample_header (some 256) = 0 ∧
    validate_header sample_header (some 257) = -1 := by
  decide

/-! ## Invariants of the placement loop -/

theorem place_slot_slots {n_fragment n i : Nat} {cur : fragment} {st st1 : build_state}
    {j : Nat} (h : place_slot n_fragment n i cur st j = Except.ok st1) :
    st1.slots = st.slots.set j cur := by
  unfold place_slot at h
  split at h
  · exact absurd h (by simp)
  · split at h
    · exact absurd h (by simp)
    · split at h
      · exact absurd h (by simp)
      · split at h
        · exact absurd h (by simp)
        · injection h with h
          rw [← h]

theorem place_range_slots {n_fragment n i : Nat} {cur : fragment} :
    ∀ (count j : Nat) (st st1 : build_state),
      place_range n_fragment n i cur count j st = Except.ok st1 →
      ∀ (k : Nat) (f : fragment), st1.slots[k]? = some f →
        (f = cur ∧ j ≤ k ∧ k < j + count) ∨ st.slots[k]? = some f
  | 0, j, st, st1, h, k, f, hk => by
    unfold place_range at h
    injection h with h
    subst h
    exact Or.inr hk
  | count + 1, j, st, st1, h, k, f, hk => by
    unfold place_range at h
    split at h
    · exact absurd h (by simp)
    · rename_i st2 hs
      have hset := place_slot_slots hs
      rcases place_range_slots count (j + 1) st2 st1 h k f hk with ⟨hf, hj, hlt⟩ | hold
      · exact Or.inl ⟨hf, by omega, by omega⟩
      · rw [hset, List.getElem?_set] at hold
        split at hold
        · rename_i hjk
          split at hold
          · left
            injection hold with hold
            exact ⟨hold.symm, by omega, by omega⟩
          · exact absurd hold (by simp)
        · exact Or.inr hold

theorem place_all_slots {n_fragment n min_fragment fragment_shift : Nat} :
    ∀ (fragments : List fragment) (i : Nat) (st st1 : build_state),
      place_all n_fragment n min_fragment fragment_shift fragments i st = Except.ok st1 →
      ∀ (k : Nat) (f : fragment), st1.slots[k]? = some f →
        st.slots[k]? = some f ∨
        ∃ map, f ∈ fragments ∧ f.data = some map ∧
          slot_lo min_fragment fragment_shift map.header ≤ k ∧
          k ≤ slot_hi min_fragment fragment_shift map.header
  | [], i, st, st1, h, k, f, hk => by
    unfold place_all at h
    injection h with h
    subst h
    exact Or.inl hk
  | cur :: rest, i, st, st1, h, k, f, hk => by
    unfold place_all at h
    split at h
    · exact absurd h (by simp)
    · rename_i st2 hs
      rcases place_all_slots rest (i + 1) st2 st1 h k f hk with hold | ⟨map, hmem, hdata, hlo, hhi⟩
      · unfold place_fragment at hs
        split at hs
        · exact absurd hs (by simp)
        · rename_i map hdata
          rcases place_range_slots _ _ st st2 hs k f hold with ⟨hf, hj, hlt⟩ | hold0
          · right
            subst hf
            exact ⟨map, List.mem_cons_self _ _, hdata, hj, by omega⟩
          · exact Or.inl hold0
      · exact Or.inr ⟨map, List.mem_cons_of_mem _ hmem, hdata, hlo, hhi⟩

theorem fragment_map_data {file : File} {cur : fragment} (h : fragment_map file = some cur) :
    validate_header file.header file.st_size = 0 ∧
    cur.data = some { addr := file.addr, header := file.header, items := file.items } := by
  unfold fragment_map at h
  split at h
  · exact absurd h (by simp)
  · rename_i hv
    injection h with h
    subst h
    exact ⟨by simpa using hv, rfl⟩

theorem map_all_mem : ∀ (fds : List File) (fragments : List fragment),
    map_all fds = some fragments →
    ∀ cur ∈ fragments, ∃ file ∈ fds, fragment_map file = some cur
  | [], fragments, h, cur, hc => by
    unfold map_all at h
    injection h with h
    subst h
    exact absurd hc (List.not_mem_nil _)
  | file :: rest, fragments, h, cur, hc => by
    unfold map_all at h
    split at h
    · rename_i f fs hf hfs
      injection h with h
      subst h
      rcases List.mem_cons.1 hc with rfl | hin
      · exact ⟨file, List.mem_cons_self _ _, hf⟩
      · obtain ⟨file1, hm, hmap⟩ := map_all_mem rest fs hfs cur hin
        exact ⟨file1, List.mem_cons_of_mem _ hm, hmap⟩
    · exact absurd h (by simp)

/-! ## What a successful scan implies -/

theorem fragment_validate_ok {file : File} (h : (fragment_validate file).1 = 0) :
    validate_header file.header file.st_size = 0 ∧
    (fragment_validate file).2.2 = file.header.n_bits := by
  unfold fragment_validate at h ⊢
  by_cases hv : validate_header file.header file.st_size = 0
  · simp [hv]
  · simp [hv] at h

theorem table_scan_step_n_bits (ret : table_scan_result) (pattern cur_n_bits : Nat) :
    ret.n_bits ≤ (table_scan_step ret pattern cur_n_bits).n_bits ∧
    cur_n_bits ≤ (table_scan_step ret pattern cur_n_bits).n_bits ∧
    (ret.n_bits < 32 → cur_n_bits < 32 →
      (table_scan_step ret pattern cur_n_bits).n_bits < 32) := by
  simp only [table_scan_step]
  split <;> omega

theorem table_scan_loop_ok : ∀ (fds : List File) (ret : table_scan_result),
    (table_scan_loop fds ret).fail = 0 →
    (∀ file ∈ fds, validate_header file.header file.st_size = 0 ∧
      file.header.n_bits < 32 ∧ file.header.n_bits ≤ (table_scan_loop fds ret).n_bits) ∧
    ret.n_bits ≤ (table_scan_loop fds ret).n_bits ∧
    (ret.n_bits < 32 → (table_scan_loop fds ret).n_bits < 32)
  | [], ret, _ => by
    unfold table_scan_loop
    exact ⟨fun _ hf => absurd hf (List.not_mem_nil _), Nat.le_refl _, fun h => h⟩
  | file :: rest, ret, h => by
    unfold table_scan_loop at h ⊢
    by_cases hbad : (fragment_validate file).1 ≠ 0 ∨ (fragment_validate file).2.2 ≥ 32
    · simp only [if_pos hbad] at h
      exact absurd h (by decide)
    · simp only [if_neg hbad] at h ⊢
      have hgood : (fragment_validate file).1 = 0 ∧ (fragment_validate file).2.2 < 32 := by
        constructor
        · by_contra hne; exact hbad (Or.inl hne)
        · by_contra hge; exact hbad (Or.inr (by omega))
      obtain ⟨hv, hn⟩ := fragment_validate_ok hgood.1
      have hlt : file.header.n_bits < 32 := hn ▸ hgood.2
      obtain ⟨hall, hmono, hbound⟩ := table_scan_loop_ok rest _ h
      obtain ⟨s1, s2, s3⟩ := table_scan_step_n_bits ret (fragment_validate file).2.1
        (fragment_validate file).2.2
      refine ⟨?_, Nat.le_trans s1 hmono, fun hr => hbound (s3 hr hgood.2)⟩
      intro f hf
      rcases List.mem_cons.1 hf with rfl | hin
      · exact ⟨hv, hlt, Nat.le_trans (hn ▸ s2) hmono⟩
      · exact hall f hin

/-! ## Prefix arithmetic -/

theorem validate_header_pattern {h : fragment_header} {st_size : Option Nat}
    (hv : validate_header h st_size = 0) : pattern_rejected h = false := by
  unfold validate_header at hv
  cases hp : pattern_rejected h
  · rfl
  · rw [hp] at hv
    simp only [if_true] at hv
    repeat' split at hv
    all_goals exact absurd hv (by decide)

theorem pattern_low_bits_zero (h : fragment_header) (hp : pattern_rejected h = false)
    (hn : 1 ≤ h.n_bits) :
    h.n_bits < 64 ∧ h.pattern % 2 ^ (64 - h.n_bits) = 0 := by
  unfold pattern_rejected at hp
  rw [if_neg (by omega)] at hp
  by_cases h64 : h.n_bits ≥ 64
  · rw [if_pos h64] at hp; exact absurd hp (by decide)
  · rw [if_neg h64] at hp
    simp only [decide_eq_false_iff_not, ne_eq, not_not] at hp
    refine ⟨by omega, ?_⟩
    generalize hw : 64 - h.n_bits = w at hp ⊢
    have hw64 : w < 64 := by omega
    have hmask : shl64 UINT64_MAX w % 2 ^ w = 0 := by
      unfold shl64 UINT64_MAX
      rw [Nat.mod_eq_of_lt hw64, Nat.shiftLeft_eq,
        Nat.mod_mod_of_dvd _ (pow_dvd_pow 2 (by omega)), Nat.mul_mod_left]
    have h1 : h.pattern % 2 ^ w = (h.pattern &&& shl64 UINT64_MAX w) &&& (2 ^ w - 1) := by
      rw [← hp, Nat.and_pow_two_sub_one_eq_mod]
    rw [h1, Nat.and_assoc, Nat.and_pow_two_sub_one_eq_mod, hmask, Nat.and_zero]

theorem prefix_of_covered_slot (h : fragment_header) (N mf k0 : Nat)
    (hp : h.pattern < 2 ^ 64) (hn1 : 1 ≤ h.n_bits) (hnN : h.n_bits ≤ N) (hN : N < 64)
    (hdvd : h.pattern % 2 ^ (64 - h.n_bits) = 0) (hmf : mf < 2 ^ 32)
    (hidx : mf ≤ k0 / 2 ^ (64 - N)) (hk : k0 / 2 ^ (64 - N) - mf < 2 ^ 32)
    (hlo : slot_lo mf (64 - N) h ≤ k0 / 2 ^ (64 - N) - mf)
    (hhi : k0 / 2 ^ (64 - N) - mf ≤ slot_hi mf (64 - N) h) :
    prefix_matches h.pattern h.n_bits k0 := by
  unfold prefix_matches
  unfold slot_lo at hlo
  unfold slot_hi at hhi
  simp only [shr64, shl64] at hlo hhi
  generalize hw : 64 - h.n_bits = w at *
  generalize hs : 64 - N = s at *
  have hw64 : w < 64 := by omega
  have hs64 : s < 64 := by omega
  have hsw : s ≤ w := by omega
  rw [Nat.mod_eq_of_lt hs64, Nat.shiftRight_eq_div_pow] at hlo
  rw [Nat.mod_eq_of_lt hs64, Nat.mod_eq_of_lt hw64, Nat.shiftRight_eq_div_pow,
    Nat.shiftLeft_eq, Nat.one_mul] at hhi
  obtain ⟨q, hq⟩ := Nat.dvd_of_mod_eq_zero hdvd
  obtain ⟨e, he⟩ : ∃ e, w = s + e := ⟨w - s, by omega⟩
  have hW : 2 ^ w = 2 ^ s * 2 ^ e := by rw [he, pow_add]
  have hD : 0 < 2 ^ s := Nat.two_pow_pos _
  have hE : 0 < 2 ^ e := Nat.two_pow_pos _
  have hWlt : 2 ^ w < 2 ^ 64 := Nat.pow_lt_pow_right (by norm_num) hw64
  have hWpos : 0 < 2 ^ w := Nat.two_pow_pos _
  have hone : 2 ^ w % 2 ^ 64 = 2 ^ w := Nat.mod_eq_of_lt hWlt
  have hsub1 : sub64 (2 ^ w) 1 = 2 ^ w - 1 := sub64_of_le hWlt hWpos
  rw [hone, hsub1] at hhi
  have hor : h.pattern ||| (2 ^ w - 1) = h.pattern + (2 ^ w - 1) := by
    rw [hq]; exact (Nat.mul_add_lt_is_or (by omega) q).symm
  rw [hor] at hhi
  have hpD : h.pattern / 2 ^ s = 2 ^ e * q := by
    rw [hq, hW, Nat.mul_assoc, Nat.mul_div_cancel_left _ hD]
  have htopD : (h.pattern + (2 ^ w - 1)) / 2 ^ s = 2 ^ e * q + (2 ^ e - 1) := by
    have : h.pattern + (2 ^ w - 1) = 2 ^ s * (2 ^ e * q + (2 ^ e - 1)) + (2 ^ s - 1) := by
      rw [hq, hW]
      have h1 : 2 ^ s * 2 ^ e - 1 = 2 ^ s * (2 ^ e - 1) + (2 ^ s - 1) := by
        rw [Nat.mul_sub, Nat.mul_one]
        have : 2 ^ s ≤ 2 ^ s * 2 ^ e := Nat.le_mul_of_pos_right _ hE
        omega
      rw [h1, Nat.mul_add, Nat.mul_assoc]
      omega
    rw [this, Nat.mul_add_div hD, Nat.div_eq_of_lt (by omega)]
    omega
  rw [hpD] at hlo
  rw [htopD] at hhi
  have hpW : h.pattern + 2 ^ w ≤ 2 ^ 64 := by
    have h64 : (2 : Nat) ^ 64 = 2 ^ w * 2 ^ (64 - w) := by
      have hsum : w + (64 - w) = 64 := by omega
      rw [← pow_add, hsum]
    have hq' : q < 2 ^ (64 - w) := by
      apply Nat.lt_of_mul_lt_mul_left (a := 2 ^ w)
      rw [← h64, ← hq]; exact hp
    have : 2 ^ w * (q + 1) ≤ 2 ^ w * 2 ^ (64 - w) := Nat.mul_le_mul_left _ hq'
    rw [Nat.mul_add, Nat.mul_one, ← hq, ← h64] at this
    exact this
  have htop64 : 2 ^ e * q + (2 ^ e - 1) < 2 ^ 64 := by
    rw [← htopD]
    exact Nat.lt_of_le_of_lt (Nat.div_le_self _ _) (by omega)
  have hgoal : k0 / 2 ^ w = k0 / 2 ^ s / 2 ^ e := by
    rw [hW, Nat.div_div_eq_div_mul]
  have hgoal2 : h.pattern / 2 ^ w = q := by
    rw [hq, Nat.mul_div_cancel_left _ hWpos]
  rw [hgoal, hgoal2]
  generalize k0 / 2 ^ s = a at *
  have hPa : 2 ^ e * q ≤ a ∧ a ≤ 2 ^ e * q + (2 ^ e - 1) := by
    generalize 2 ^ e * q = P at *
    generalize 2 ^ e = E at *
    by_cases hc : P < mf
    · rw [sub64_of_lt (by omega) hc] at hlo
      omega
    · rw [sub64_of_le (by omega) (by omega)] at hlo
      rw [sub64_of_le htop64 (by omega)] at hhi
      omega
  apply Nat.div_eq_of_lt_le
  · rw [Nat.mul_comm]; exact hPa.1
  · rw [Nat.add_mul, Nat.one_mul, Nat.mul_comm]
    omega

/-! ## Slots of a created table -/

theorem created_slot_covered {uuid : List Nat} {fds : List File} {c : created}
    (hc : jetex_table_create uuid fds = Except.ok (some c)) :
    (table_scan fds).fail = 0 ∧
    c.table.min_fragment < 2 ^ 32 ∧ c.table.n_fragment < 2 ^ 32 ∧
    c.table.fragment_shift = (64 - (table_scan fds).n_bits % 2 ^ 8) % 2 ^ 8 ∧
    ∀ (k : Nat) (map : Mapping), (c.table.fragments.getD k fragment.zero).data = some map →
      ∃ file ∈ fds, map.header = file.header ∧
        validate_header file.header file.st_size = 0 ∧
        slot_lo c.table.min_fragment c.table.fragment_shift file.header ≤ k ∧
        k ≤ slot_hi c.table.min_fragment c.table.fragment_shift file.header := by
  unfold jetex_table_create at hc
  simp only at hc
  split at hc
  · exact absurd hc (by simp)
  split at hc
  · exact absurd hc (by simp)
  rename_i hfail
  split at hc
  · exact absurd hc (by simp)
  split at hc
  · exact absurd hc (by simp)
  rename_i fragments hmap
  split at hc
  · exact absurd hc (by simp)
  rename_i st hplace
  injection hc with hc
  injection hc with hc
  subst hc
  refine ⟨by simpa using hfail, Nat.mod_lt _ (by norm_num), Nat.mod_lt _ (by norm_num), rfl, ?_⟩
  intro k map hdata
  simp only at hdata ⊢
  have hsome : ∃ f, st.slots[k]? = some f ∧ f.data = some map := by
    rw [List.getD_eq_getElem?_getD] at hdata
    cases hk : st.slots[k]? with
    | none =>
      rw [hk] at hdata
      exact absurd hdata (by simp [fragment.zero])
    | some f =>
      rw [hk] at hdata
      exact ⟨f, rfl, hdata⟩
  obtain ⟨f, hf, hfd⟩ := hsome
  rcases place_all_slots fragments 0 _ st hplace k f hf with h0 | ⟨map1, hmem, hd1, hlo, hhi⟩
  · simp only [List.getElem?_replicate] at h0
    split at h0
    · injection h0 with h0
      rw [← h0] at hfd
      exact absurd hfd (by simp [fragment.zero])
    · exact absurd h0 (by simp)
  · obtain ⟨file, hfile, hfm⟩ := map_all_mem fds fragments hmap f hmem
    obtain ⟨hv, hdat⟩ := fragment_map_data hfm
    rw [hfd] at hd1 hdat
    injection hd1 with hd1
    injection hdat with hdat
    subst hd1
    refine ⟨file, hfile, by rw [hdat], hv, ?_, ?_⟩
    · rw [hdat] at hlo; exact hlo
    · rw [hdat] at hhi; exact hhi

theorem fragment_lookup_null (f : fragment) (key : Nat → Nat) (h : f.data = none) :
    fragment_lookup f key = (none, 0) := by
  simp only [fragment_lookup, h]

theorem uncovered_slot_empty (uuid : List Nat) (fds : List File) (c : created)
    (key : Nat → Nat) (hr : ∀ file ∈ fds, file.header.inRange) (hkey : key 0 < 2 ^ 64)
    (hc : jetex_table_create uuid fds = Except.ok (some c))
    (hno : ∀ file ∈ fds, ¬ prefix_matches file.header.pattern file.header.n_bits (key 0))
    (idx : Nat) (hidx : table_index c.table key = some idx) :
    (c.table.fragments.getD idx fragment.zero).data = none := by
  obtain ⟨hfail, hmf, hnf, hshift, hcov⟩ := created_slot_covered hc
  cases hdata : (c.table.fragments.getD idx fragment.zero).data with
  | none => rfl
  | some map =>
    exfalso
    obtain ⟨file, hfile, -, hv, hlo, hhi⟩ := hcov idx map hdata
    obtain ⟨hall, -, hbound⟩ := table_scan_loop_ok fds _ hfail
    obtain ⟨-, hn32, hnN⟩ := hall file hfile
    have hN32 : (table_scan fds).n_bits < 32 := hbound (by decide)
    obtain ⟨-, -, hpat, -⟩ := hr file hfile
    apply hno file hfile
    by_cases hn0 : file.header.n_bits = 0
    · unfold prefix_matches
      rw [hn0, Nat.div_eq_of_lt hkey, Nat.div_eq_of_lt hpat]
    · have hNmod : (table_scan fds).n_bits % 2 ^ 8 = (table_scan fds).n_bits :=
        Nat.mod_eq_of_lt (by omega)
      rw [hNmod] at hshift
      have hnN' : file.header.n_bits ≤ (table_scan fds).n_bits := hnN
      have hsh : c.table.fragment_shift = 64 - (table_scan fds).n_bits := by
        rw [hshift]; exact Nat.mod_eq_of_lt (by omega)
      obtain ⟨-, hdvd⟩ := pattern_low_bits_zero file.header (validate_header_pattern hv)
        (by omega)
      have hs64 : ¬ c.table.fragment_shift ≥ 64 := by omega
      unfold table_index at hidx
      simp only at hidx
      rw [if_neg hs64] at hidx
      have hshr : shr64 (key 0) c.table.fragment_shift =
          key 0 / 2 ^ (64 - (table_scan fds).n_bits) := by
        unfold shr64
        rw [hsh, Nat.mod_eq_of_lt (by omega), Nat.shiftRight_eq_div_pow]
      rw [hshr] at hidx
      split at hidx
      · exact absurd hidx (by simp)
      rename_i hge
      split at hidx
      · exact absurd hidx (by simp)
      rename_i hlt
      injection hidx with hidx
      have hq : key 0 / 2 ^ (64 - (table_scan fds).n_bits) < 2 ^ 64 :=
        Nat.lt_of_le_of_lt (Nat.div_le_self _ _) hkey
      rw [sub64_of_le hq (by omega)] at hidx hlt
      rw [hsh] at hlo hhi
      rw [← hidx] at hlo hhi
      exact prefix_of_covered_slot file.header (table_scan fds).n_bits c.table.min_fragment (key 0)
        hpat (by omega) hnN' (by omega) hdvd hmf (by omega) (by omega) hlo hhi

/-! ## Table lookup -/

theorem create_ab :
    jetex_table_create sample_uuid [file_a, file_b] = Except.ok (some table_ab) := by
  rfl

theorem create_ac :
    jetex_table_create sample_uuid [file_a, file_c] = Except.ok (some table_ac) := by
  rfl

theorem table_lookup_of_index_none (t : jetex_table) (key : Nat → Nat)
    (h : table_index t key = none) : table_lookup t key = (none, 0) := by
  simp only [table_lookup, h]

theorem table_lookup_of_empty_slot (t : jetex_table) (key : Nat → Nat) (idx : Nat)
    (h : table_index t key = some idx)
    (hd : (t.fragments.getD idx fragment.zero).data = none) :
    table_lookup t key = (none, 0) := by
  simp only [table_lookup, h]
  exact fragment_lookup_null _ key hd

theorem table_index_top_byte (t : jetex_table) (key : Nat → Nat) (n v : Nat)
    (hmf : t.min_fragment = 0) (hs : t.fragment_shift = 56) (hn : t.n_fragment = n)
    (hv : key 0 / 2 ^ 56 = v) (hkey : key 0 < 2 ^ 64) :
    table_index t key = if v ≥ n then none else some v := by
  have hshr : shr64 (key 0) 56 = v := by
    unfold shr64; rw [Nat.shiftRight_eq_div_pow]; exact hv
  have hv64 : v < 2 ^ 64 := by
    rw [← hv]; exact Nat.lt_of_le_of_lt (Nat.div_le_self _ _) hkey
  have h56 : ¬ (56 : Nat) ≥ 64 := by decide
  unfold table_index
  simp only [hmf, hs, hn, hshr]
  rw [if_neg h56, if_neg (Nat.not_lt_zero v), sub64_of_le hv64 (Nat.zero_le v), Nat.sub_zero]

theorem table_ab_index (key : Nat → Nat) (hkey : key 0 < 2 ^ 64) :
    (key 0 / 2 ^ 56 = 0x00 → table_index table_ab.table key = some 0) ∧
    (key 0 / 2 ^ 56 = 0x01 → table_index table_ab.table key = some 1) ∧
    (key 0 / 2 ^ 56 = 0x02 → table_index table_ab.table key = none ∧
      table_lookup table_ab.table key = (none, 0)) := by
  have hidx := fun v hv => table_index_top_byte table_ab.table key 2 v rfl rfl rfl hv hkey
  refine ⟨fun h => ?_, fun h => ?_, fun h => ?_⟩
  · have h0 := hidx 0 h
    have hn : ¬ (0 : Nat) ≥ 2 := by decide
    rw [if_neg hn] at h0
    exact h0
  · have h1 := hidx 1 h
    have hn : ¬ (1 : Nat) ≥ 2 := by decide
    rw [if_neg hn] at h1
    exact h1
  · have h2 := hidx 2 h
    have hn : (2 : Nat) ≥ 2 := by decide
    rw [if_pos hn] at h2
    exact ⟨h2, table_lookup_of_index_none _ key h2⟩


theorem table_lookup_of_index_some (t : jetex_table) (key : Nat → Nat) (idx : Nat)
    (h : table_index t key = some idx) :
    table_lookup t key = fragment_lookup (t.fragments.getD idx fragment.zero) key := by
  simp only [table_lookup, h]

/-- C10: when `jetex_table_create` returns a table and the first word of a key
matches the prefix of no input fragment, `table_lookup` returns `NULL` with
`*OUT_item_size = 0`: either the index is outside the table or the slot it
falls on is empty.  For the table built from `(0x00 << 56, 8)` and
`(0x01 << 56, 8)`, keys with top byte 0x00 are looked up in the first
fragment, keys with top byte 0x01 in the second, and keys with top byte 0x02
miss. -/
theorem uncovered_key_misses :
    (∀ (uuid : List Nat) (fds : List File) (c : created) (key : Nat → Nat),
      (∀ file ∈ fds, file.header.inRange) → key 0 < 2 ^ 64 →
      jetex_table_create uuid fds = Except.ok (some c) →
      (∀ file ∈ fds, ¬ prefix_matches file.header.pattern file.header.n_bits (key 0)) →
      table_lookup c.table key = (none, 0) ∧
      (∀ idx, table_index c.table key = some idx →
        (c.table.fragments.getD idx fragment.zero).data = none)) ∧
    (jetex_table_create sample_uuid [file_a, file_b] = Except.ok (some table_ab) ∧
      slot_addrs table_ab.table = [some file_a.addr, some file_b.addr] ∧
      ∀ key : Nat → Nat, key 0 < 2 ^ 64 →
        (key 0 / 2 ^ 56 = 0x00 → table_index table_ab.table key = some 0 ∧
          table_lookup table_ab.table key = fragment_lookup (mapped_view file_a) key) ∧
        (key 0 / 2 ^ 56 = 0x01 → table_index table_ab.table key = some 1 ∧
          table_lookup table_ab.table key = fragment_lookup (mapped_view file_b) key) ∧
        (key 0 / 2 ^ 56 = 0x02 → table_index table_ab.table key = none ∧
          table_lookup table_ab.table key = (none, 0))) := by
  refine ⟨?_, create_ab, by decide, ?_⟩
  · intro uuid fds c key hr hkey hc hno
    have hempty := uncovered_slot_empty uuid fds c key hr hkey hc hno
    refine ⟨?_, hempty⟩
    cases hidx : table_index c.table key with
    | none => exact table_lookup_of_index_none _ key hidx
    | some idx => exact table_lookup_of_empty_slot _ key idx hidx (hempty idx hidx)
  · intro key hkey
    obtain ⟨h0, h1, h2⟩ := table_ab_index key hkey
    exact ⟨fun h => ⟨h0 h, table_lookup_of_index_some _ key 0 (h0 h)⟩,
      fun h => ⟨h1 h, table_lookup_of_index_some _ key 1 (h1 h)⟩, h2⟩

/-- In the table built from `(0x00 << 56, 8)` and `(0x02 << 56, 8)` a key with
top byte 0x01 matches neither prefix; its index 1 is inside the table, on the
slot no fragment was written to, and the lookup misses. -/
theorem uncovered_key_misses_witness :
    jetex_table_create sample_uuid [file_a, file_c] = Except.ok (some table_ac) ∧
    ¬ prefix_matches file_a.header.pattern file_a.header.n_bits (key_of (0x01 <<< 56) 0 0) ∧
    ¬ prefix_matches file_c.header.pattern file_c.header.n_bits (key_of (0x01 <<< 56) 0 0) ∧
    table_index table_ac.table (key_of (0x01 <<< 56) 0) = some 1 ∧
    table_lookup table_ac.table (key_of (0x01 <<< 56) 0) = (none, 0) :=
  ⟨create_ac, by decide, by decide, by decide,
    (uncovered_key_misses.1 sample_uuid [file_a, file_c] table_ac
      (key_of (0x01 <<< 56) 0)
      (by intro file hf; simp only [List.mem_cons, List.mem_singleton, List.not_mem_nil,
            or_false] at hf; rcases hf with rfl | rfl <;> decide)
      (by decide) create_ac
      (by intro file hf; simp only [List.mem_cons, List.mem_singleton, List.not_mem_nil,
            or_false] at hf; rcases hf with rfl | rfl <;> decide)).1⟩

/-! ## Table construction on the sample inputs -/

set_option maxRecDepth 100000 in
/-- C7, evaluated on the table built from `wide_file` (pattern 0, `n_bits = 0`)
and `narrow_file`: the key with top byte 0x07 matches the prefix of the wide
fragment and of no other input, `table_lookup` computes index 7 inside
`[0, 256)`, and slot 7 is empty (its `data` is `NULL`), so the lookup returns
`NULL` without reaching the wide fragment. -/
theorem wide_prefix_routes_to_empty_slot :
    prefix_matches wide_file.header.pattern wide_file.header.n_bits
      (key_of (0x07 <<< 56) 0 0) ∧
    ¬ prefix_matches narrow_file.header.pattern narrow_file.header.n_bits
      (key_of (0x07 <<< 56) 0 0) ∧
    (created_of (jetex_table_create sample_uuid [wide_file, narrow_file])).map
      (fun c => (c.table.min_fragment, c.table.n_fragment,
        table_index c.table (key_of (0x07 <<< 56) 0),
        (slot_addrs c.table).getD 7 none,
        table_lookup c.table (key_of (0x07 <<< 56) 0))) =
      some (0, 256, some 7, none, (none, 0)) := by
  decide

set_option maxRecDepth 100000 in
/-- C8, evaluated: `table_scan` gives a fragment with `n_bits = 0` the top
`UINT64_MAX`, but the placement loop computes `hi = lo` for it, so in the table
built from `wide_file` and `narrow_file` the wide mapping is in slot 0 only and
254 of the 256 slots stay empty; and for `wide_file` alone `extract` shifts by
64, `n_fragment = 1 + UINT64_MAX` wraps to 0 and the write to slot 0 falls
outside the zero slots that were allocated. -/
theorem global_fragment_covers_one_slot :
    (table_scan [wide_file]).max_pattern = UINT64_MAX ∧
    slot_lo 0 56 wide_file.header = 0 ∧ slot_hi 0 56 wide_file.header = 0 ∧
    (created_of (jetex_table_create sample_uuid [wide_file, narrow_file])).map
      (fun c => ((slot_addrs c.table).length,
        (slot_addrs c.table).count (some wide_file.addr),
        (slot_addrs c.table).count none)) = some (256, 1, 254) ∧
    extract (sub64 (table_scan [wide_file]).max_pattern (table_scan [wide_file]).min_pattern)
      ((table_scan [wide_file]).n_bits % 2 ^ 8) = UINT64_MAX ∧
    add64 1 (extract (sub64 (table_scan [wide_file]).max_pattern
      (table_scan [wide_file]).min_pattern) ((table_scan [wide_file]).n_bits % 2 ^ 8)) = 0 ∧
    fault_of (jetex_table_create sample_uuid [wide_file]) = some Fault.out_of_bounds := by
  decide

set_option maxRecDepth 100000 in
/-- C9, evaluated on the table built from `wide_file` followed by
`narrow_file`: `n_fragment = 256` and slot 5 holds the narrow mapping, but the
wide mapping is in slot 0 only, every other slot is empty, and the refcounts
are 1 and 1 rather than 255 and 1. -/
theorem wide_narrow_refcounts :
    (created_of (jetex_table_create sample_uuid [wide_file, narrow_file])).map
      (fun c => (c.table.n_fragment, c.refcounts, slot_addrs c.table)) =
    some (256, [1, 1],
      [some wide_file.addr] ++ List.replicate 4 none ++ [some narrow_file.addr] ++
        List.replicate 250 none) := by
  decide

/-! ## Bit fields of `expiry` -/

theorem and_ff (x : Nat) : x &&& 0xFF = x % 256 :=
  Nat.and_pow_two_sub_one_eq_mod x 8

theorem and_ffffff00 (x : Nat) : x &&& 0xFFFFFF00 = 256 * (x / 256 % 2 ^ 24) := by
  apply Nat.eq_of_testBit_eq
  intro j
  have hx : x = 2 ^ 8 * (x / 256) + x % 256 := by
    have := Nat.div_add_mod x 256
    omega
  have hm : (0xFFFFFF00 : Nat) = 2 ^ 8 * (2 ^ 24 - 1) + 0 := by norm_num
  have hr : 256 * (x / 256 % 2 ^ 24) = 2 ^ 8 * (x / 256 % 2 ^ 24) + 0 := by norm_num
  rw [Nat.testBit_and, hm, hr]
  conv => lhs; arg 1; rw [hx]
  rw [Nat.testBit_mul_pow_two_add _ (Nat.mod_lt _ (by norm_num)),
    Nat.testBit_mul_pow_two_add _ (by norm_num : 0 < 2 ^ 8),
    Nat.testBit_mul_pow_two_add _ (by norm_num : 0 < 2 ^ 8)]
  by_cases hj : j < 8
  · simp [hj]
  · simp only [hj, if_false, Nat.testBit_two_pow_sub_one, Nat.testBit_mod_two_pow]
    rw [Bool.and_comm]

theorem or_low_byte (q r : Nat) (hr : r < 256) : 256 * q ||| r = 256 * q + r :=
  (Nat.mul_add_lt_is_or (i := 8) hr q).symm

theorem or_ff (x : Nat) : x ||| 0xFF = 256 * (x / 256) + 255 := by
  have hx : x = 256 * (x / 256) ||| x % 256 := by
    rw [or_low_byte _ _ (Nat.mod_lt _ (by norm_num))]
    exact (Nat.div_add_mod x 256).symm
  have hlow : ∀ r, r < 256 → r ||| 0xFF = 0xFF := by
    intro r hr
    apply Nat.eq_of_testBit_eq
    intro j
    have h255 : (0xFF : Nat) = 2 ^ 8 - 1 := by norm_num
    rw [Nat.testBit_or, h255, Nat.testBit_two_pow_sub_one]
    by_cases hj : j < 8
    · simp [hj]
    · have hpow : 2 ^ 8 ≤ 2 ^ j := Nat.pow_le_pow_right (by norm_num) (by omega)
      have hlt : r < 2 ^ j := Nat.lt_of_lt_of_le hr hpow
      simp [hj, Nat.testBit_lt_two_pow hlt]
  conv => lhs; rw [hx]
  rw [Nat.or_assoc, hlow _ (Nat.mod_lt _ (by norm_num)), or_low_byte _ _ (by norm_num)]

theorem shl8_mod32 (m : Nat) : (m <<< 8) % 2 ^ 32 = 256 * (m % 2 ^ 24) := by
  rw [Nat.shiftLeft_eq, Nat.mul_comm]
  exact Nat.mul_mod_mul_left 256 m (2 ^ 24)

/-! ## TTL and deadline -/

theorem sub32_of_le {a b : Nat} (ha : a < 2 ^ 32) (hb : b ≤ a) : sub32 a b = a - b := by
  unfold sub32
  have hb' : b % 2 ^ 32 = b := Nat.mod_eq_of_lt (by omega)
  rw [hb']
  have : a + 2 ^ 32 - b = (a - b) + 2 ^ 32 := by omega
  rw [this, Nat.add_mod_right]
  exact Nat.mod_eq_of_lt (by omega)

theorem sub32_of_lt {a b : Nat} (hb : b < 2 ^ 32) (hab : a < b) :
    sub32 a b = a + 2 ^ 32 - b := by
  unfold sub32
  rw [Nat.mod_eq_of_lt hb]
  exact Nat.mod_eq_of_lt (by omega)

theorem set_ttl_expiry (h : jetex_header) (t : Nat) (he : h.expiry < 2 ^ 32)
    (ht : t < 2 ^ 8) :
    (jetex_packet_set_ttl h t).expiry = 256 * (h.expiry / 256) + t := by
  simp only [jetex_packet_set_ttl]
  rw [and_ffffff00, or_low_byte _ _ ht, Nat.mod_eq_of_lt (by omega)]

theorem dec_ttl_zero (h : jetex_header) (hz : h.expiry % 256 = 0) :
    jetex_packet_dec_ttl h = (true, h) := by
  simp only [jetex_packet_dec_ttl, and_ff, hz, if_true]

theorem dec_ttl_pos (h : jetex_header) (he : h.expiry < 2 ^ 32) (hz : h.expiry % 256 ≠ 0) :
    jetex_packet_dec_ttl h =
      (decide (h.expiry - 1 ≠ 0), { h with expiry := h.expiry - 1 }) := by
  have h1 : 1 ≤ h.expiry := by omega
  simp only [jetex_packet_dec_ttl, and_ff, hz, if_false, sub32_of_le he h1]

theorem set_deadline_expiry (h : jetex_header) (tv : timeval) :
    (jetex_packet_set_deadline h tv).expiry =
      256 * (if timeval_millis tv % 2 ^ 24 = 0 then 1 else timeval_millis tv % 2 ^ 24)
        + h.expiry % 256 := by
  simp only [jetex_packet_set_deadline, shl8_mod32, and_ff]
  have hr : h.expiry % 256 < 256 := Nat.mod_lt _ (by norm_num)
  by_cases hm : timeval_millis tv % 2 ^ 24 = 0
  · rw [hm]
    simp only [Nat.mul_zero, if_true]
    exact or_low_byte 1 _ hr
  · have hne : ¬ 256 * (timeval_millis tv % 2 ^ 24) = 0 := by omega
    rw [if_neg hne, if_neg hm]
    exact or_low_byte _ _ hr

theorem expired_iff (h : jetex_header) (tv : timeval) (he : h.expiry < 2 ^ 32) :
    jetex_packet_expired h tv = true ↔
      h.expiry / 256 ≠ 0 ∧
        (timeval_millis tv % 2 ^ 24 + 2 ^ 23 ≤ h.expiry / 256 ∨
          (h.expiry / 256 < timeval_millis tv % 2 ^ 24 ∧
            timeval_millis tv % 2 ^ 24 ≤ h.expiry / 256 + 2 ^ 23)) := by
  simp only [jetex_packet_expired, shl8_mod32, or_ff, decide_eq_true_eq]
  have hD : h.expiry / 256 < 2 ^ 24 := by omega
  generalize h.expiry / 256 = D at *
  have hN : timeval_millis tv % 2 ^ 24 < 2 ^ 24 := Nat.mod_lt _ (by norm_num)
  generalize timeval_millis tv % 2 ^ 24 = N at *
  by_cases hle : 256 * N ≤ 256 * D + 255
  · rw [sub32_of_le (by omega) hle]
    unfold to_int32
    split <;> omega
  · rw [sub32_of_lt (by omega) (by omega)]
    unfold to_int32
    split <;> omega

theorem timeval_millis_low24 (tv : timeval) : timeval_millis tv % 2 ^ 24 = millis_low24 tv := by
  unfold timeval_millis millis_low24
  generalize tv.tv_sec * 1000 + Int.tdiv tv.tv_usec 1000 = x
  omega

theorem dec_ttl_alive_of_deadline (h : jetex_header) (he : h.expiry < 2 ^ 32)
    (hd : h.expiry / 256 ≠ 0) : (jetex_packet_dec_ttl h).1 = true := by
  by_cases hz : h.expiry % 256 = 0
  · rw [dec_ttl_zero h hz]
  · rw [dec_ttl_pos h he hz]
    simp only [decide_eq_true_eq]
    omega

/-- C13, evaluated: on a header with deadline field 0x7B and TTL 3 the three
calls of `jetex_packet_dec_ttl` all return true, the third too although it
brings the TTL to 0, because the function tests the whole 32-bit `expiry`
against zero; only with a zero deadline field does the third call return
false. -/
theorem dec_ttl_counts_deadline_bits :
    (expiry_header 0x7B 3).expiry % 256 = 3 ∧
    dec_ttl_times 3 (expiry_header 0x7B 3) = ([true, true, true], expiry_header 0x7B 0) ∧
    dec_ttl_times 3 (expiry_header 0 3) = ([true, true, false], expiry_header 0 0) := by
  decide

/-- C14: `jetex_packet_expired` is false for a header without deadline; with a
deadline, writing `d` for the 24-bit deadline field minus the low 24 bits of
the time in milliseconds, it is false for `0 <= d < 2^23` and true for
`-2^23 <= d < -1`. -/
theorem deadline_comparison (h : jetex_header) (tv : timeval) (he : h.expiry < 2 ^ 32) :
    (h.expiry ||| 0xFF = 0xFF → jetex_packet_expired h tv = false) ∧
    (h.expiry ||| 0xFF ≠ 0xFF →
      (0 : Int) ≤ (h.expiry / 256 : Nat) - (millis_low24 tv : Nat) →
      ((h.expiry / 256 : Nat) : Int) - (millis_low24 tv : Nat) < 2 ^ 23 →
      jetex_packet_expired h tv = false) ∧
    (h.expiry ||| 0xFF ≠ 0xFF →
      -(2 : Int) ^ 23 ≤ (h.expiry / 256 : Nat) - (millis_low24 tv : Nat) →
      ((h.expiry / 256 : Nat) : Int) - (millis_low24 tv : Nat) < -1 →
      jetex_packet_expired h tv = true) := by
  have hiff := expired_iff h tv he
  rw [timeval_millis_low24] at hiff
  rw [or_ff]
  refine ⟨fun h0 => ?_, fun _ h1 h2 => ?_, fun h0 h1 h2 => ?_⟩
  · cases hb : jetex_packet_expired h tv
    · rfl
    · have := (hiff.1 hb).1
      omega
  · cases hb : jetex_packet_expired h tv
    · rfl
    · have := (hiff.1 hb).2
      omega
  · apply hiff.2
    constructor <;> omega

/-- A header with deadline field 1000: not expired at 900 ms and at 1000 ms,
expired at 1002 ms; and a header without deadline is not expired. -/
theorem deadline_comparison_witness :
    jetex_packet_expired (expiry_header 0 5) (timeval_of_millis 1002) = false ∧
    jetex_packet_expired (expiry_header 1000 5) (timeval_of_millis 900) = false ∧
    jetex_packet_expired (expiry_header 1000 5) (timeval_of_millis 1002) = true :=
  ⟨(deadline_comparison (expiry_header 0 5) (timeval_of_millis 1002) (by decide)).1
      (by decide),
   (deadline_comparison (expiry_header 1000 5) (timeval_of_millis 900) (by decide)).2.1
      (by decide) (by decide) (by decide),
   (deadline_comparison (expiry_header 1000 5) (timeval_of_millis 1002) (by decide)).2.2
      (by decide) (by decide) (by decide)⟩

/-- C15: after `jetex_packet_set_deadline` the high 24 bits of `expiry` are the
low 24 bits of the time in milliseconds when those are non-zero and 1
otherwise, so `expiry | 0xFF` differs from `0xFF`: the header has a deadline. -/
theorem set_deadline_leaves_deadline (h : jetex_header) (tv : timeval) :
    (jetex_packet_set_deadline h tv).expiry / 256 =
      (if millis_low24 tv ≠ 0 then millis_low24 tv else 1) ∧
    (millis_low24 tv = 0 → (jetex_packet_set_deadline h tv).expiry &&& 0xFFFFFF00 = 0x100) ∧
    (jetex_packet_set_deadline h tv).expiry ||| 0xFF ≠ 0xFF := by
  have hexp := set_deadline_expiry h tv
  rw [timeval_millis_low24] at hexp
  have hlow : millis_low24 tv < 2 ^ 24 := by
    rw [← timeval_millis_low24]; exact Nat.mod_lt _ (by norm_num)
  rw [or_ff, and_ffffff00]
  generalize (jetex_packet_set_deadline h tv).expiry = E at hexp ⊢
  by_cases hm : millis_low24 tv = 0
  · rw [if_pos hm] at hexp
    rw [if_neg (not_not.2 hm)]
    omega
  · rw [if_neg hm] at hexp
    rw [if_pos hm]
    omega

/-- At time 0 the stored deadline is `0x100`; at 5000 ms it is `5000 << 8`. -/
theorem set_deadline_leaves_deadline_witness :
    (jetex_packet_set_deadline (expiry_header 0 7) (timeval_of_millis 0)).expiry = 0x107 ∧
    (jetex_packet_set_deadline (expiry_header 0 7) (timeval_of_millis 5000)).expiry / 256
      = 5000 ∧
    (jetex_packet_set_deadline (expiry_header 0 7) (timeval_of_millis 0)).expiry ||| 0xFF
      ≠ 0xFF :=
  ⟨by decide, by decide,
   (set_deadline_leaves_deadline (expiry_header 0 7) (timeval_of_millis 0)).2.2⟩

/-- C16: `jetex_packet_set_ttl` sets the low byte of `expiry` to `ttl` and keeps
the high 24 bits; `jetex_packet_dec_ttl` keeps the high 24 bits, lowers a
non-zero low byte by one and leaves a header with zero low byte as it is;
`jetex_packet_set_deadline` keeps the low byte. -/
theorem ttl_and_deadline_independent (h : jetex_header) (ttl : Nat) (tv : timeval)
    (he : h.expiry < 2 ^ 32) (ht : ttl < 2 ^ 8) :
    ((jetex_packet_set_ttl h ttl).expiry % 256 = ttl ∧
      (jetex_packet_set_ttl h ttl).expiry / 256 = h.expiry / 256) ∧
    ((jetex_packet_dec_ttl h).2.expiry / 256 = h.expiry / 256 ∧
      (h.expiry % 256 ≠ 0 →
        (jetex_packet_dec_ttl h).2.expiry % 256 + 1 = h.expiry % 256) ∧
      (h.expiry % 256 = 0 → (jetex_packet_dec_ttl h).2 = h)) ∧
    (jetex_packet_set_deadline h tv).expiry % 256 = h.expiry % 256 := by
  refine ⟨?_, ?_, ?_⟩
  · rw [set_ttl_expiry h ttl he ht]
    constructor <;> omega
  · by_cases hz : h.expiry % 256 = 0
    · rw [dec_ttl_zero h hz]
      exact ⟨rfl, fun hne => absurd hz hne, fun _ => rfl⟩
    · rw [dec_ttl_pos h he hz]
      simp only
      refine ⟨by omega, fun _ => by omega, fun h0 => absurd h0 hz⟩
  · rw [set_deadline_expiry]
    split <;> omega

/-- On a header with deadline field 0x7B and TTL 3: setting the TTL to 9,
decrementing it and setting the deadline to 5000 ms each touch one field only. -/
theorem ttl_and_deadline_independent_witness :
    (jetex_packet_set_ttl (expiry_header 0x7B 3) 9).expiry = 0x7B09 ∧
    (jetex_packet_dec_ttl (expiry_header 0x7B 3)).2.expiry = 0x7B02 ∧
    (jetex_packet_set_deadline (expiry_header 0x7B 3) (timeval_of_millis 5000)).expiry % 256
      = (expiry_header 0x7B 3).expiry % 256 :=
  ⟨by decide, by decide,
   (ttl_and_deadline_independent (expiry_header 0x7B 3) 9 (timeval_of_millis 5000)
      (by decide) (by decide)).2.2⟩

/-! ## Writing into the packet buffer -/

theorem zero_padded_length (bytes : List Nat) (size : Nat) (h : bytes.length ≤ size) :
    (zero_padded bytes size).length = size := by
  simp only [zero_padded, List.length_append, List.length_replicate]
  omega

theorem cursor_after_nil (size : Nat) :
    cursor_after [] size = { data := List.replicate size 0, bytes := 0, remaining := size } := by
  simp [cursor_after]

theorem ADV_memcpy_after (out src : List Nat) (n size : Nat) (h1 : src.length ≤ n)
    (h2 : out.length + n ≤ size) :
    ADV_memcpy (cursor_after out size) n src =
      some (cursor_after (out ++ zero_padded src n) size) := by
  have hlen : (out ++ zero_padded src n).length = out.length + n := by
    rw [List.length_append, zero_padded_length src n h1]
  have hn : ¬ n > size - out.length := by omega
  simp only [ADV_memcpy, ADV, cursor_after, hn, if_false, hlen, memcpy]
  congr 2
  · rw [List.take_left, List.drop_append, List.drop_replicate, zero_padded,
      List.append_assoc, List.append_assoc, List.append_assoc]
    congr 2
    rw [← List.replicate_add]
    congr 1
    omega
  · omega

theorem OUT_after (out src : List Nat) (size : Nat) (h : out.length + src.length ≤ size) :
    OUT (cursor_after out size) src = some (cursor_after (out ++ src) size) := by
  have hn : ¬ (cursor_after out size).remaining < src.length := by
    simp only [cursor_after]; omega
  have hz : zero_padded src src.length = src := by simp [zero_padded]
  rw [OUT, if_neg hn, ADV_memcpy_after out src src.length size (Nat.le_refl _) h, hz]

theorem correlation_count_bounds (n : Nat) (h : n ≤ 128) :
    1 ≤ correlation_count n ∧ correlation_count n ≤ 16 ∧ n ≤ 8 * correlation_count n := by
  unfold correlation_count
  omega

theorem encode_correlation_after (correlation : List Nat) (size : Nat)
    (h1 : correlation.length ≤ 128) (h2 : 128 ≤ size) :
    encode_correlation (cursor_after [] size) correlation =
      some (cursor_after (zero_padded correlation (8 * correlation_count correlation.length))
        size, correlation_count correlation.length - 1) := by
  obtain ⟨hc1, hc2, hc3⟩ := correlation_count_bounds _ h1
  unfold encode_correlation
  by_cases h0 : correlation.length = 0
  · have hnil : correlation = [] := List.length_eq_zero.1 h0
    subst hnil
    have h8 : ADV_memcpy (cursor_after [] size) 8 [] =
        some (cursor_after ([] ++ zero_padded [] 8) size) :=
      ADV_memcpy_after [] [] 8 size (by simp) (by simp; omega)
    simp only [ADV_memcpy, memcpy, List.take_append_drop, List.append_nil,
      List.length_nil, Nat.add_zero] at h8
    simp only [List.length_nil, if_true]
    have hcount : correlation_count 0 = 1 := by decide
    rw [hcount]
    cases hadv : ADV (cursor_after [] size) 8 with
    | none => rw [hadv] at h8; exact absurd h8 (by simp)
    | some r =>
      rw [hadv] at h8
      simp only [Option.some.injEq] at h8
      simp only [List.nil_append] at h8 ⊢
      rw [← h8]
  · simp only [h0, if_false]
    have hcount : (correlation.length + 8 - 1) / 8 = correlation_count correlation.length := by
      unfold correlation_count; omega
    rw [hcount, Nat.mul_comm (correlation_count correlation.length) 8,
      ADV_memcpy_after [] correlation _ size hc3 (by simp; omega)]
    simp only [List.nil_append]
    congr 2
    exact Nat.mod_eq_of_lt (by omega)

theorem or_nibble (x k : Nat) (hx : x < 16) (hk : k < 16) :
    (x ||| (k <<< 4)) % 2 ^ 8 = x + 16 * k := by
  have h1 : x ||| (k <<< 4) = 2 ^ 4 * k + x := by
    rw [Nat.shiftLeft_eq, Nat.mul_comm k, Nat.lor_comm]
    exact (Nat.mul_add_lt_is_or (i := 4) hx k).symm
  rw [h1]
  have : 2 ^ 4 * k + x < 2 ^ 8 := by omega
  rw [Nat.mod_eq_of_lt this]
  omega

theorem destination_bytes_length (addr : Option sockaddr) (addr_len : Nat)
    (hd : valid_destination addr addr_len) (hs : sockaddr_sized addr) :
    (destination_bytes addr).length = destination_size addr := by
  cases addr with
  | none => rfl
  | some a =>
    simp only [valid_destination, sockaddr_sized, destination_bytes, destination_size,
      List.length_append] at *
    obtain ⟨hp, h4, h6⟩ := hs
    rcases hd with ⟨hf, -⟩ | ⟨hf, -⟩
    · rw [if_pos hf, h4 hf, hp]
    · have hne : ¬ a.sa_family = AF_INET := by rw [hf]; decide
      rw [if_neg hne, h6 hf, hp]

theorem encode_destination_after (out : List Nat) (size extra : Nat)
    (addr : Option sockaddr) (addr_len : Nat)
    (hd : valid_destination addr addr_len) (hs : sockaddr_sized addr)
    (hx : extra < 16) (hroom : out.length + 18 ≤ size) :
    encode_destination (cursor_after out size) extra addr addr_len =
      some (cursor_after (out ++ destination_bytes addr) size,
        extra + 16 * destination_kind addr) := by
  cases addr with
  | none => simp [encode_destination, destination_bytes, destination_kind]
  | some a =>
    simp only [valid_destination, sockaddr_sized] at hd hs
    obtain ⟨hp, h4, h6⟩ := hs
    simp only [encode_destination, destination_bytes, destination_kind]
    rcases hd with ⟨hf, hl⟩ | ⟨hf, hl⟩
    · have hlen : ¬ addr_len < sizeof_sockaddr_in := by omega
      rw [if_pos hf, if_neg hlen, OUT_after out a.addr size (by rw [h4 hf]; omega),
        if_pos hf]
      simp only
      rw [OUT_after (out ++ a.addr) a.port size
        (by rw [List.length_append, h4 hf, hp]; omega)]
      simp only [List.append_assoc]
      rw [or_nibble extra 1 hx (by decide)]
    · have hne : ¬ a.sa_family = AF_INET := by rw [hf]; decide
      have hlen : ¬ addr_len < sizeof_sockaddr_in6 := by omega
      rw [if_neg hne, if_pos hf, if_neg hlen,
        OUT_after out a.addr size (by rw [h6 hf]; omega), if_neg hne]
      simp only
      rw [OUT_after (out ++ a.addr) a.port size
        (by rw [List.length_append, h6 hf, hp]; omega)]
      simp only [List.append_assoc]
      rw [or_nibble extra 2 hx (by decide)]

theorem valid_key_len_checks (n : Nat) (h : valid_key_len n) :
    ¬ (n < 8 ∨ n > 64 ∨ (n &&& (n - 1)) ≠ 0) := by
  rcases h with h | h | h | h <;> subst h <;> decide

theorem lookup_encode_ok (correlation : List Nat) (addr : Option sockaddr)
    (addr_len : Nat) (table key : List Nat)
    (hc : correlation.length ≤ 128) (hd : valid_destination addr addr_len)
    (hs : sockaddr_sized addr) (ht : table.length = 16) (hk : valid_key_len key.length) :
    jetex_packet_lookup_encode correlation addr addr_len table key =
      (((8 + 8 * correlation_count correlation.length + destination_size addr + 16
          + key.length : Nat) : Int),
        { header :=
            { len := 8 + 8 * correlation_count correlation.length + destination_size addr
                + 16 + key.length,
              type := 0,
              extra := correlation_count correlation.length - 1
                + 16 * destination_kind addr,
              expiry := 0 },
          data := zero_padded (zero_padded correlation
              (8 * correlation_count correlation.length) ++ destination_bytes addr
              ++ table ++ key) sizeof_lookup_data }) := by
  obtain ⟨hc1, hc2, hc3⟩ := correlation_count_bounds _ hc
  have hdl := destination_bytes_length addr addr_len hd hs
  have hds : destination_size addr ≤ 18 := by
    unfold destination_size; split
    · omega
    · split <;> omega
  have hcl := zero_padded_length correlation _ hc3
  have hkl : key.length ≤ 64 := by rcases hk with h | h | h | h <;> omega
  have hnull : ¬ (addr = none ∧ addr_len ≠ 0) := by
    rintro ⟨h1, h2⟩
    subst h1
    exact h2 hd
  have hcorr : ¬ (correlation.length > 128 ∨ correlation.length > sizeof_lookup_data) := by
    unfold sizeof_lookup_data; omega
  have hzt : zero_padded table 16 = table := by simp [zero_padded, ht]
  have hzk : zero_padded key key.length = key := by simp [zero_padded]
  unfold jetex_packet_lookup_encode
  simp only [jetex_packet.zero]
  rw [if_neg hnull, if_neg hcorr, ← cursor_after_nil,
    encode_correlation_after correlation _ hc (by decide)]
  simp only
  rw [encode_destination_after _ _ _ addr addr_len hd hs (by omega)
    (by rw [hcl]; unfold sizeof_lookup_data; omega)]
  simp only
  have hl2 : (zero_padded correlation (8 * correlation_count correlation.length)
      ++ destination_bytes addr).length
      = 8 * correlation_count correlation.length + destination_size addr := by
    rw [List.length_append, hcl, hdl]
  have hrem : ¬ (cursor_after (zero_padded correlation
      (8 * correlation_count correlation.length) ++ destination_bytes addr)
      sizeof_lookup_data).remaining < 16 := by
    simp only [cursor_after, hl2]; unfold sizeof_lookup_data; omega
  rw [if_neg hrem, ADV_memcpy_after _ table 16 _ (by omega)
    (by rw [hl2]; unfold sizeof_lookup_data; omega), hzt]
  simp only
  have hl3 : (zero_padded correlation (8 * correlation_count correlation.length)
      ++ destination_bytes addr ++ table).length
      = 8 * correlation_count correlation.length + destination_size addr + 16 := by
    rw [List.length_append, hl2, ht]
  have hrem3 : ¬ (cursor_after (zero_padded correlation
      (8 * correlation_count correlation.length) ++ destination_bytes addr ++ table)
      sizeof_lookup_data).remaining < key.length := by
    simp only [cursor_after, hl3]; unfold sizeof_lookup_data; omega
  rw [if_neg (valid_key_len_checks _ hk), if_neg hrem3,
    ADV_memcpy_after _ key key.length _ (Nat.le_refl _)
      (by rw [hl3]; unfold sizeof_lookup_data; omega), hzk]
  have hl4 : (zero_padded correlation (8 * correlation_count correlation.length)
      ++ destination_bytes addr ++ table ++ key).length
      = 8 * correlation_count correlation.length + destination_size addr + 16
        + key.length := by
    rw [List.length_append, hl3]
  have hmod : (8 + (zero_padded correlation (8 * correlation_count correlation.length)
      ++ destination_bytes addr ++ table ++ key).length) % 2 ^ 16
      = 8 + 8 * correlation_count correlation.length + destination_size addr + 16
        + key.length := by
    rw [hl4, Nat.mod_eq_of_lt (by omega)]; omega
  simp only [cursor_after, sizeof_jetex_header, hmod]
  rfl

/-! ## Reading a datagram -/

theorem header_bytes_length (h : jetex_header) : (header_bytes h).length = 8 := rfl

theorem header_of_header_bytes (h : jetex_header) (hl : h.len < 2 ^ 16) (ht : h.type < 2 ^ 8)
    (hx : h.extra < 2 ^ 8) (he : h.expiry < 2 ^ 32) :
    header_of_bytes (header_bytes h) = h := by
  cases h with
  | mk len type extra expiry =>
    simp only [header_of_bytes, header_bytes, List.getD_cons_zero, List.getD_cons_succ] at *
    congr 1 <;> omega

theorem datagram_of_body (h : jetex_header) (body : List Nat) (size : Nat)
    (hl : h.len = 8 + body.length) :
    datagram { header := h, data := zero_padded body size } = header_bytes h ++ body := by
  simp only [datagram, hl, zero_padded]
  rw [← header_bytes_length h, List.take_append, List.take_left]

theorem IN_segment (packet pre x post : List Nat) (c : reader)
    (hp : packet = pre ++ x ++ post) (hb : c.bytes = pre.length)
    (hr : c.remaining = x.length + post.length) :
    IN packet c x.length =
      some (x, { bytes := pre.length + x.length, remaining := post.length }) := by
  have hn : ¬ x.length + post.length < x.length := by omega
  simp only [IN, hb, hr, if_neg hn, hp, List.append_assoc, List.drop_left, List.take_left,
    Nat.add_sub_cancel_left]

theorem memcpy_key (key : List Nat) :
    memcpy (List.replicate 64 0) 0 key = zero_padded key 64 := by
  unfold memcpy zero_padded
  rw [List.take_zero, List.nil_append, Nat.zero_add, List.drop_replicate]

theorem decode_destination_ok (packet pre post : List Nat) (addr : Option sockaddr)
    (addr_len : Nat) (src : sockaddr) (srclen : Nat) (c : reader)
    (hd : valid_destination addr addr_len) (hs : sockaddr_sized addr)
    (hsrc : addr = none → srclen ≤ sizeof_sockaddr_storage)
    (hp : packet = pre ++ destination_bytes addr ++ post) (hb : c.bytes = pre.length)
    (hr : c.remaining = (destination_bytes addr).length + post.length) :
    decode_destination packet c (destination_kind addr) src srclen =
      some (reply_address addr src, reply_address_len addr srclen,
        { bytes := pre.length + (destination_bytes addr).length,
          remaining := post.length }) := by
  cases addr with
  | none =>
    have hsrc0 := hsrc rfl
    have hns : ¬ srclen > sizeof_sockaddr_storage := by omega
    simp only [destination_bytes, List.length_nil, Nat.zero_add, Nat.add_zero] at hr ⊢
    simp only [decode_destination, destination_kind, reply_address, reply_address_len,
      if_true, if_neg hns]
    cases c with
    | mk b r =>
      simp only at hb hr
      rw [hb, hr]
  | some a =>
    simp only [valid_destination, sockaddr_sized] at hd hs
    obtain ⟨hport, h4, h6⟩ := hs
    simp only [destination_bytes, List.length_append] at hp hr ⊢
    have hp1 : packet = pre ++ a.addr ++ (a.port ++ post) := by
      rw [hp]; simp only [List.append_assoc]
    have hp2 : packet = (pre ++ a.addr) ++ a.port ++ post := by
      rw [hp]; simp only [List.append_assoc]
    rcases hd with ⟨hf, -⟩ | ⟨hf, -⟩
    · have hk : destination_kind (some a) = 1 := by simp [destination_kind, hf]
      have ha := h4 hf
      have h1 := IN_segment packet pre a.addr (a.port ++ post) c hp1 hb
        (by rw [hr, List.length_append]; omega)
      have h2 := IN_segment packet (pre ++ a.addr) a.port post
        { bytes := pre.length + 4, remaining := 2 + post.length } hp2
        (by rw [List.length_append, ha]) (by rw [hport])
      rw [ha, List.length_append, hport] at h1
      rw [hport, List.length_append, ha] at h2
      rw [hk]
      simp only [decode_destination, h1, h2, reply_address, reply_address_len, hf, if_true,
        ha, hport]
      simp
    · have hne : ¬ a.sa_family = AF_INET := by rw [hf]; decide
      have hk : destination_kind (some a) = 2 := by simp [destination_kind, hne]
      have ha := h6 hf
      have h1 := IN_segment packet pre a.addr (a.port ++ post) c hp1 hb
        (by rw [hr, List.length_append]; omega)
      have h2 := IN_segment packet (pre ++ a.addr) a.port post
        { bytes := pre.length + 16, remaining := 2 + post.length } hp2
        (by rw [List.length_append, ha]) (by rw [hport])
      rw [ha, List.length_append, hport] at h1
      rw [hport, List.length_append, ha] at h2
      rw [hk]
      simp only [decode_destination, h1, h2, reply_address, reply_address_len, hne, if_false,
        ha, hport]
      simp [hf]

theorem lookup_decode_ok (h : jetex_header) (corr table key : List Nat)
    (addr : Option sockaddr) (addr_len : Nat) (src : sockaddr) (srclen : Nat)
    (hl : h.len = 8 + corr.length + (destination_bytes addr).length + 16 + key.length)
    (hlen : h.len ≤ 234) (htype : h.type = 0) (hx : h.extra < 2 ^ 8)
    (he : h.expiry < 2 ^ 32)
    (hcorr : corr.length = 8 * (1 + h.extra % 16))
    (hkind : h.extra / 16 = destination_kind addr)
    (hd : valid_destination addr addr_len) (hs : sockaddr_sized addr)
    (hsrc : addr = none → srclen ≤ sizeof_sockaddr_storage)
    (ht : table.length = 16) (hk : key.length ≤ 64) :
    jetex_packet_lookup_decode
        (header_bytes h ++ corr ++ destination_bytes addr ++ table ++ key) src srclen =
      (0, { base_data := some (header_bytes h ++ corr ++ destination_bytes addr ++ table ++ key),
            dst := some (reply_address addr src),
            dstlen := reply_address_len addr srclen,
            correlation_key_offset := 8,
            correlation_key_length := corr.length,
            table_uuid := table,
            key := zero_padded key 64 }) := by
  generalize hpk : header_bytes h ++ corr ++ destination_bytes addr ++ table ++ key = packet
  have hplen : packet.length = h.len := by
    rw [← hpk]
    simp only [List.length_append, header_bytes_length]
    omega
  have hp0 : packet = [] ++ header_bytes h ++
      (corr ++ destination_bytes addr ++ table ++ key) := by
    rw [← hpk]; simp only [List.append_assoc, List.nil_append]
  have hin0 := IN_segment packet [] (header_bytes h)
    (corr ++ destination_bytes addr ++ table ++ key)
    { bytes := 0, remaining := packet.length } hp0 rfl
    (by rw [hplen, hl]; simp only [List.length_append, header_bytes_length]; omega)
  rw [header_bytes_length] at hin0
  simp only [List.length_nil, Nat.zero_add, List.length_append] at hin0
  have hhdr := header_of_header_bytes h (by omega) (by rw [htype]; decide) hx he
  have hpd : packet = (header_bytes h ++ corr) ++ destination_bytes addr ++ (table ++ key) := by
    rw [← hpk]; simp only [List.append_assoc]
  have hdest := decode_destination_ok packet (header_bytes h ++ corr) (table ++ key) addr
    addr_len src srclen
    { bytes := 8 + corr.length,
      remaining := corr.length + (destination_bytes addr).length + table.length + key.length
        - corr.length }
    hd hs hsrc hpd (by rw [List.length_append, header_bytes_length])
    (by simp only [List.length_append]; omega)
  have hpt : packet = (header_bytes h ++ corr ++ destination_bytes addr) ++ table ++ key := by
    rw [← hpk]
  have hint := IN_segment packet (header_bytes h ++ corr ++ destination_bytes addr) table key
    { bytes := (header_bytes h ++ corr).length + (destination_bytes addr).length,
      remaining := (table ++ key).length } hpt
    (by simp only [List.length_append]) (by simp only [List.length_append])
  rw [ht] at hint
  have hshift : h.extra >>> 4 = destination_kind addr := by
    rw [Nat.shiftRight_eq_div_pow]; exact hkind
  have hc1 : ¬ packet.length > sizeof_jetex_header + sizeof_lookup_data := by
    rw [hplen]; unfold sizeof_jetex_header sizeof_lookup_data; omega
  have hc2 : ¬ h.type ≠ 0 := by simp [htype]
  have hc3 : ¬ h.len ≠ packet.length := by simp [hplen]
  have hdrop : List.drop ((header_bytes h ++ corr ++ destination_bytes addr).length + 16)
      packet = key := by
    rw [hpt, List.append_assoc, ← ht, ← List.length_append, ← List.append_assoc]
    exact List.drop_left _ _
  unfold jetex_packet_lookup_decode
  simp only [sizeof_jetex_header] at hc1 ⊢
  have hc5 : ¬ corr.length >
      corr.length + (destination_bytes addr).length + table.length + key.length := by
    omega
  simp only [hin0, hhdr, if_neg hc1, if_neg hc2, if_neg hc3, ← hcorr, if_neg hc5, hshift,
    hdest, hint, hdrop]
  have hk8 : 8 % 2 ^ 32 = 8 := by decide
  have htake : List.take 64 key = key := List.take_of_length_le hk
  rw [hk8, htake, List.take_length, memcpy_key]
  simp only [ite_self]

theorem destination_kind_le (addr : Option sockaddr) : destination_kind addr ≤ 2 := by
  unfold destination_kind
  split
  · omega
  · split <;> omega

theorem lookup_datagram (correlation : List Nat) (addr : Option sockaddr)
    (addr_len : Nat) (table key : List Nat)
    (hc : correlation.length ≤ 128) (hd : valid_destination addr addr_len)
    (hs : sockaddr_sized addr) (ht : table.length = 16) (hk : valid_key_len key.length) :
    datagram (jetex_packet_lookup_encode correlation addr addr_len table key).2 =
      header_bytes (jetex_packet_lookup_encode correlation addr addr_len table key).2.header
        ++ zero_padded correlation (8 * correlation_count correlation.length)
        ++ destination_bytes addr ++ table ++ key := by
  obtain ⟨hc1, hc2, hc3⟩ := correlation_count_bounds _ hc
  have hdl := destination_bytes_length addr addr_len hd hs
  have hcl := zero_padded_length correlation _ hc3
  rw [lookup_encode_ok correlation addr addr_len table key hc hd hs ht hk]
  simp only
  rw [datagram_of_body _ _ _ (by
    simp only [List.length_append, hcl, hdl, ht]; omega)]
  simp only [List.append_assoc]

/-- C11: for a correlation of at most 128 bytes, a destination that is absent,
IPv4 or IPv6, a 16-byte table UUID and a key of 8, 16, 32 or 64 bytes,
`jetex_packet_lookup_encode` succeeds and `jetex_packet_lookup_decode` of the
first `header.len` bytes, received from a source address `src` (one that fits
a `struct sockaddr_storage` when it is to be the reply address), returns 0 with
`correlation_key_offset = 8`, `correlation_key_length` the padded correlation
length, the padded correlation at that offset, the UUID, the key zero-padded to
64 bytes, and as `dst` the source address or the encoded destination. -/
theorem lookup_round_trip (correlation : List Nat) (addr : Option sockaddr)
    (addr_len : Nat) (table key : List Nat) (src : sockaddr) (srclen : Nat)
    (hc : correlation.length ≤ 128) (hd : valid_destination addr addr_len)
    (hs : sockaddr_sized addr) (ht : table.length = 16) (hk : valid_key_len key.length)
    (hsrc : addr = none → srclen ≤ sizeof_sockaddr_storage) :
    (jetex_packet_lookup_encode correlation addr addr_len table key).1 =
      ((jetex_packet_lookup_encode correlation addr addr_len table key).2.header.len : Int) ∧
    0 < (jetex_packet_lookup_encode correlation addr addr_len table key).2.header.len ∧
    jetex_packet_lookup_decode
        (datagram (jetex_packet_lookup_encode correlation addr addr_len table key).2)
        src srclen =
      (0, { base_data :=
              some (datagram (jetex_packet_lookup_encode correlation addr addr_len table key).2),
            dst := some (reply_address addr src),
            dstlen := reply_address_len addr srclen,
            correlation_key_offset := 8,
            correlation_key_length := 8 * correlation_count correlation.length,
            table_uuid := table,
            key := zero_padded key 64 }) ∧
    ((datagram (jetex_packet_lookup_encode correlation addr addr_len table key).2).drop 8).take
        (8 * correlation_count correlation.length) =
      zero_padded correlation (8 * correlation_count correlation.length) := by
  obtain ⟨hc1, hc2, hc3⟩ := correlation_count_bounds _ hc
  have hdl := destination_bytes_length addr addr_len hd hs
  have hds : destination_size addr ≤ 18 := by
    unfold destination_size; split
    · omega
    · split <;> omega
  have hcl := zero_padded_length correlation _ hc3
  have hkl : key.length ≤ 64 := by rcases hk with h | h | h | h <;> omega
  have hkind := destination_kind_le addr
  have hdg := lookup_datagram correlation addr addr_len table key hc hd hs ht hk
  have henc := lookup_encode_ok correlation addr addr_len table key hc hd hs ht hk
  rw [hdg]
  refine ⟨?_, ?_, ?_, ?_⟩
  · rw [henc]
  · rw [henc]; simp only; omega
  · have hdec := lookup_decode_ok
      (jetex_packet_lookup_encode correlation addr addr_len table key).2.header
      (zero_padded correlation (8 * correlation_count correlation.length)) table key addr
      addr_len src srclen
      (by rw [henc, hcl, hdl])
      (by rw [henc]; simp only; omega)
      (by rw [henc])
      (by rw [henc]; simp only; omega)
      (by rw [henc]; simp only; decide)
      (by rw [henc, hcl]; simp only; omega)
      (by rw [henc]; simp only; omega)
      hd hs hsrc ht hkl
    rw [hcl] at hdec
    exact hdec
  · rw [List.append_assoc, List.append_assoc, List.append_assoc,
      List.drop_left' (header_bytes_length _)]
    exact List.take_left' hcl

/-! ## Layout and failure of the lookup encoder -/

/-- C17: for a valid input the lookup encoder returns
`header.len = 8 + 8*c + d + 16 + key_len` with `c = max(1, ceil(correlation_len/8))`
and `d` = 0, 6 or 18, `type = 0`, `extra` low nibble `c - 1` and high nibble 0, 1
or 2, and the body is the correlation zero-padded to `8*c` bytes, the address
and port bytes, the UUID and the key, followed by zeros. -/
theorem lookup_encode_layout (correlation : List Nat) (addr : Option sockaddr)
    (addr_len : Nat) (table key : List Nat)
    (hc : correlation.length ≤ 128) (hd : valid_destination addr addr_len)
    (hs : sockaddr_sized addr) (ht : table.length = 16) (hk : valid_key_len key.length) :
    jetex_packet_lookup_encode correlation addr addr_len table key =
      (((8 + 8 * correlation_count correlation.length + destination_size addr + 16
          + key.length : Nat) : Int),
        { header :=
            { len := 8 + 8 * correlation_count correlation.length + destination_size addr
                + 16 + key.length,
              type := 0,
              extra := correlation_count correlation.length - 1
                + 16 * destination_kind addr,
              expiry := 0 },
          data := zero_padded (zero_padded correlation
              (8 * correlation_count correlation.length) ++ destination_bytes addr
              ++ table ++ key) sizeof_lookup_data }) ∧
    (jetex_packet_lookup_encode correlation addr addr_len table key).2.header.extra % 16 =
      correlation_count correlation.length - 1 ∧
    (jetex_packet_lookup_encode correlation addr addr_len table key).2.header.extra / 16 =
      destination_kind addr ∧
    (destination_bytes addr).length = destination_size addr := by
  have henc := lookup_encode_ok correlation addr addr_len table key hc hd hs ht hk
  obtain ⟨hc1, hc2, -⟩ := correlation_count_bounds _ hc
  refine ⟨henc, ?_, ?_, destination_bytes_length addr addr_len hd hs⟩
  · rw [henc]; simp only; omega
  · rw [henc]; simp only; omega

set_option maxRecDepth 100000 in
/-- The spec's scenario 5: a 4-byte correlation, no destination and an 8-byte
key give `header.len = 8 + 8 + 16 + 8 = 40`. -/
theorem lookup_encode_layout_witness :
    (jetex_packet_lookup_encode sample_correlation none 0 sample_uuid sample_key).1 = 40 ∧
    (jetex_packet_lookup_encode sample_correlation none 0 sample_uuid sample_key).2.header =
      { len := 40, type := 0, extra := 0, expiry := 0 } ∧
    (jetex_packet_lookup_encode sample_correlation none 0 sample_uuid sample_key).2.data =
      zero_padded ([0xDE, 0xAD, 0xBE, 0xEF, 0, 0, 0, 0] ++ sample_uuid ++ sample_key) 226 := by
  have h := (lookup_encode_layout sample_correlation none 0 sample_uuid sample_key
    (by decide) (by decide) (by decide) (by decide) (by decide)).1
  rw [h]
  exact ⟨by decide, by decide, by decide⟩

set_option maxRecDepth 100000 in
theorem key_len_power_of_two :
    ∀ n, n < 65 → 8 ≤ n → n &&& (n - 1) = 0 → valid_key_len n := by
  decide

theorem encode_destination_some (c : cursor) (extra : Nat) (addr : Option sockaddr)
    (addr_len : Nat) (r : cursor × Nat)
    (h : encode_destination c extra addr addr_len = some r)
    (hnull : ¬ (addr = none ∧ addr_len ≠ 0)) : valid_destination addr addr_len := by
  cases addr with
  | none =>
    simp only [valid_destination]
    by_contra hne
    exact hnull ⟨rfl, hne⟩
  | some a =>
    simp only [valid_destination]
    simp only [encode_destination] at h
    by_cases h4 : a.sa_family = AF_INET
    · rw [if_pos h4] at h
      by_cases hl : addr_len < sizeof_sockaddr_in
      · rw [if_pos hl] at h; exact absurd h (by simp)
      · exact Or.inl ⟨h4, by omega⟩
    · rw [if_neg h4] at h
      by_cases h6 : a.sa_family = AF_INET6
      · rw [if_pos h6] at h
        by_cases hl : addr_len < sizeof_sockaddr_in6
        · rw [if_pos hl] at h; exact absurd h (by simp)
        · exact Or.inr ⟨h6, by omega⟩
      · rw [if_neg h6] at h; exact absurd h (by simp)

theorem lookup_encode_cases (correlation : List Nat) (addr : Option sockaddr)
    (addr_len : Nat) (table key : List Nat) :
    ((jetex_packet_lookup_encode correlation addr addr_len table key).1 = -1 ∧
      (jetex_packet_lookup_encode correlation addr addr_len table key).2.header.len = 0) ∨
    (correlation.length ≤ 128 ∧ valid_destination addr addr_len ∧
      valid_key_len key.length) := by
  unfold jetex_packet_lookup_encode
  simp only
  split
  · exact Or.inl ⟨rfl, rfl⟩
  rename_i hnull
  split
  · exact Or.inl ⟨rfl, rfl⟩
  rename_i hcorr
  split
  · exact Or.inl ⟨rfl, rfl⟩
  split
  · exact Or.inl ⟨rfl, rfl⟩
  rename_i c2 extra2 hdest
  split
  · exact Or.inl ⟨rfl, rfl⟩
  split
  · exact Or.inl ⟨rfl, rfl⟩
  split
  · exact Or.inl ⟨rfl, rfl⟩
  rename_i hkey
  split
  · exact Or.inl ⟨rfl, rfl⟩
  split
  · exact Or.inl ⟨rfl, rfl⟩
  right
  refine ⟨by omega, encode_destination_some _ _ _ _ _ hdest hnull, ?_⟩
  apply key_len_power_of_two
  · omega
  · omega
  · by_contra hne
    exact hkey (Or.inr (Or.inr hne))

/-- C18: the lookup encoder returns -1 exactly when the input is invalid: a
correlation over 128 bytes, a null address with `addr_len != 0`, a family other
than IPv4 and IPv6, an `addr_len` below the size of the family's socket address,
or a key length that is not 8, 16, 32 or 64; whenever it returns -1,
`header.len` is 0, and for every valid input it returns `header.len > 0`: the
226 bytes of `data` always suffice. -/
theorem lookup_encode_fails_iff_invalid (correlation : List Nat) (addr : Option sockaddr)
    (addr_len : Nat) (table key : List Nat)
    (hs : sockaddr_sized addr) (ht : table.length = 16) :
    ((jetex_packet_lookup_encode correlation addr addr_len table key).1 = -1 ↔
      ¬ (correlation.length ≤ 128 ∧ valid_destination addr addr_len ∧
          valid_key_len key.length)) ∧
    ((jetex_packet_lookup_encode correlation addr addr_len table key).1 = -1 →
      (jetex_packet_lookup_encode correlation addr addr_len table key).2.header.len = 0) ∧
    ((correlation.length ≤ 128 ∧ valid_destination addr addr_len ∧
        valid_key_len key.length) →
      0 < (jetex_packet_lookup_encode correlation addr addr_len table key).1 ∧
      (jetex_packet_lookup_encode correlation addr addr_len table key).1 =
        ((jetex_packet_lookup_encode correlation addr addr_len table key).2.header.len
          : Int) ∧
      8 * correlation_count correlation.length + destination_size addr + 16 + key.length
        ≤ sizeof_lookup_data) := by
  have hvalid : (correlation.length ≤ 128 ∧ valid_destination addr addr_len ∧
      valid_key_len key.length) →
      0 < (jetex_packet_lookup_encode correlation addr addr_len table key).1 ∧
      (jetex_packet_lookup_encode correlation addr addr_len table key).1 =
        ((jetex_packet_lookup_encode correlation addr addr_len table key).2.header.len
          : Int) ∧
      8 * correlation_count correlation.length + destination_size addr + 16 + key.length
        ≤ sizeof_lookup_data := by
    rintro ⟨hc, hd, hk⟩
    obtain ⟨hc1, hc2, -⟩ := correlation_count_bounds _ hc
    have hds : destination_size addr ≤ 18 := by
      unfold destination_size; split
      · omega
      · split <;> omega
    have hkl : key.length ≤ 64 := by rcases hk with h | h | h | h <;> omega
    rw [lookup_encode_ok correlation addr addr_len table key hc hd hs ht hk]
    refine ⟨by simp only; omega, rfl, ?_⟩
    unfold sizeof_lookup_data
    omega
  have hcases := lookup_encode_cases correlation addr addr_len table key
  refine ⟨⟨fun hfail hv => ?_, fun hinv => ?_⟩, fun hfail => ?_, hvalid⟩
  · have := (hvalid hv).1
    omega
  · rcases hcases with ⟨h1, -⟩ | hv
    · exact h1
    · exact absurd hv hinv
  · rcases hcases with ⟨-, h0⟩ | hv
    · exact h0
    · have := (hvalid hv).1
      omega

/-! ## Response encoders -/

theorem key_size_bits (x n : Nat) (hx : x < 16) (hk : valid_key_len n) :
    (if n = 8 then some 0
      else if n = 16 then some (1 <<< 4)
      else if n = 32 then some (2 <<< 4)
      else if n = 64 then some (3 <<< 4)
      else (none : Option Nat)) = some (key_size_code n <<< 4) ∧
    (x ||| (key_size_code n <<< 4)) % 2 ^ 8 = x + 16 * key_size_code n := by
  have hcode : key_size_code n < 16 := by
    unfold key_size_code
    split
    · omega
    · split
      · omega
      · split <;> omega
  refine ⟨?_, or_nibble x _ hx hcode⟩
  rcases hk with h | h | h | h <;> subst h <;> decide

theorem response_header_encode_ok (type : Nat) (correlation table key : List Nat)
    (hc : correlation.length ≤ 128) (ht : table.length = 16)
    (hk : valid_key_len key.length) :
    jetex_response_header_encode type correlation table key =
      (((8 + 8 * correlation_count correlation.length + 16 + key.length : Nat) : Int),
        { header :=
            { len := 8 + 8 * correlation_count correlation.length + 16 + key.length,
              type := type,
              extra := correlation_count correlation.length - 1
                + 16 * key_size_code key.length,
              expiry := 0 },
          data := zero_padded (zero_padded correlation
              (8 * correlation_count correlation.length) ++ table ++ key)
              sizeof_response_data }) := by
  obtain ⟨hc1, hc2, hc3⟩ := correlation_count_bounds _ hc
  have hcl := zero_padded_length correlation _ hc3
  have hkl : key.length ≤ 64 := by rcases hk with h | h | h | h <;> omega
  have hcorr : ¬ (correlation.length > 128 ∨ correlation.length > sizeof_response_data) := by
    unfold sizeof_response_data; omega
  have hzt : zero_padded table 16 = table := by simp [zero_padded, ht]
  have hzk : zero_padded key key.length = key := by simp [zero_padded]
  obtain ⟨hbits, hextra⟩ := key_size_bits (correlation_count correlation.length - 1)
    key.length (by omega) hk
  unfold jetex_response_header_encode
  simp only
  rw [if_neg hcorr, ← cursor_after_nil,
    encode_correlation_after correlation _ hc (by decide)]
  simp only
  rw [ADV_memcpy_after _ table 16 _ (by omega)
    (by rw [hcl]; unfold sizeof_response_data; omega), hzt]
  simp only
  rw [hbits]
  simp only
  have hl3 : (zero_padded correlation (8 * correlation_count correlation.length)
      ++ table).length = 8 * correlation_count correlation.length + 16 := by
    rw [List.length_append, hcl, ht]
  rw [ADV_memcpy_after _ key key.length _ (Nat.le_refl _)
    (by rw [hl3]; unfold sizeof_response_data; omega), hzk]
  have hl4 : (zero_padded correlation (8 * correlation_count correlation.length)
      ++ table ++ key).length
      = 8 * correlation_count correlation.length + 16 + key.length := by
    rw [List.length_append, hl3]
  have hmod : (8 + (zero_padded correlation (8 * correlation_count correlation.length)
      ++ table ++ key).length) % 2 ^ 16
      = 8 + 8 * correlation_count correlation.length + 16 + key.length := by
    rw [hl4, Nat.mod_eq_of_lt (by omega)]; omega
  simp only [cursor_after, sizeof_jetex_header, hmod, hextra]
  rfl

theorem response_header_encode_bad_key (type : Nat) (correlation table key : List Nat)
    (hk : ¬ valid_key_len key.length) :
    jetex_response_header_encode type correlation table key =
      (-1, jetex_packet.zero sizeof_response_data) := by
  unfold jetex_response_header_encode
  simp only
  split
  · rfl
  split
  · rfl
  split
  · rfl
  split
  · rfl
  rename_i bits hbits
  exfalso
  apply hk
  unfold valid_key_len
  by_cases h8 : key.length = 8
  · exact Or.inl h8
  by_cases h16 : key.length = 16
  · exact Or.inr (Or.inl h16)
  by_cases h32 : key.length = 32
  · exact Or.inr (Or.inr (Or.inl h32))
  by_cases h64 : key.length = 64
  · exact Or.inr (Or.inr (Or.inr h64))
  rw [if_neg h8, if_neg h16, if_neg h32, if_neg h64] at hbits
  exact absurd hbits (by simp)

/-- C19: for a correlation of at most 128 bytes, a 16-byte UUID and a key of 8,
16, 32 or 64 bytes, `jetex_packet_missing_encode` produces type 3 and
`jetex_packet_found_encode` type 1, both with `extra` low nibble `c - 1` and
high nibble 0, 1, 2, 3 for the key length, the body zero-padded correlation,
UUID, key, and `header.len = 8 + 8*c + 16 + key_len`, plus `value_len` for a
found response that stays below `2^15`; any other key length returns -1 with
`header.len = 0`. -/
theorem response_encode_layout (correlation table key : List Nat) (value_len : Nat)
    (hc : correlation.length ≤ 128) (ht : table.length = 16) :
    (valid_key_len key.length →
      jetex_packet_missing_encode correlation table key =
        (((8 + 8 * correlation_count correlation.length + 16 + key.length : Nat) : Int),
          { header :=
              { len := 8 + 8 * correlation_count correlation.length + 16 + key.length,
                type := 3,
                extra := correlation_count correlation.length - 1
                  + 16 * key_size_code key.length,
                expiry := 0 },
            data := zero_padded (zero_padded correlation
                (8 * correlation_count correlation.length) ++ table ++ key)
                sizeof_response_data }) ∧
      (8 + 8 * correlation_count correlation.length + 16 + key.length + value_len < 2 ^ 15 →
        jetex_packet_found_encode correlation table key value_len =
          (((8 + 8 * correlation_count correlation.length + 16 + key.length : Nat) : Int),
            { header :=
                { len := 8 + 8 * correlation_count correlation.length + 16 + key.length
                    + value_len,
                  type := 1,
                  extra := correlation_count correlation.length - 1
                    + 16 * key_size_code key.length,
                  expiry := 0 },
              data := zero_padded (zero_padded correlation
                  (8 * correlation_count correlation.length) ++ table ++ key)
                  sizeof_response_data })) ∧
      (correlation_count correlation.length - 1 + 16 * key_size_code key.length) % 16 =
        correlation_count correlation.length - 1 ∧
      (correlation_count correlation.length - 1 + 16 * key_size_code key.length) / 16 =
        key_size_code key.length) ∧
    (¬ valid_key_len key.length →
      (jetex_packet_missing_encode correlation table key).1 = -1 ∧
      (jetex_packet_missing_encode correlation table key).2.header.len = 0 ∧
      (jetex_packet_found_encode correlation table key value_len).1 = -1 ∧
      (jetex_packet_found_encode correlation table key value_len).2.header.len = 0) := by
  obtain ⟨hc1, hc2, -⟩ := correlation_count_bounds _ hc
  constructor
  · intro hk
    have hkl : key.length ≤ 64 := by rcases hk with h | h | h | h <;> omega
    refine ⟨response_header_encode_ok 3 correlation table key hc ht hk, ?_, by omega,
      by omega⟩
    intro hv
    unfold jetex_packet_found_encode
    simp only [response_header_encode_ok 1 correlation table key hc ht hk]
    have h1 : ¬ (((8 + 8 * correlation_count correlation.length + 16 + key.length : Nat)
        : Int) < 0) := by omega
    have hm : (8 + 8 * correlation_count correlation.length + 16 + key.length + value_len)
        % 2 ^ 64 = 8 + 8 * correlation_count correlation.length + 16 + key.length
          + value_len := Nat.mod_eq_of_lt (by omega)
    have h15 : (1 : Nat) <<< 15 = 2 ^ 15 := by decide
    have h2 : ¬ (8 + 8 * correlation_count correlation.length + 16 + key.length + value_len
        ≥ 2 ^ 15) := by omega
    have hm16 : (8 + 8 * correlation_count correlation.length + 16 + key.length + value_len)
        % 2 ^ 16 = 8 + 8 * correlation_count correlation.length + 16 + key.length
          + value_len := Nat.mod_eq_of_lt (by omega)
    rw [if_neg h1, hm, h15, if_neg h2, hm16]
  · intro hk
    have hbad1 := response_header_encode_bad_key 3 correlation table key hk
    have hbad2 := response_header_encode_bad_key 1 correlation table key hk
    have hneg : ((-1 : Int) < 0) := by decide
    unfold jetex_packet_missing_encode jetex_packet_found_encode
    simp only [hbad1, hbad2, if_pos hneg]
    exact ⟨trivial, rfl, trivial, rfl⟩

/-! ## The codec on the sample packets -/

set_option maxRecDepth 100000 in
/-- The spec's scenario 5: the lookup with correlation `0xDEADBEEF`, no
destination and an 8-byte key decodes with a correlation of 8 bytes at offset
8, `dst` the source address, the UUID, `key[0]` the key word and `key[1..7]`
zero. -/
theorem lookup_round_trip_witness :
    jetex_packet_lookup_decode
        (datagram (jetex_packet_lookup_encode sample_correlation none 0 sample_uuid
          sample_key).2) sample_source 16 =
      (0, { base_data :=
              some (datagram (jetex_packet_lookup_encode sample_correlation none 0
                sample_uuid sample_key).2),
            dst := some sample_source,
            dstlen := 16,
            correlation_key_offset := 8,
            correlation_key_length := 8,
            table_uuid := sample_uuid,
            key := zero_padded sample_key 64 }) ∧
    key_word (zero_padded sample_key 64) 0 = 0x0807060504030201 ∧
    (List.range 7).all (fun i => key_word (zero_padded sample_key 64) (i + 1) = 0) = true :=
  ⟨(lookup_round_trip sample_correlation none 0 sample_uuid sample_key sample_source 16
      (by decide) (by decide) (by decide) (by decide) (by decide)
      (fun _ => by decide)).2.2.1,
    by decide, by decide⟩

set_option maxRecDepth 100000 in
/-- C12, evaluated: a lookup datagram whose key section has 3 bytes, and one
whose key section is empty, are decoded with status 0; the 3 key bytes are
copied into `key` and zero-padded to 64 bytes. -/
theorem lookup_decode_accepts_short_key :
    short_key_datagram.length = 8 + 8 + 16 + 3 ∧
    (jetex_packet_lookup_decode short_key_datagram sample_source 16).1 = 0 ∧
    (jetex_packet_lookup_decode short_key_datagram sample_source 16).2.key =
      zero_padded [1, 2, 3] 64 ∧
    (jetex_packet_lookup_decode short_key_datagram sample_source 16).2.table_uuid =
      sample_uuid ∧
    empty_key_datagram.length = 8 + 8 + 16 + 0 ∧
    (jetex_packet_lookup_decode empty_key_datagram sample_source 16).1 = 0 ∧
    (jetex_packet_lookup_decode empty_key_datagram sample_source 16).2.key =
      List.replicate 64 0 := by
  decide

set_option maxRecDepth 100000 in
/-- A valid lookup is encoded with a positive length, and the same lookup with a
3-byte key fails with -1 and `header.len = 0`. -/
theorem lookup_encode_fails_iff_invalid_witness :
    (jetex_packet_lookup_encode sample_correlation none 0 sample_uuid [1, 2, 3]).1 = -1 ∧
    (jetex_packet_lookup_encode sample_correlation none 0 sample_uuid [1, 2, 3]).2.header.len
      = 0 ∧
    0 < (jetex_packet_lookup_encode sample_correlation (some sample_destination6) 28
      sample_uuid sample_key).1 :=
  ⟨(lookup_encode_fails_iff_invalid sample_correlation none 0 sample_uuid [1, 2, 3]
      (by decide) (by decide)).1.2 (by decide),
   (lookup_encode_fails_iff_invalid sample_correlation none 0 sample_uuid [1, 2, 3]
      (by decide) (by decide)).2.1
      ((lookup_encode_fails_iff_invalid sample_correlation none 0 sample_uuid [1, 2, 3]
        (by decide) (by decide)).1.2 (by decide)),
   ((lookup_encode_fails_iff_invalid sample_correlation (some sample_destination6) 28
      sample_uuid sample_key (by decide) (by decide)).2.2 (by decide)).1⟩

set_option maxRecDepth 100000 in
/-- The spec's scenario 6: a found response with a 4-byte correlation, an 8-byte
key and a 12-byte value has `header.len = 52`, `extra = 0` and `type = 1`. -/
theorem response_encode_layout_witness :
    (jetex_packet_found_encode sample_correlation sample_uuid sample_key 12).2.header =
      { len := 52, type := 1, extra := 0, expiry := 0 } ∧
    (jetex_packet_missing_encode sample_correlation sample_uuid sample_key).2.header =
      { len := 40, type := 3, extra := 0, expiry := 0 } := by
  have h := (response_encode_layout sample_correlation sample_uuid sample_key 12
    (by decide) (by decide)).1 (by decide)
  rw [h.1, h.2.1 (by decide)]
  exact ⟨by decide, by decide⟩

set_option maxRecDepth 100000 in
/-- C20, evaluated: the response header for a 4-byte correlation and an 8-byte
key is 40 bytes long; with `value_len = 2^64 - 40` the 64-bit sum
`header.len + value_len` wraps to 0, passes the `>= 2^15` test, and
`jetex_packet_found_encode` returns 40 with `header.len = 0`; with
`value_len = 2^64 - 1` it returns 40 with `header.len = 39`.  With
`value_len = 2^15 - 40` it returns -1 as it should. -/
theorem found_encode_length_wraps :
    (jetex_packet_missing_encode sample_correlation sample_uuid sample_key).1 = 40 ∧
    40 + (2 ^ 64 - 40) ≥ 2 ^ 15 ∧
    (jetex_packet_found_encode sample_correlation sample_uuid sample_key (2 ^ 64 - 40)).1
      = 40 ∧
    (jetex_packet_found_encode sample_correlation sample_uuid sample_key
      (2 ^ 64 - 40)).2.header = { len := 0, type := 1, extra := 0, expiry := 0 } ∧
    (jetex_packet_found_encode sample_correlation sample_uuid sample_key (2 ^ 64 - 1)).1
      = 40 ∧
    (jetex_packet_found_encode sample_correlation sample_uuid sample_key
      (2 ^ 64 - 1)).2.header = { len := 39, type := 1, extra := 0, expiry := 0 } ∧
    (jetex_packet_found_encode sample_correlation sample_uuid sample_key (2 ^ 15 - 40)).1
      = -1 := by
  decide

/-! ## Namespace creation -/

theorem cmp_jetex_table_ptr_le (mem : Nat → jetex_table) (p q : Nat) :
    cmp_jetex_table_ptr mem p q ≤ 0 ↔ uuid_le (mem p) (mem q) := by
  unfold cmp_jetex_table_ptr uuid_le
  simp only
  split
  · split
    · constructor
      · intro _; left; assumption
      · intro _; decide
    · constructor
      · intro h; exact absurd h (by decide)
      · intro h; omega
  · split
    · split
      · constructor
        · intro _; right; omega
        · intro _; decide
      · constructor
        · intro h; exact absurd h (by decide)
        · intro h; omega
    · constructor
      · intro _; right; omega
      · intro _; decide

theorem qsort_perm {α : Type} (compar : α → α → Int) (base : List α) :
    (qsort compar base).Perm base :=
  List.perm_insertionSort _ base

theorem qsort_sorted {α : Type} (compar : α → α → Int)
    (htotal : ∀ x y, compar x y ≤ 0 ∨ compar y x ≤ 0)
    (htrans : ∀ x y z, compar x y ≤ 0 → compar y z ≤ 0 → compar x z ≤ 0) (base : List α) :
    (qsort compar base).Pairwise (fun x y => compar x y ≤ 0) := by
  haveI : IsTotal α (fun x y => compar x y ≤ 0) := ⟨htotal⟩
  haveI : IsTrans α (fun x y => compar x y ≤ 0) := ⟨htrans⟩
  exact List.sorted_insertionSort _ base

/-- C21: `jetex_namespace_create` sets `ntable` to the number of references it
was given and stores a permutation of them in which every entry is followed
only by entries of greater or equal UUID, the UUIDs being compared by their
first 8 bytes and then by the next 8, as unsigned 64-bit words in host order;
in particular consecutive entries are non-decreasing. -/
theorem namespace_create_sorted (mem : Nat → jetex_table) (tables : List Nat) :
    (jetex_namespace_create mem tables).ntable = tables.length ∧
    (jetex_namespace_create mem tables).tables.length = tables.length ∧
    (jetex_namespace_create mem tables).tables.Perm tables ∧
    (jetex_namespace_create mem tables).tables.Pairwise
      (fun p q => uuid_le (mem p) (mem q)) ∧
    (jetex_namespace_create mem tables).tables.Chain'
      (fun p q => uuid_le (mem p) (mem q)) := by
  have hperm := qsort_perm (cmp_jetex_table_ptr mem) tables
  have hsorted : (qsort (cmp_jetex_table_ptr mem) tables).Pairwise
      (fun p q => uuid_le (mem p) (mem q)) := by
    have h := qsort_sorted (cmp_jetex_table_ptr mem)
      (fun x y => by
        rw [cmp_jetex_table_ptr_le, cmp_jetex_table_ptr_le]
        unfold uuid_le; omega)
      (fun x y z => by
        rw [cmp_jetex_table_ptr_le, cmp_jetex_table_ptr_le, cmp_jetex_table_ptr_le]
        unfold uuid_le; omega) tables
    exact h.imp (fun hpq => (cmp_jetex_table_ptr_le mem _ _).1 hpq)
  exact ⟨rfl, hperm.length_eq, hperm, hsorted, List.Pairwise.chain' hsorted⟩

/-- Four tables given in the order 0x1000, 0x2000, 0x3000, 0x4000 are stored in
the order 0x4000, 0x3000, 0x2000, 0x1000: the first words are 1, 1, `1 << 56`
and `2^64 - 1`, and the two tables with first word 1 are ordered by their
second words. -/
theorem namespace_create_sample :
    jetex_namespace_create sample_tables [0x1000, 0x2000, 0x3000, 0x4000] =
      { ntable := 4, tables := [0x4000, 0x3000, 0x2000, 0x1000] } := by
  decide

/-! ## Scenario 1 -/

theorem scale_max_multiplier (delta : Nat) (hd : delta < 2 ^ 64) :
    scale delta (2 ^ 64 - 1) = delta - 1 := by
  unfold scale
  have h1 : (2 ^ 64 - 1) * delta < 2 ^ 128 := by
    have : (2 ^ 64 - 1) * delta < 2 ^ 64 * 2 ^ 64 :=
      Nat.mul_lt_mul'' (by norm_num) hd
    simpa [← pow_add] using this
  rw [Nat.mod_eq_of_lt h1]
  have h2 : (2 ^ 64 - 1) * delta / 2 ^ 64 = delta - 1 := by
    rcases Nat.eq_zero_or_pos delta with h0 | hpos
    · subst h0; rfl
    · apply Nat.div_eq_of_lt_le
      · have : (delta - 1) * 2 ^ 64 = 2 ^ 64 * delta - 2 ^ 64 := by
          rw [Nat.sub_mul, Nat.one_mul, Nat.mul_comm]
        rw [Nat.sub_mul, Nat.one_mul, Nat.sub_mul, Nat.one_mul, Nat.mul_comm delta]
        omega
      · have hs : delta - 1 + 1 = delta := by omega
        rw [hs, Nat.sub_mul, Nat.one_mul, Nat.mul_comm delta]
        omega
  rw [h2]
  exact Nat.mod_eq_of_lt (by omega)

theorem scale_one (multiplier : Nat) (hm : multiplier < 2 ^ 64) : scale 1 multiplier = 0 := by
  unfold scale
  rw [Nat.mul_one, Nat.mod_eq_of_lt (show multiplier < 2 ^ 128 by omega), Nat.div_eq_of_lt hm,
    Nat.zero_mod]

/-- C22, refuted as stated: no 64-bit multiplier gives `scale(k - 100,
multiplier) = k - 100` for every `k` from 100 to 109; already key 101 is sent to
slot 0, because `scale` keeps the high 64 bits of a product with a factor
below `2^64`. -/
theorem scenario_one_multiplier_absent :
    ¬ ∃ multiplier, multiplier < 2 ^ 64 ∧
        ∀ k, 100 ≤ k → k ≤ 109 → scale (k - 100) multiplier = k - 100 := by
  rintro ⟨m, hm, h⟩
  have h1 := h 101 (by norm_num) (by norm_num)
  rw [scale_one m hm] at h1
  exact absurd h1 (by norm_num)

/-- C22, amended: with the multiplier `2^64 - 1` the guess for key `k` is slot
`k - 101` for `k` from 101 to 109 and slot 0 for key 100; with the items
`(100, v100)`, `(105, v105)`, `(109, v109)` in slots 0, 4 and 8 and a slot 3
whose first word is not 104, `fragment_lookup` returns the items of keys 100,
105 and 109 and `NULL` for keys 104 and 110. -/
theorem scenario_one (items : Nat → Nat) (v100 v105 v109 : Nat)
    (h0 : items 0 = 100 ∧ items 1 = v100) (h4 : items 8 = 105 ∧ items 9 = v105)
    (h8 : items 16 = 109 ∧ items 17 = v109) (h3 : items 6 ≠ 104) :
    (∀ k, 100 ≤ k → k ≤ 109 → scale (k - 100) (2 ^ 64 - 1) = k - 101) ∧
    item_at items (fragment_lookup (scenario_view (2 ^ 64 - 1) items) (key_of 100 0))
      = some (100, v100) ∧
    item_at items (fragment_lookup (scenario_view (2 ^ 64 - 1) items) (key_of 105 0))
      = some (105, v105) ∧
    item_at items (fragment_lookup (scenario_view (2 ^ 64 - 1) items) (key_of 109 0))
      = some (109, v109) ∧
    fragment_lookup (scenario_view (2 ^ 64 - 1) items) (key_of 104 0) = (none, 2) ∧
    fragment_lookup (scenario_view (2 ^ 64 - 1) items) (key_of 110 0) = (none, 0) := by
  have hs : ∀ k, 100 ≤ k → k ≤ 109 → scale (k - 100) (2 ^ 64 - 1) = k - 101 := by
    intro k hlo hhi
    rw [scale_max_multiplier _ (by omega)]
    omega
  have hlook : ∀ k, 100 ≤ k → k ≤ 108 →
      fragment_lookup (scenario_view (2 ^ 64 - 1) items) (key_of k 0) =
        (if items (2 * (k - 101)) = k then some (2 * (k - 101)) else none, 2) := by
    intro k hlo hhi
    have hsub : sub64 k 100 = k - 100 := sub64_of_le (by omega) hlo
    have hne : ¬ k = add64 100 9 := by
      have : add64 100 9 = 109 := by decide
      omega
    have hmul : mul64 (k - 101) 2 = 2 * (k - 101) := by
      unfold mul64
      rw [Nat.mul_comm]
      exact Nat.mod_eq_of_lt (by omega)
    simp only [fragment_lookup, scenario_view, key_of, if_true, hsub, hs k hlo (by omega),
      lookup8, hne, if_false, hmul, lookup8_loop]
    have hrange : ¬ k - 100 > 9 := by omega
    rw [if_neg hrange]
    by_cases hit : items (2 * (k - 101)) = k
    · simp [hit]
    · simp [hit]
  refine ⟨hs, ?_, ?_, ?_, ?_, ?_⟩
  · rw [hlook 100 (by norm_num) (by norm_num)]
    simp [item_at, h0.1, h0.2]
  · rw [hlook 105 (by norm_num) (by norm_num)]
    simp [item_at, h4.1, h4.2]
  · have h109 : fragment_lookup (scenario_view (2 ^ 64 - 1) items) (key_of 109 0)
        = (some 16, 2) := by
      have hsub : sub64 109 100 = 9 := by decide
      have hsc : scale 9 (2 ^ 64 - 1) = 8 := hs 109 (by norm_num) (by norm_num)
      have heq : (109 : Nat) = add64 100 9 := by decide
      have hoff : add64 (mul64 8 2) 0 = 16 := by decide
      simp only [fragment_lookup, scenario_view, key_of, if_true, hsub, hsc, lookup8,
        ← heq, hoff]
      simp
    rw [h109]
    simp [item_at, h8.1, h8.2]
  · rw [hlook 104 (by norm_num) (by norm_num)]
    simp [h3]
  · have hsub : sub64 110 100 = 10 := by decide
    simp only [fragment_lookup, scenario_view, key_of, if_true, hsub]
    simp

/-- The scenario on `scenario_items`, with the values 7, 8 and 9. -/
theorem scenario_one_witness :
    item_at scenario_items
        (fragment_lookup (scenario_view (2 ^ 64 - 1) scenario_items) (key_of 105 0))
      = some (105, 8) ∧
    fragment_lookup (scenario_view (2 ^ 64 - 1) scenario_items) (key_of 104 0) = (none, 2) :=
  ⟨(scenario_one scenario_items 7 8 9 (by decide) (by decide) (by decide) (by decide)).2.2.1,
   (scenario_one scenario_items 7 8 9 (by decide) (by decide) (by decide) (by decide)).2.2.2.2.1⟩

/-! ## Early termination of the probe loop -/

theorem or_eq_zero_left {a b : Nat} (h : a ||| b = 0) : a = 0 := by
  apply Nat.eq_of_testBit_eq
  intro i
  have hi := congrArg (fun x => x.testBit i) h
  simp only [Nat.testBit_or, Nat.zero_testBit, Bool.or_eq_false_iff] at hi
  rw [Nat.zero_testBit]
  exact hi.1

theorem slot_accepted_first_word {key_size : Nat} {data key : Nat → Nat} {offset : Nat}
    (h : slot_accepted key_size data key offset) : data offset = key 0 := by
  unfold slot_accepted at h
  split at h
  · exact h
  · split at h
    · exact Nat.xor_eq_zero.1 (or_eq_zero_left h)
    · split at h
      · exact Nat.xor_eq_zero.1 (or_eq_zero_left h.1)
      · exact Nat.xor_eq_zero.1 (or_eq_zero_left h.1)

theorem lookup8_loop_probe (data key : Nat → Nat) (item_size : Nat) :
    ∀ (n i offset : Nat),
      lookup8_loop data (key 0) item_size n offset =
        (probe_loop 1 data key item_size n i offset).result
  | 0, _, _ => rfl
  | n + 1, i, offset => by
    unfold lookup8_loop probe_loop
    simp only [slot_accepted, if_true]
    split
    · rfl
    · split
      · rfl
      · exact lookup8_loop_probe data key item_size n (i + 1) _

theorem lookup16_loop_probe (data key : Nat → Nat) (item_size : Nat) :
    ∀ (n i offset : Nat),
      lookup16_loop data (key 0) (key 1) item_size n offset =
        (probe_loop 2 data key item_size n i offset).result
  | 0, _, _ => rfl
  | n + 1, i, offset => by
    unfold lookup16_loop probe_loop
    have h21 : ¬ (2 : Nat) = 1 := by decide
    simp only [slot_accepted, h21, if_true, if_false]
    split
    · rfl
    · split
      · rfl
      · exact lookup16_loop_probe data key item_size n (i + 1) _

theorem lookup32_loop_probe (data key : Nat → Nat) (item_size : Nat) :
    ∀ (n i offset : Nat),
      lookup32_loop data key (key 0) (key 1) item_size n offset =
        (probe_loop 4 data key item_size n i offset).result
  | 0, _, _ => rfl
  | n + 1, i, offset => by
    unfold lookup32_loop probe_loop
    have h41 : ¬ (4 : Nat) = 1 := by decide
    have h42 : ¬ (4 : Nat) = 2 := by decide
    simp only [slot_accepted, h41, h42, if_true, if_false]
    split
    · rfl
    · split
      · rfl
      · exact lookup32_loop_probe data key item_size n (i + 1) _

theorem lookup64_loop_probe (data key : Nat → Nat) (item_size : Nat) :
    ∀ (n i offset : Nat),
      lookup64_loop data key (key 0) (key 1) item_size n offset =
        (probe_loop 8 data key item_size n i offset).result
  | 0, _, _ => rfl
  | n + 1, i, offset => by
    unfold lookup64_loop probe_loop
    have h81 : ¬ (8 : Nat) = 1 := by decide
    have h82 : ¬ (8 : Nat) = 2 := by decide
    have h84 : ¬ (8 : Nat) = 4 := by decide
    simp only [slot_accepted, h81, h82, h84, if_true, if_false]
    split
    · rfl
    · split
      · rfl
      · exact lookup64_loop_probe data key item_size n (i + 1) _
theorem probe_loop_greater (key_size : Nat) (data key : Nat → Nat) (item_size : Nat) :
    ∀ (n i0 offset i : Nat),
      probe_loop key_size data key item_size n i0 offset = probe_exit.greater i →
      i0 ≤ i ∧ i < i0 + n ∧ key 0 < data (probe_offset offset item_size (i - i0)) ∧
      ∀ j, j ≤ i - i0 → ¬ slot_accepted key_size data key (probe_offset offset item_size j)
  | 0, i0, offset, i, h => by
    unfold probe_loop at h
    exact absurd h (by simp)
  | n + 1, i0, offset, i, h => by
    unfold probe_loop at h
    split at h
    · exact absurd h (by simp)
    · rename_i hacc
      split at h
      · rename_i hgt
        injection h with h
        subst h
        refine ⟨Nat.le_refl _, by omega, ?_, ?_⟩
        · rw [Nat.sub_self]; exact hgt
        · intro j hj
          have hj0 : j = 0 := by omega
          subst hj0
          exact hacc
      · obtain ⟨h1, h2, h3, h4⟩ :=
          probe_loop_greater key_size data key item_size n (i0 + 1) _ i h
        have hstep : i - i0 = (i - (i0 + 1)) + 1 := by omega
        refine ⟨by omega, by omega, ?_, ?_⟩
        · rw [hstep]; exact h3
        · intro j hj
          cases j with
          | zero => exact hacc
          | succ j => exact h4 j (by omega)

theorem fragment_lookup_probe (f : fragment) (map : Mapping) (key : Nat → Nat)
    (hdata : f.data = some map)
    (hks : f.key_size = 1 ∨ f.key_size = 2 ∨ f.key_size = 4 ∨ f.key_size = 8)
    (hrange : sub64 (key 0) f.min ≤ f.range) (hsent : ¬ sentinel_key f key) :
    fragment_lookup f key = ((fragment_probe f map.items key).result, f.item_size) := by
  have hr : ¬ sub64 (key 0) f.min > f.range := by omega
  simp only [fragment_lookup, hdata, hr, if_false, fragment_probe]
  rcases hks with h | h | h | h
  · have hno : ¬ key 0 = add64 f.min f.range := by
      intro hc
      apply hsent
      refine ⟨hc, ?_⟩
      intro w hw h1
      omega
    simp only [h, if_true, lookup8, hno, if_false]
    rw [lookup8_loop_probe map.items key f.item_size _ 0 _]
  · have hno : ¬ (key 0 = add64 f.min f.range ∧ key 1 = UINT64_MAX) := by
      intro hc
      apply hsent
      refine ⟨hc.1, ?_⟩
      intro w hw h1
      have hw1 : w = 1 := by omega
      subst hw1
      exact hc.2
    have h21 : ¬ (2 : Nat) = 1 := by decide
    simp only [h, h21, if_true, if_false, lookup16, hno]
    rw [lookup16_loop_probe map.items key f.item_size _ 0 _]
  · have hno : ¬ (key 0 = add64 f.min f.range ∧
        (key 1 = UINT64_MAX ∧ key 2 = UINT64_MAX ∧ key 3 = UINT64_MAX)) := by
      intro hc
      apply hsent
      refine ⟨hc.1, ?_⟩
      intro w hw h1
      rw [h] at hw
      interval_cases w
      · exact hc.2.1
      · exact hc.2.2.1
      · exact hc.2.2.2
    have h41 : ¬ (4 : Nat) = 1 := by decide
    have h42 : ¬ (4 : Nat) = 2 := by decide
    simp only [h, h41, h42, if_true, if_false, lookup32, hno]
    rw [lookup32_loop_probe map.items key f.item_size _ 0 _]
  · have hno : ¬ (key 0 = add64 f.min f.range ∧
        (key 1 = UINT64_MAX ∧ key 2 = UINT64_MAX ∧ key 3 = UINT64_MAX ∧
         key 4 = UINT64_MAX ∧ key 5 = UINT64_MAX ∧ key 6 = UINT64_MAX ∧
         key 7 = UINT64_MAX)) := by
      intro hc
      apply hsent
      refine ⟨hc.1, ?_⟩
      intro w hw h1
      rw [h] at hw
      interval_cases w
      · exact hc.2.1
      · exact hc.2.2.1
      · exact hc.2.2.2.1
      · exact hc.2.2.2.2.1
      · exact hc.2.2.2.2.2.1
      · exact hc.2.2.2.2.2.2.1
      · exact hc.2.2.2.2.2.2.2
    have h81 : ¬ (8 : Nat) = 1 := by decide
    have h82 : ¬ (8 : Nat) = 2 := by decide
    have h84 : ¬ (8 : Nat) = 4 := by decide
    simp only [h, h81, h82, h84, if_true, if_false, lookup64, hno]
    rw [lookup64_loop_probe map.items key f.item_size _ 0 _]

/-- C23: when the probe loop of `fragment_lookup` leaves through the
`return NULL` inside the loop at slot `i` of a window whose first words are
non-decreasing, the first word of slot `i` is greater than `key[0]`, no slot
`j >= i` of the window has first word `key[0]`, and no slot of the window at
all passes the test under which the loop returns a slot, for keys of 1, 2, 4
and 8 words alike; the lookup then returns `NULL`. -/
theorem early_termination_sound (f : fragment) (map : Mapping) (key : Nat → Nat) (i : Nat)
    (hsorted : window_sorted map.items
      (mul64 (scale (sub64 (key 0) f.min) f.multiplier) f.item_size) f.item_size
      f.max_displacement)
    (hstop : fragment_probe f map.items key = probe_exit.greater i) :
    i ≤ f.max_displacement ∧
    key 0 < map.items (probe_offset
      (mul64 (scale (sub64 (key 0) f.min) f.multiplier) f.item_size) f.item_size i) ∧
    (∀ j, i ≤ j → j ≤ f.max_displacement →
      map.items (probe_offset
        (mul64 (scale (sub64 (key 0) f.min) f.multiplier) f.item_size) f.item_size j)
        ≠ key 0) ∧
    (∀ j, j ≤ f.max_displacement →
      ¬ slot_accepted f.key_size map.items key (probe_offset
        (mul64 (scale (sub64 (key 0) f.min) f.multiplier) f.item_size) f.item_size j)) ∧
    (f.data = some map →
      (f.key_size = 1 ∨ f.key_size = 2 ∨ f.key_size = 4 ∨ f.key_size = 8) →
      sub64 (key 0) f.min ≤ f.range → ¬ sentinel_key f key →
      fragment_lookup f key = (none, f.item_size)) := by
  unfold fragment_probe at hstop
  obtain ⟨-, h2, h3, h4⟩ := probe_loop_greater _ _ _ _ _ _ _ _ hstop
  rw [Nat.sub_zero] at h3 h4
  have hlate : ∀ j, i ≤ j → j ≤ f.max_displacement →
      map.items (probe_offset
        (mul64 (scale (sub64 (key 0) f.min) f.multiplier) f.item_size) f.item_size j)
        ≠ key 0 := by
    intro j hij hj
    have := hsorted j hj i hij
    omega
  refine ⟨by omega, h3, hlate, ?_, ?_⟩
  · intro j hj hacc
    by_cases hji : j ≤ i
    · exact h4 j hji hacc
    · exact hlate j (by omega) hj (slot_accepted_first_word hacc)
  · intro hdata hks hrange hsent
    rw [fragment_lookup_probe f map key hdata hks hrange hsent]
    unfold fragment_probe
    rw [hstop]
    rfl

/-- On `sentinel_view` (slots with first words 100, 102, 104, ...) the lookup of
key 101 starts at slot 0 and leaves at slot 1, whose first word is 102. -/
theorem early_termination_sound_witness :
    fragment_probe sentinel_view (fun i => 100 + i) (key_of 101 0) = probe_exit.greater 1 ∧
    (∀ j, j ≤ sentinel_view.max_displacement →
      ¬ slot_accepted sentinel_view.key_size (fun i => 100 + i) (key_of 101 0)
        (probe_offset (mul64 (scale (sub64 (key_of 101 0 0) sentinel_view.min)
          sentinel_view.multiplier) sentinel_view.item_size) sentinel_view.item_size j)) ∧
    fragment_lookup sentinel_view (key_of 101 0) = (none, 2) :=
  ⟨by decide,
   (early_termination_sound sentinel_view
      { addr := 4096, header := sample_header, items := fun i => 100 + i } (key_of 101 0) 1
      (by decide) (by decide)).2.2.2.1,
   (early_termination_sound sentinel_view
      { addr := 4096, header := sample_header, items := fun i => 100 + i } (key_of 101 0) 1
      (by decide) (by decide)).2.2.2.2 rfl (by decide) (by decide) (by decide)⟩

/-! ## Tolerance of the deadline comparison -/

theorem set_deadline_field (h : jetex_header) (tv : timeval) :
    (jetex_packet_set_deadline h tv).expiry < 2 ^ 32 ∧
    (jetex_packet_set_deadline h tv).expiry / 256 =
      (if millis_low24 tv = 0 then 1 else millis_low24 tv) := by
  have hexp := set_deadline_expiry h tv
  rw [timeval_millis_low24] at hexp
  have hlow : millis_low24 tv < 2 ^ 24 := by
    rw [← timeval_millis_low24]; exact Nat.mod_lt _ (by norm_num)
  rw [hexp]
  split <;> constructor <;> omega

/-- C25, refuted as stated: a deadline stored for the time 8388609 ms is
reported as expired at the time 1 ms, 2^23 ms before the deadline, although
`0 <= D - now < 2^31`; and a deadline stored for the time 2^24 ms, whose low 24
bits are zero, is not yet reported as expired at 2^24 + 1 ms. -/
theorem deadline_tolerance_is_not_31_bits :
    jetex_packet_expired
      (jetex_packet_set_deadline (expiry_header 0 0) (timeval_of_millis (2 ^ 23 + 1)))
      (timeval_of_millis 1) = true ∧
    jetex_packet_expired
      (jetex_packet_set_deadline (expiry_header 0 0) (timeval_of_millis (2 ^ 24)))
      (timeval_of_millis (2 ^ 24 + 1)) = false := by
  decide

/-- C25, amended: for a header whose deadline was stored by
`jetex_packet_set_deadline` for the time `D` (one millisecond later when the
low 24 bits of `D` are zero), `jetex_packet_expired` returns false at every
time `now` with `0 <= D - now < 2^23` ms and true at every time `now` with
`0 < now - D <= 2^23` ms, about 2.3 hours on either side. -/
theorem deadline_tolerance (h : jetex_header) (deadline now : timeval) :
    (0 ≤ stored_deadline deadline - millis now →
      stored_deadline deadline - millis now < 2 ^ 23 →
      jetex_packet_expired (jetex_packet_set_deadline h deadline) now = false) ∧
    (0 < millis now - stored_deadline deadline →
      millis now - stored_deadline deadline ≤ 2 ^ 23 →
      jetex_packet_expired (jetex_packet_set_deadline h deadline) now = true) := by
  obtain ⟨hlt, hdiv⟩ := set_deadline_field h deadline
  have hiff := expired_iff (jetex_packet_set_deadline h deadline) now hlt
  rw [timeval_millis_low24, hdiv] at hiff
  have hD : millis_low24 deadline = (millis deadline % 2 ^ 24).toNat := rfl
  have hN : millis_low24 now = (millis now % 2 ^ 24).toNat := rfl
  rw [hD, hN] at hiff
  unfold stored_deadline
  generalize millis deadline = x at hiff ⊢
  generalize millis now = y at hiff ⊢
  constructor
  · intro h1 h2
    cases hb : jetex_packet_expired (jetex_packet_set_deadline h deadline) now
    · rfl
    · have h3 := hiff.1 hb
      exfalso
      split at h1 <;> split at h3 <;> omega
  · intro h1 h2
    apply hiff.2
    split at h1 <;> split <;> omega

/-- A deadline stored for 5000 ms: not expired at 4000 ms, expired at 5001 ms. -/
theorem deadline_tolerance_witness :
    jetex_packet_expired
      (jetex_packet_set_deadline (expiry_header 0 3) (timeval_of_millis 5000))
      (timeval_of_millis 4000) = false ∧
    jetex_packet_expired
      (jetex_packet_set_deadline (expiry_header 0 3) (timeval_of_millis 5000))
      (timeval_of_millis 5001) = true :=
  ⟨(deadline_tolerance (expiry_header 0 3) (timeval_of_millis 5000)
      (timeval_of_millis 4000)).1 (by decide) (by decide),
   (deadline_tolerance (expiry_header 0 3) (timeval_of_millis 5000)
      (timeval_of_millis 5001)).2 (by decide) (by decide)⟩

/-! ## What validation bounds -/

theorem scale_mono (multiplier d1 d2 : Nat) (hm : multiplier < 2 ^ 64) (hd : d2 < 2 ^ 64)
    (h : d1 ≤ d2) : scale d1 multiplier ≤ scale d2 multiplier := by
  have hprod : ∀ d, d ≤ d2 → multiplier * d < 2 ^ 128 := by
    intro d hle
    have : multiplier * d < 2 ^ 64 * 2 ^ 64 :=
      Nat.mul_lt_mul'' hm (Nat.lt_of_le_of_lt hle hd)
    simpa [← pow_add] using this
  have hq : ∀ d, d ≤ d2 → multiplier * d / 2 ^ 64 < 2 ^ 64 := by
    intro d hle
    apply Nat.div_lt_of_lt_mul
    have := hprod d hle
    have hpow : (2 : Nat) ^ 128 = 2 ^ 64 * 2 ^ 64 := by norm_num
    omega
  unfold scale
  rw [Nat.mod_eq_of_lt (hprod d1 h), Nat.mod_eq_of_lt (hprod d2 (Nat.le_refl _)),
    Nat.mod_eq_of_lt (hq d1 h), Nat.mod_eq_of_lt (hq d2 (Nat.le_refl _))]
  exact Nat.div_le_div_right (Nat.mul_le_mul_left _ h)

/-- What `validate_header` bounds: for a header it accepts and a key first word
with `delta <= max - min`, the guess is at most `scale(max - min, multiplier)`
and every slot of the probe window starts at a byte offset of at most
`table_size - sizeof(header)`. -/
theorem probe_slot_start_bound (h : fragment_header) (st_size : Option Nat)
    (hr : h.inRange) (hi : 1 ≤ h.item_size) (hv : validate_header h st_size = 0)
    (delta j : Nat) (hd : delta ≤ h.max - h.min) (hj : j ≤ h.max_displacement) :
    scale delta h.multiplier ≤ scale (h.max - h.min) h.multiplier ∧
    (scale delta h.multiplier + j) * h.item_size * 8 + sizeof_header ≤ h.table_size := by
  have hmm : h.min ≤ h.max := by
    unfold validate_header at hv
    by_contra hlt
    have hlt' : h.max < h.min := by omega
    simp only [hlt', if_true] at hv
    repeat' split at hv
    all_goals exact absurd hv (by decide)
  have hsz : size_rejected h = false := by
    unfold validate_header at hv
    cases hs : size_rejected h
    · rfl
    · rw [hs] at hv
      simp only [if_true] at hv
      repeat' split at hv
      all_goals exact absurd hv (by decide)
  have hbound := (size_rejected_iff h hr hi hmm).1 hsz
  obtain ⟨-, -, -, -, -, -, -, -, -, hmax, hmul⟩ := hr
  have hmono := scale_mono h.multiplier delta (h.max - h.min) hmul (by omega) hd
  refine ⟨hmono, ?_⟩
  unfold sizeof_header
  have hle : (scale delta h.multiplier + j) * h.item_size * 8 ≤
      (scale (h.max - h.min) h.multiplier + h.max_displacement) * h.item_size * 8 :=
    Nat.mul_le_mul_right _ (Nat.mul_le_mul_right _ (by omega))
  omega

/-- C26, evaluated: `short_file` passes `validate_header`, and its item array
is the 14 words at byte offsets below `table_size - sizeof(header) = 112`; the
lookup of key 108 in the view built from its header probes slots 4 to 7 and
reads the first word of slot 7, word 14 at byte offset 112: when the memory
after the file holds 108 the lookup returns a pointer to that word, and when it
holds 0 the lookup returns `NULL` after the fourth iteration. -/
theorem probe_reads_past_item_array :
    validate_header (short_file 108).header (short_file 108).st_size = 0 ∧
    (short_file 108).header.table_size - sizeof_header = 112 ∧
    fragment_probe (view_of_header (short_file 108)) (short_file 108).items (key_of 108 0)
      = probe_exit.found 14 ∧
    fragment_lookup (view_of_header (short_file 108)) (key_of 108 0) = (some 14, 2) ∧
    fragment_probe (view_of_header (short_file 0)) (short_file 0).items (key_of 108 0)
      = probe_exit.exhausted ∧
    fragment_lookup (view_of_header (short_file 0)) (key_of 108 0) = (none, 2) ∧
    ¬ 8 * 14 < (short_file 108).header.table_size - sizeof_header := by
  decide

/-! ## The return value of `jetex_packet_found_encode` -/

theorem response_header_encode_long_correlation (type : Nat) (correlation table key : List Nat)
    (hc : ¬ correlation.length ≤ 128) :
    jetex_response_header_encode type correlation table key =
      (-1, jetex_packet.zero sizeof_response_data) := by
  unfold jetex_response_header_encode
  simp only
  rw [if_pos (Or.inl (by omega))]

/-- Every call of `jetex_packet_found_encode` that does not return a negative
value returns `8 + 8 * c + 16 + key_len`, the value `jetex_packet_missing_encode`
returns for the same correlation, table and key, and leaves in `header.len` the
64-bit sum of that value and `value_len`, which is the integer sum whenever that
is below `2^64`. -/
theorem found_encode_return (correlation table key : List Nat) (value_len : Nat)
    (ht : table.length = 16)
    (hs : 0 ≤ (jetex_packet_found_encode correlation table key value_len).1) :
    (jetex_packet_found_encode correlation table key value_len).1 =
      ((8 + 8 * correlation_count correlation.length + 16 + key.length : Nat) : Int) ∧
    (jetex_packet_missing_encode correlation table key).1 =
      (jetex_packet_found_encode correlation table key value_len).1 ∧
    (jetex_packet_found_encode correlation table key value_len).2.header.len =
      (8 + 8 * correlation_count correlation.length + 16 + key.length + value_len) % 2 ^ 64 ∧
    (8 + 8 * correlation_count correlation.length + 16 + key.length + value_len < 2 ^ 64 →
      (jetex_packet_found_encode correlation table key value_len).2.header.len =
        8 + 8 * correlation_count correlation.length + 16 + key.length + value_len) := by
  by_cases hc : correlation.length ≤ 128
  · by_cases hk : valid_key_len key.length
    · have hm := response_header_encode_ok 3 correlation table key hc ht hk
      have hf := response_header_encode_ok 1 correlation table key hc ht hk
      unfold jetex_packet_missing_encode
      unfold jetex_packet_found_encode at hs ⊢
      simp only [hf, hm] at hs ⊢
      generalize 8 + 8 * correlation_count correlation.length + 16 + key.length = r at hs ⊢
      have hneg : ¬ ((r : Nat) : Int) < 0 := by omega
      rw [if_neg hneg] at hs ⊢
      have h15 : (1 : Nat) <<< 15 = 2 ^ 15 := by decide
      rw [h15] at hs ⊢
      by_cases hcap : (r + value_len) % 2 ^ 64 ≥ 2 ^ 15
      · rw [if_pos hcap] at hs
        exact absurd hs (by decide)
      · rw [if_neg hcap]
        simp only
        have hmod : (r + value_len) % 2 ^ 64 % 2 ^ 16 = (r + value_len) % 2 ^ 64 :=
          Nat.mod_eq_of_lt (by omega)
        rw [hmod]
        refine ⟨trivial, trivial, rfl, fun hlt => Nat.mod_eq_of_lt hlt⟩
    · exfalso
      unfold jetex_packet_found_encode at hs
      rw [response_header_encode_bad_key 1 correlation table key hk] at hs
      have hneg : ((-1 : Int), jetex_packet.zero sizeof_response_data).1 < 0 := by decide
      rw [if_pos hneg] at hs
      exact absurd hs (by decide)
  · exfalso
    unfold jetex_packet_found_encode at hs
    rw [response_header_encode_long_correlation 1 correlation table key hc] at hs
    have hneg : ((-1 : Int), jetex_packet.zero sizeof_response_data).1 < 0 := by decide
    rw [if_pos hneg] at hs
    exact absurd hs (by decide)

set_option maxRecDepth 100000 in
/-- C27, evaluated: for a 9-byte correlation and a 16-byte key the response
header part is 8 + 16 + 16 + 16 = 56 bytes, which both encoders return; with a
12-byte value `header.len` is 68, the return value plus `value_len`; with
`value_len = 2^64 - 6` the call succeeds as well, returns 56 and leaves
`header.len = 50`, which is neither the return value plus `value_len` nor even
as large as the return value. -/
theorem found_encode_len_below_return :
    (jetex_packet_missing_encode long_correlation sample_uuid wide_key).1 = 56 ∧
    (jetex_packet_found_encode long_correlation sample_uuid wide_key 12).1 = 56 ∧
    (jetex_packet_found_encode long_correlation sample_uuid wide_key 12).2.header.len
      = 56 + 12 ∧
    (jetex_packet_found_encode long_correlation sample_uuid wide_key (2 ^ 64 - 6)).1 = 56 ∧
    (jetex_packet_found_encode long_correlation sample_uuid wide_key
      (2 ^ 64 - 6)).2.header.len = 50 ∧
    (50 : Nat) ≠ 56 + (2 ^ 64 - 6) := by
  decide

/-! ## Unmapping: create and destroy -/
theorem data_pointer_of_some {f : fragment} {map : Mapping} (h : f.data = some map) :
    data_pointer f = map.addr := by
  unfold data_pointer
  rw [h]

theorem cmp_fragment_le (x y : fragment) :
    cmp_fragment x y ≤ 0 ↔ data_pointer x ≤ data_pointer y := by
  unfold cmp_fragment
  split
  · split
    · constructor
      · intro _; omega
      · intro _; decide
    · constructor
      · intro h; exact absurd h (by decide)
      · intro h; omega
  · constructor
    · intro _; omega
    · intro _; decide

theorem destroy_walk_step (f : fragment) (rest : List fragment) (last : Nat) :
    destroy_walk (f :: rest) last =
      if f.data.isSome ∧ data_pointer f ≠ last then
        data_pointer f :: destroy_walk rest (data_pointer f)
      else destroy_walk rest (data_pointer f) := by
  rw [destroy_walk]
  split
  · rename_i h
    cases hd : f.data with
    | none => rw [hd] at h; exact absurd h.1 (by simp)
    | some map =>
      simp only [fragment_unmap, hd, data_pointer]
  · rfl

/-- The walk of `jetex_table_destroy` over slots sorted by their `data`
pointers, entered with a `last_data` that is not above any of them: it gives
`munmap` every mapping of the slots other than `last_data`, each once. -/
theorem destroy_walk_sorted : ∀ (slots : List fragment) (last : Nat),
    slots.Pairwise (fun x y => data_pointer x ≤ data_pointer y) →
    (∀ f ∈ slots, last ≤ data_pointer f) →
    (destroy_walk slots last).Nodup ∧
    ∀ a, a ∈ destroy_walk slots last ↔
      a ≠ last ∧ ∃ f ∈ slots, f.data.isSome ∧ data_pointer f = a
  | [], last, _, _ => by
    unfold destroy_walk
    exact ⟨List.nodup_nil, fun a => by simp⟩
  | f :: rest, last, hsorted, hlast => by
    have hrest : ∀ g ∈ rest, data_pointer f ≤ data_pointer g :=
      fun g hg => List.rel_of_pairwise_cons hsorted hg
    have hp : last ≤ data_pointer f := hlast f (List.mem_cons_self _ _)
    obtain ⟨hnd, hmem⟩ := destroy_walk_sorted rest (data_pointer f)
      (List.Pairwise.of_cons hsorted) hrest
    rw [destroy_walk_step]
    split
    · rename_i hcond
      refine ⟨List.nodup_cons.2 ⟨fun hin => ((hmem _).1 hin).1 rfl, hnd⟩, ?_⟩
      intro a
      rw [List.mem_cons, hmem a]
      constructor
      · rintro (rfl | ⟨hne, g, hg, hsome, hga⟩)
        · exact ⟨hcond.2, f, List.mem_cons_self _ _, hcond.1, rfl⟩
        · have hle := hrest g hg
          refine ⟨?_, g, List.mem_cons_of_mem _ hg, hsome, hga⟩
          have := hcond.2
          omega
      · rintro ⟨-, g, hg, hsome, hga⟩
        rcases List.mem_cons.1 hg with rfl | hin
        · exact Or.inl hga.symm
        · by_cases hap : a = data_pointer f
          · exact Or.inl hap
          · exact Or.inr ⟨hap, g, hin, hsome, hga⟩
    · rename_i hcond
      have hpl : f.data.isSome → data_pointer f = last := by
        intro hs
        by_contra hne
        exact hcond ⟨hs, hne⟩
      have hnone : ¬ f.data.isSome → data_pointer f = last := by
        intro hs
        have h0 : data_pointer f = 0 := by
          unfold data_pointer
          cases hd : f.data with
          | none => rfl
          | some map => rw [hd] at hs; exact absurd rfl hs
        omega
      have heq : data_pointer f = last := by
        by_cases hs : f.data.isSome
        · exact hpl hs
        · exact hnone hs
      refine ⟨hnd, ?_⟩
      intro a
      rw [hmem a, heq]
      constructor
      · rintro ⟨hne, g, hg, hsome, hga⟩
        exact ⟨hne, g, List.mem_cons_of_mem _ hg, hsome, hga⟩
      · rintro ⟨hne, g, hg, hsome, hga⟩
        rcases List.mem_cons.1 hg with rfl | hin
        · exact absurd (hga.symm.trans heq) hne
        · exact ⟨hne, g, hin, hsome, hga⟩

theorem map_all_pointers : ∀ (fds : List File) (fragments : List fragment),
    map_all fds = some fragments →
    fragments.map data_pointer = fds.map File.addr ∧ ∀ f ∈ fragments, f.data.isSome
  | [], fragments, h => by
    unfold map_all at h
    injection h with h
    subst h
    exact ⟨rfl, fun f hf => absurd hf (List.not_mem_nil _)⟩
  | file :: rest, fragments, h => by
    unfold map_all at h
    split at h
    · rename_i f fs hf hfs
      injection h with h
      subst h
      obtain ⟨hp, hs⟩ := map_all_pointers rest fs hfs
      obtain ⟨-, hdata⟩ := fragment_map_data hf
      refine ⟨?_, ?_⟩
      · rw [List.map_cons, List.map_cons, hp, data_pointer_of_some hdata]
      · intro g hg
        rcases List.mem_cons.1 hg with rfl | hin
        · rw [hdata]; rfl
        · exact hs g hin
    · exact absurd h (by simp)

theorem unmap_unreferenced_sublist : ∀ (fragments : List fragment) (refcounts : List Nat),
    (unmap_unreferenced fragments refcounts).Sublist (fragments.map data_pointer)
  | [], _ => by
    unfold unmap_unreferenced
    exact List.Sublist.slnil
  | _ :: _, [] => by
    unfold unmap_unreferenced
    exact List.nil_sublist _
  | f :: fs, r :: rs => by
    have ih := unmap_unreferenced_sublist fs rs
    unfold unmap_unreferenced
    rw [List.map_cons]
    split
    · split
      · rename_i region hreg
        have hp : region.1 = data_pointer f := by
          unfold fragment_unmap at hreg
          unfold data_pointer
          split at hreg
          · exact absurd hreg (by simp)
          · rename_i map hd
            injection hreg with hreg
            rw [← hreg]
        rw [hp]
        exact List.Sublist.cons₂ _ ih
      · exact List.Sublist.cons _ ih
    · exact List.Sublist.cons _ ih

theorem unmap_unreferenced_mem : ∀ (fragments : List fragment) (refcounts : List Nat),
    (∀ f ∈ fragments, f.data.isSome) → refcounts.length = fragments.length →
    ∀ a, a ∈ unmap_unreferenced fragments refcounts ↔
      ∃ k : Nat, (fragments.map data_pointer)[k]? = some a ∧ refcounts[k]? = some 0
  | [], refcounts, _, _, a => by
    unfold unmap_unreferenced
    simp
  | f :: fs, [], _, hlen, a => by
    simp at hlen
  | f :: fs, r :: rs, hsome, hlen, a => by
    have ih := unmap_unreferenced_mem fs rs
      (fun g hg => hsome g (List.mem_cons_of_mem _ hg)) (by simpa using hlen) a
    have hf := hsome f (List.mem_cons_self _ _)
    obtain ⟨map, hd⟩ := Option.isSome_iff_exists.1 hf
    have hun : fragment_unmap f = some (data_pointer f, map.header.table_size) := by
      simp only [fragment_unmap, hd, data_pointer]
    unfold unmap_unreferenced
    rw [hun]
    constructor
    · intro hin
      by_cases hr : r = 0
      · rw [if_pos hr] at hin
        rcases List.mem_cons.1 hin with rfl | hin1
        · exact ⟨0, by simp, by simp [hr]⟩
        · obtain ⟨k, hk1, hk2⟩ := ih.1 hin1
          exact ⟨k + 1, by simpa using hk1, by simpa using hk2⟩
      · rw [if_neg hr] at hin
        obtain ⟨k, hk1, hk2⟩ := ih.1 hin
        exact ⟨k + 1, by simpa using hk1, by simpa using hk2⟩
    · rintro ⟨k, hk1, hk2⟩
      cases k with
      | zero =>
        simp only [List.map_cons, List.getElem?_cons_zero, Option.some.injEq] at hk1 hk2
        rw [if_pos hk2, ← hk1]
        exact List.mem_cons_self _ _
      | succ k =>
        simp only [List.map_cons, List.getElem?_cons_succ] at hk1 hk2
        have := ih.2 ⟨k, hk1, hk2⟩
        by_cases hr : r = 0
        · rw [if_pos hr]; exact List.mem_cons_of_mem _ this
        · rw [if_neg hr]; exact this
theorem getD_set_nat (l : List Nat) (a k v : Nat) (ha : a < l.length) :
    (l.set a v).getD k 0 = if a = k then v else l.getD k 0 := by
  rw [List.getD_eq_getElem?_getD, List.getD_eq_getElem?_getD, List.getElem?_set]
  by_cases hak : a = k
  · rw [if_pos hak, if_pos hak, if_pos ha]
    rfl
  · rw [if_neg hak, if_neg hak]

theorem owners_length (st : build_state) : (owners st).length = st.slots.length := by
  unfold owners
  rw [List.length_map, List.length_range]

theorem owners_getElem? (st : build_state) (idx : Nat) :
    (owners st)[idx]? = if idx < st.slots.length then some (slot_owner st idx) else none := by
  unfold owners
  rw [List.getElem?_map]
  by_cases h : idx < st.slots.length
  · rw [if_pos h, List.getElem?_range h]
    rfl
  · rw [if_neg h, List.getElem?_eq_none (by rw [List.length_range]; omega)]
    rfl

theorem slot_owner_set (st : build_state) (j i : Nat) (cur : fragment) (refcounts : List Nat)
    (hj : j < st.slots.length) (hlen : st.slot_index.length = st.slots.length)
    (hcur : cur.data.isSome) (idx : Nat) :
    slot_owner
      { slots := st.slots.set j cur, slot_index := st.slot_index.set j i,
        refcounts := refcounts } idx =
      if j = idx then some i else slot_owner st idx := by
  unfold slot_owner
  simp only
  rw [List.getElem?_set, getD_set_nat _ _ _ _ (by omega)]
  by_cases hji : j = idx
  · rw [if_pos hji, if_pos hji, if_pos hj, if_pos hji]
    simp only [hcur, if_true]
  · rw [if_neg hji, if_neg hji, if_neg hji]

theorem owners_set (st : build_state) (j i : Nat) (cur : fragment) (refcounts : List Nat)
    (hj : j < st.slots.length) (hlen : st.slot_index.length = st.slots.length)
    (hcur : cur.data.isSome) :
    owners
      { slots := st.slots.set j cur, slot_index := st.slot_index.set j i,
        refcounts := refcounts } = (owners st).set j (some i) := by
  apply List.ext_getElem?
  intro idx
  rw [owners_getElem?, List.getElem?_set, owners_getElem?, owners_length]
  simp only [List.length_set]
  rw [slot_owner_set st j i cur refcounts hj hlen hcur idx]
  by_cases hji : j = idx
  · subst hji
    rw [if_pos hj, if_pos rfl, if_pos rfl, if_pos hj]
  · rw [if_neg hji, if_neg hji]

/-- The arithmetic of lines 137-146 on the counts: after the previous owner of
slot `j` lost one reference and input `i` gained one, `refcounts` again counts
the slots each input owns. -/
theorem refcounts_after_place (own : List (Option Nat)) (refcounts refcounts1 : List Nat)
    (j i : Nat) (hj : j < own.length) (hi : i < refcounts.length)
    (hcount : ∀ k, k < refcounts.length → refcounts.getD k 0 = own.count (some k))
    (hrel : (∃ k0, own[j]? = some (some k0) ∧ k0 < refcounts.length ∧
              refcounts1 = refcounts.set k0 (refcounts.getD k0 0 - 1)) ∨
            (own[j]? = some none ∧ refcounts1 = refcounts)) :
    ∀ k, k < refcounts.length →
      (refcounts1.set i (refcounts1.getD i 0 + 1)).getD k 0 =
        (own.set j (some i)).count (some k) := by
  intro k hk
  rw [List.count_set _ _ _ _ hj]
  have hget : own[j]? = some own[j] := List.getElem?_eq_getElem hj
  rcases hrel with ⟨k0, hown, hk0, hrc1⟩ | ⟨hown, hrc1⟩
  · rw [hget] at hown
    injection hown with hown
    have hpos : 1 ≤ own.count (some k0) := by
      apply List.count_pos_iff.2
      rw [← hown]
      exact List.getElem_mem _
    have hlen1 : refcounts1.length = refcounts.length := by
      rw [hrc1, List.length_set]
    rw [getD_set_nat _ _ _ _ (by omega), hrc1, getD_set_nat _ _ _ _ hk0,
      getD_set_nat _ _ _ _ hk0, hown]
    have hc0 := hcount k0 hk0
    have hck := hcount k hk
    have hci := hcount i hi
    by_cases hik : i = k
    · subst hik
      by_cases h0 : k0 = i
      · subst h0
        simp only [if_true, beq_self_eq_true]
        omega
      · have hne : ¬ (some k0 : Option Nat) = some i := by
          intro h; injection h with h; exact h0 h
        simp only [if_true, beq_self_eq_true, h0, if_false, beq_iff_eq, hne]
        omega
    · have hne : ¬ (some i : Option Nat) = some k := by
        intro h; injection h with h; exact hik h
      by_cases h0 : k0 = k
      · subst h0
        simp only [hik, if_false, if_true, beq_self_eq_true, beq_iff_eq, hne]
        omega
      · have hne0 : ¬ (some k0 : Option Nat) = some k := by
          intro h; injection h with h; exact h0 h
        simp only [hik, h0, if_false, beq_iff_eq, hne, hne0]
        omega
  · rw [hget] at hown
    injection hown with hown
    rw [hrc1, getD_set_nat _ _ _ _ hi, hown]
    have hck := hcount k hk
    have hci := hcount i hi
    have hnone : ¬ (none : Option Nat) = some k := by simp
    by_cases hik : i = k
    · subst hik
      simp only [if_true, beq_self_eq_true, beq_iff_eq, hnone, if_false]
      omega
    · have hne : ¬ (some i : Option Nat) = some k := by
        intro h; injection h with h; exact hik h
      simp only [hik, if_false, beq_iff_eq, hne, hnone]
      omega
theorem release_slot_ok {n : Nat} {st : build_state} {dst : fragment} {j : Nat}
    {refcounts1 : List Nat} (h : release_slot n st dst j = Except.ok refcounts1) :
    (dst.data.isSome ∧
      refcounts1 = st.refcounts.set (st.slot_index.getD j 0)
        (st.refcounts.getD (st.slot_index.getD j 0) 0 - 1)) ∨
    (¬ dst.data.isSome ∧ refcounts1 = st.refcounts) := by
  unfold release_slot at h
  split at h
  · rename_i hsome
    simp only at h
    split at h
    · exact absurd h (by simp)
    · split at h
      · exact absurd h (by simp)
      · injection h with h
        exact Or.inl ⟨hsome, h.symm⟩
  · rename_i hnone
    injection h with h
    exact Or.inr ⟨hnone, h.symm⟩

theorem place_slot_inv {fragments : List fragment} {n_fragment n i : Nat} {cur : fragment}
    {st st1 : build_state} {j : Nat} (hinv : placed_inv fragments st)
    (hi : fragments[i]? = some cur) (hcur : cur.data.isSome)
    (h : place_slot n_fragment n i cur st j = Except.ok st1) :
    placed_inv fragments st1 ∧ st1.slots.length = st.slots.length := by
  obtain ⟨h1, h2, h3, h4⟩ := hinv
  have hilt : i < fragments.length := by
    by_contra hge
    rw [List.getElem?_eq_none (by omega)] at hi
    exact absurd hi (by simp)
  unfold place_slot at h
  split at h
  · exact absurd h (by simp)
  split at h
  · exact absurd h (by simp)
  rename_i dst hdst
  split at h
  · exact absurd h (by simp)
  rename_i refcounts1 hrel
  split at h
  · exact absurd h (by simp)
  injection h with h
  subst h
  have hj : j < st.slots.length := by
    by_contra hge
    rw [List.getElem?_eq_none (by omega)] at hdst
    exact absurd hdst (by simp)
  have howner : slot_owner st j =
      if dst.data.isSome then some (st.slot_index.getD j 0) else none := by
    unfold slot_owner
    rw [hdst]
  have hown : (owners st)[j]? = some (slot_owner st j) := by
    rw [owners_getElem?, if_pos hj]
  have hrel1 : (∃ k0, (owners st)[j]? = some (some k0) ∧ k0 < st.refcounts.length ∧
        refcounts1 = st.refcounts.set k0 (st.refcounts.getD k0 0 - 1)) ∨
      ((owners st)[j]? = some none ∧ refcounts1 = st.refcounts) := by
    rcases release_slot_ok hrel with ⟨hsome, hrc⟩ | ⟨hnone, hrc⟩
    · left
      rw [if_pos hsome] at howner
      refine ⟨st.slot_index.getD j 0, by rw [hown, howner], ?_, hrc⟩
      rw [h2]
      exact (h3 j _ howner).1
    · right
      rw [if_neg hnone] at howner
      exact ⟨by rw [hown, howner], hrc⟩
  have hlen1 : refcounts1.length = st.refcounts.length := by
    rcases hrel1 with ⟨k0, -, -, hrc⟩ | ⟨-, hrc⟩
    · rw [hrc, List.length_set]
    · rw [hrc]
  refine ⟨⟨?_, ?_, ?_, ?_⟩, List.length_set _ _ _⟩
  · simp only [List.length_set]
    exact h1
  · simp only [List.length_set]
    rw [hlen1, h2]
  · intro idx k hk
    rw [slot_owner_set st j i cur _ hj h1 hcur idx] at hk
    simp only
    rw [List.getElem?_set]
    by_cases hji : j = idx
    · rw [if_pos hji] at hk
      injection hk with hk
      subst hk
      rw [if_pos hji, if_pos hj, hi]
      exact ⟨hilt, rfl⟩
    · rw [if_neg hji] at hk
      rw [if_neg hji]
      exact h3 idx k hk
  · intro k hk
    rw [owners_set st j i cur _ hj h1 hcur]
    simp only
    have hj' : j < (owners st).length := by rw [owners_length]; exact hj
    exact refcounts_after_place (owners st) st.refcounts refcounts1 j i hj' (by omega)
      (fun k hk => h4 k (by omega)) hrel1 k (by omega)

theorem place_range_inv {fragments : List fragment} {n_fragment n i : Nat} {cur : fragment}
    (hi : fragments[i]? = some cur) (hcur : cur.data.isSome) :
    ∀ (count j : Nat) (st st1 : build_state), placed_inv fragments st →
      place_range n_fragment n i cur count j st = Except.ok st1 →
      placed_inv fragments st1 ∧ st1.slots.length = st.slots.length
  | 0, j, st, st1, hinv, h => by
    unfold place_range at h
    injection h with h
    subst h
    exact ⟨hinv, rfl⟩
  | count + 1, j, st, st1, hinv, h => by
    unfold place_range at h
    split at h
    · exact absurd h (by simp)
    · rename_i st2 hs
      obtain ⟨hinv2, hlen2⟩ := place_slot_inv hinv hi hcur hs
      obtain ⟨hinv1, hlen1⟩ := place_range_inv hi hcur count (j + 1) st2 st1 hinv2 h
      exact ⟨hinv1, hlen1.trans hlen2⟩

theorem place_all_inv {fragments : List fragment} {n_fragment n min_fragment fragment_shift : Nat} :
    ∀ (rest : List fragment) (i : Nat) (st st1 : build_state),
      fragments.drop i = rest → placed_inv fragments st →
      place_all n_fragment n min_fragment fragment_shift rest i st = Except.ok st1 →
      placed_inv fragments st1 ∧ st1.slots.length = st.slots.length
  | [], i, st, st1, _, hinv, h => by
    unfold place_all at h
    injection h with h
    subst h
    exact ⟨hinv, rfl⟩
  | cur :: rest, i, st, st1, hdrop, hinv, h => by
    have hi : fragments[i]? = some cur := by
      have h0 : (fragments.drop i)[0]? = some cur := by
        rw [hdrop, List.getElem?_cons_zero]
      rw [List.getElem?_drop] at h0
      exact h0
    have hnext : fragments.drop (i + 1) = rest := by
      have h1 : (fragments.drop i).drop 1 = rest := by rw [hdrop]; rfl
      rw [List.drop_drop] at h1
      rw [← h1, Nat.add_comm]
    unfold place_all at h
    split at h
    · exact absurd h (by simp)
    · rename_i st2 hs
      unfold place_fragment at hs
      split at hs
      · exact absurd hs (by simp)
      · rename_i map hdata
        have hcur : cur.data.isSome := by rw [hdata]; rfl
        obtain ⟨hinv2, hlen2⟩ := place_range_inv hi hcur _ _ st st2 hinv hs
        obtain ⟨hinv1, hlen1⟩ := place_all_inv rest (i + 1) st2 st1 hnext hinv2 h
        exact ⟨hinv1, hlen1.trans hlen2⟩

theorem placed_inv_initial (fragments : List fragment) (n_fragment : Nat) :
    placed_inv fragments
      { slots := List.replicate n_fragment fragment.zero,
        slot_index := List.replicate n_fragment 0,
        refcounts := List.replicate fragments.length 0 } := by
  have hown : ∀ j, slot_owner
      { slots := List.replicate n_fragment fragment.zero,
        slot_index := List.replicate n_fragment 0,
        refcounts := List.replicate fragments.length 0 } j = none := by
    intro j
    unfold slot_owner
    simp only [List.getElem?_replicate]
    split
    · rfl
    · rename_i f hf
      split at hf
      · injection hf with hf
        rw [← hf]
        rfl
      · exact absurd hf (by simp)
  refine ⟨by simp, by simp, ?_, ?_⟩
  · intro j k hk
    rw [hown j] at hk
    exact absurd hk (by simp)
  · intro k hk
    have hzero : (List.replicate fragments.length 0).getD k 0 = 0 := by
      rw [List.getD_eq_getElem?_getD, List.getElem?_replicate]
      split <;> rfl
    simp only [hzero]
    symm
    apply List.count_eq_zero.2
    intro hin
    unfold owners at hin
    obtain ⟨j, -, hj⟩ := List.mem_map.1 hin
    rw [hown j] at hj
    exact absurd hj (by simp)
theorem table_scan_loop_global : ∀ (fds : List File) (ret : table_scan_result),
    (∀ file ∈ fds, fragment_validate file = (0, 0, 0)) →
    ret.min_pattern = 0 → ret.max_pattern = UINT64_MAX →
    (table_scan_loop fds ret).min_pattern = 0 ∧
    (table_scan_loop fds ret).max_pattern = UINT64_MAX
  | [], ret, _, hmin, hmax => by
    unfold table_scan_loop
    exact ⟨hmin, hmax⟩
  | file :: rest, ret, hall, hmin, hmax => by
    have hv := hall file (List.mem_cons_self _ _)
    unfold table_scan_loop
    simp only [hv]
    have hok : ¬ ((0 : Int) ≠ 0 ∨ (0 : Nat) ≥ 32) := by decide
    rw [if_neg hok]
    apply table_scan_loop_global rest _ (fun f hf => hall f (List.mem_cons_of_mem _ hf))
    · simp only [table_scan_step, hmin]
      split <;> rfl
    · simp only [table_scan_step, hmax, if_true]
      split <;> rfl

theorem table_scan_global (fds : List File) (hne : fds ≠ [])
    (hall : ∀ file ∈ fds, fragment_validate file = (0, 0, 0)) :
    (table_scan fds).min_pattern = 0 ∧ (table_scan fds).max_pattern = UINT64_MAX := by
  cases fds with
  | nil => exact absurd rfl hne
  | cons file rest =>
    have hv := hall file (List.mem_cons_self _ _)
    unfold table_scan table_scan_loop
    simp only [hv]
    have hok : ¬ ((0 : Int) ≠ 0 ∨ (0 : Nat) ≥ 32) := by decide
    rw [if_neg hok]
    exact table_scan_loop_global rest _ (fun f hf => hall f (List.mem_cons_of_mem _ hf))
      (by decide) (by decide)

theorem fragment_validate_global {file : File}
    (hv : validate_header file.header file.st_size = 0) (hn : file.header.n_bits = 0) :
    fragment_validate file = (0, 0, 0) := by
  have hp := validate_header_pattern hv
  unfold pattern_rejected at hp
  rw [if_pos hn] at hp
  have hpat : file.header.pattern = 0 := by
    by_contra hne
    have : decide (file.header.pattern ≠ 0) = true := decide_eq_true hne
    rw [this] at hp
    exact absurd hp (by decide)
  unfold fragment_validate
  simp only [hv, hpat, hn]
  rfl

/-- The slot count of a scan that did not fail fits the 32-bit field
`n_fragment`. -/
theorem n_fragment_fits (fds : List File) (hne : fds ≠ []) (hfail : (table_scan fds).fail = 0) :
    add64 1 (extract (sub64 (table_scan fds).max_pattern (table_scan fds).min_pattern)
      ((table_scan fds).n_bits % 2 ^ 8)) < 2 ^ 32 := by
  obtain ⟨hall, -, hbound⟩ := table_scan_loop_ok fds _ hfail
  have hN : (table_scan fds).n_bits < 32 := hbound (by decide)
  have hNmod : (table_scan fds).n_bits % 2 ^ 8 = (table_scan fds).n_bits :=
    Nat.mod_eq_of_lt (by omega)
  rw [hNmod]
  by_cases h0 : (table_scan fds).n_bits = 0
  · have hglobal : ∀ file ∈ fds, fragment_validate file = (0, 0, 0) := by
      intro file hf
      obtain ⟨hv, -, hle⟩ := hall file hf
      have hle' : file.header.n_bits ≤ (table_scan fds).n_bits := hle
      exact fragment_validate_global hv (by omega)
    obtain ⟨hmin, hmax⟩ := table_scan_global fds hne hglobal
    rw [h0, hmin, hmax]
    decide
  · generalize (table_scan fds).n_bits = N at hN h0
    have hx : sub64 (table_scan fds).max_pattern (table_scan fds).min_pattern < 2 ^ 64 :=
      Nat.mod_lt _ (by norm_num)
    generalize sub64 (table_scan fds).max_pattern (table_scan fds).min_pattern = x at hx
    unfold add64 extract shr64
    rw [Nat.mod_eq_of_lt (show 64 - N < 64 by omega), Nat.shiftRight_eq_div_pow]
    have hq : x / 2 ^ (64 - N) < 2 ^ N := by
      apply Nat.div_lt_of_lt_mul
      have hsum : 64 - N + N = 64 := by omega
      rw [← pow_add, hsum]
      exact hx
    have hpow : 2 ^ N ≤ 2 ^ 31 := Nat.pow_le_pow_right (by norm_num) (by omega)
    have hle : (1 + x / 2 ^ (64 - N)) % 2 ^ 64 ≤ 1 + x / 2 ^ (64 - N) := Nat.mod_le _ _
    have h31 : (2 : Nat) ^ 31 < 2 ^ 32 := by norm_num
    omega
/-- What a successful `jetex_table_create` leaves: the slots and counts of a
state of the placement loop that satisfies its invariant over the mapped
inputs, with `n_fragment` the number of slots. -/
theorem created_parts {uuid : List Nat} {fds : List File} {c : created}
    (hc : jetex_table_create uuid fds = Except.ok (some c)) :
    ∃ (fragments : List fragment) (st : build_state),
      map_all fds = some fragments ∧ placed_inv fragments st ∧
      c.table.fragments = st.slots ∧ c.refcounts = st.refcounts ∧
      c.unmapped = unmap_unreferenced fragments st.refcounts ∧
      c.table.n_fragment = st.slots.length := by
  unfold jetex_table_create at hc
  simp only at hc
  split at hc
  · exact absurd hc (by simp)
  rename_i hn
  split at hc
  · exact absurd hc (by simp)
  rename_i hfail
  split at hc
  · exact absurd hc (by simp)
  split at hc
  · exact absurd hc (by simp)
  rename_i fragments hmap
  split at hc
  · exact absurd hc (by simp)
  rename_i st hplace
  injection hc with hc
  injection hc with hc
  subst hc
  have hne : fds ≠ [] := by
    intro h
    apply hn
    rw [h]
    rfl
  have hflen : fragments.length = fds.length := by
    have := congrArg List.length (map_all_pointers fds fragments hmap).1
    simpa using this
  have hinv0 := placed_inv_initial fragments
    (add64 1 (extract (sub64 (table_scan fds).max_pattern (table_scan fds).min_pattern)
      ((table_scan fds).n_bits % 2 ^ 8)))
  rw [hflen] at hinv0
  obtain ⟨hinv, hlen⟩ := place_all_inv fragments 0 _ st (List.drop_zero _) hinv0 hplace
  refine ⟨fragments, st, hmap, hinv, rfl, rfl, rfl, ?_⟩
  simp only at hlen ⊢
  rw [hlen, List.length_replicate]
  exact Nat.mod_eq_of_lt (n_fragment_fits fds hne (by simpa using hfail))

/-- The slots of a state that satisfies the invariant of the placement loop
hold exactly the mappings of the inputs with a non-zero reference count. -/
theorem placed_slot_pointers {fragments : List fragment} {st : build_state}
    (hinv : placed_inv fragments st) (a : Nat) :
    (∃ f ∈ st.slots, f.data.isSome ∧ data_pointer f = a) ↔
      ∃ k : Nat, (fragments.map data_pointer)[k]? = some a ∧ 0 < st.refcounts.getD k 0 := by
  obtain ⟨h1, h2, h3, h4⟩ := hinv
  constructor
  · rintro ⟨f, hf, hsome, hptr⟩
    obtain ⟨j, hj⟩ := List.mem_iff_getElem?.1 hf
    have howner : slot_owner st j = some (st.slot_index.getD j 0) := by
      unfold slot_owner
      rw [hj]
      simp only [hsome, if_true]
    obtain ⟨hk, hslot⟩ := h3 j _ howner
    refine ⟨st.slot_index.getD j 0, ?_, ?_⟩
    · rw [List.getElem?_map, ← hslot, hj, ← hptr]
      rfl
    · rw [h4 _ hk]
      apply List.count_pos_iff.2
      have hjlt : j < st.slots.length := by
        by_contra hge
        rw [List.getElem?_eq_none (by omega)] at hj
        exact absurd hj (by simp)
      have hown : (owners st)[j]? = some (slot_owner st j) := by
        rw [owners_getElem?, if_pos hjlt]
      rw [howner] at hown
      exact List.getElem?_mem hown
  · rintro ⟨k, hk, hpos⟩
    have hklt : k < fragments.length := by
      by_contra hge
      rw [List.getElem?_eq_none (by rw [List.length_map]; omega)] at hk
      exact absurd hk (by simp)
    rw [h4 k hklt] at hpos
    have hin := List.count_pos_iff.1 hpos
    unfold owners at hin
    obtain ⟨j, -, hj⟩ := List.mem_map.1 hin
    obtain ⟨-, hslot⟩ := h3 j k hj
    unfold slot_owner at hj
    split at hj
    · exact absurd hj (by simp)
    · rename_i f hf
      split at hj
      · rename_i hsome
        refine ⟨f, List.getElem?_mem hf, hsome, ?_⟩
        rw [List.getElem?_map, ← hslot, hf] at hk
        injection hk with hk
      · exact absurd hj (by simp)

theorem destroy_mem (t : jetex_table) (hn : t.n_fragment = t.fragments.length) :
    (jetex_table_destroy (some t)).Nodup ∧
    ∀ a, a ∈ jetex_table_destroy (some t) ↔
      a ≠ 0 ∧ ∃ f ∈ t.fragments, f.data.isSome ∧ data_pointer f = a := by
  unfold jetex_table_destroy
  simp only
  rw [hn, List.take_length]
  have hsorted : (qsort cmp_fragment t.fragments).Pairwise
      (fun x y => data_pointer x ≤ data_pointer y) := by
    have h := qsort_sorted cmp_fragment
      (fun x y => by rw [cmp_fragment_le, cmp_fragment_le]; omega)
      (fun x y z => by
        rw [cmp_fragment_le, cmp_fragment_le, cmp_fragment_le]; omega) t.fragments
    exact h.imp (fun hxy => (cmp_fragment_le _ _).1 hxy)
  obtain ⟨hnd, hmem⟩ := destroy_walk_sorted _ 0 hsorted (fun f _ => Nat.zero_le _)
  refine ⟨hnd, fun a => ?_⟩
  rw [hmem a]
  have hperm := qsort_perm cmp_fragment t.fragments
  constructor
  · rintro ⟨h0, f, hf, hs, hp⟩
    exact ⟨h0, f, hperm.mem_iff.1 hf, hs, hp⟩
  · rintro ⟨h0, f, hf, hs, hp⟩
    exact ⟨h0, f, hperm.mem_iff.2 hf, hs, hp⟩

theorem slot_addrs_mem (t : jetex_table) (a : Nat) :
    some a ∈ slot_addrs t ↔ ∃ f ∈ t.fragments, f.data.isSome ∧ data_pointer f = a := by
  unfold slot_addrs
  rw [List.mem_map]
  constructor
  · rintro ⟨f, hf, hmap⟩
    refine ⟨f, hf, ?_⟩
    cases hd : f.data with
    | none => rw [hd] at hmap; exact absurd hmap (by simp)
    | some map =>
      rw [hd] at hmap
      simp only [Option.map_some', Option.some.injEq] at hmap
      exact ⟨rfl, by rw [data_pointer_of_some hd]; exact hmap⟩
  · rintro ⟨f, hf, hs, hp⟩
    refine ⟨f, hf, ?_⟩
    obtain ⟨map, hd⟩ := Option.isSome_iff_exists.1 hs
    rw [hd]
    rw [data_pointer_of_some hd] at hp
    simp only [Option.map_some', hp]
/-- C24: after a successful `jetex_table_create` over inputs mapped at
pairwise distinct, non-null addresses, followed by `jetex_table_destroy` of the
table, the addresses given to `munmap`, first by create and then by destroy,
are a permutation of the inputs' base addresses, so every mapping is unmapped
exactly once: an input whose reference count is 0 is unmapped by create and is
in no slot, and a base that is in at least one slot is unmapped exactly once by
destroy and not by create. -/
theorem unmapped_exactly_once (uuid : List Nat) (fds : List File) (c : created)
    (hc : jetex_table_create uuid fds = Except.ok (some c))
    (hdistinct : (fds.map File.addr).Nodup) (hnonnull : ∀ file ∈ fds, file.addr ≠ 0) :
    (c.unmapped ++ jetex_table_destroy (some c.table)).Perm (fds.map File.addr) ∧
    (∀ (i : Nat) (file : File), fds[i]? = some file → c.refcounts.getD i 0 = 0 →
      file.addr ∈ c.unmapped ∧ some file.addr ∉ slot_addrs c.table) ∧
    (∀ a, some a ∈ slot_addrs c.table →
      (jetex_table_destroy (some c.table)).count a = 1 ∧ a ∉ c.unmapped) := by
  obtain ⟨fragments, st, hmap, hinv, hslots, hrc, hun, hnf⟩ := created_parts hc
  obtain ⟨hptr, hsome⟩ := map_all_pointers fds fragments hmap
  have hrclen : st.refcounts.length = fragments.length := hinv.2.1
  rw [← hslots] at hnf
  obtain ⟨hnd2, hmem2⟩ := destroy_mem c.table hnf
  have hnd1 : c.unmapped.Nodup := by
    rw [hun]
    exact List.Nodup.sublist (unmap_unreferenced_sublist _ _) (by rw [hptr]; exact hdistinct)
  have hmem1 : ∀ a, a ∈ c.unmapped ↔
      ∃ k : Nat, (fds.map File.addr)[k]? = some a ∧ st.refcounts.getD k 0 = 0 := by
    intro a
    rw [hun, unmap_unreferenced_mem fragments st.refcounts hsome hrclen a, hptr]
    constructor
    · rintro ⟨k, hk1, hk2⟩
      exact ⟨k, hk1, by rw [List.getD_eq_getElem?_getD, hk2]; rfl⟩
    · rintro ⟨k, hk1, hk2⟩
      refine ⟨k, hk1, ?_⟩
      have hklt : k < st.refcounts.length := by
        by_contra hge
        rw [List.getElem?_eq_none (by rw [← hptr, List.length_map]; omega)] at hk1
        exact absurd hk1 (by simp)
      rw [List.getD_eq_getElem?_getD, List.getElem?_eq_getElem hklt] at hk2
      rw [List.getElem?_eq_getElem hklt]
      exact congrArg some hk2
  have hslot : ∀ a, (∃ f ∈ c.table.fragments, f.data.isSome ∧ data_pointer f = a) ↔
      ∃ k : Nat, (fds.map File.addr)[k]? = some a ∧ 0 < st.refcounts.getD k 0 := by
    intro a
    rw [hslots, placed_slot_pointers hinv a, hptr]
  have hnz : ∀ a, a ∈ fds.map File.addr → a ≠ 0 := by
    intro a ha
    obtain ⟨file, hf, hfa⟩ := List.mem_map.1 ha
    rw [← hfa]
    exact hnonnull file hf
  have hinj : ∀ (k k1 : Nat) (a : Nat), (fds.map File.addr)[k]? = some a →
      (fds.map File.addr)[k1]? = some a → k = k1 := by
    intro k k1 a hk hk1
    have hklt : k < (fds.map File.addr).length := by
      by_contra hge
      rw [List.getElem?_eq_none (by omega)] at hk
      exact absurd hk (by simp)
    exact List.getElem?_inj hklt hdistinct (hk.trans hk1.symm)
  have hdisj : ∀ a, a ∈ c.unmapped → a ∈ jetex_table_destroy (some c.table) → False := by
    intro a h1 h2
    obtain ⟨k, hk, hzero⟩ := (hmem1 a).1 h1
    obtain ⟨k1, hk1, hpos⟩ := (hslot a).1 ((hmem2 a).1 h2).2
    have := hinj k k1 a hk hk1
    subst this
    omega
  refine ⟨?_, ?_, ?_⟩
  · apply (List.perm_ext_iff_of_nodup
      (List.nodup_append.2 ⟨hnd1, hnd2, fun a h1 h2 => hdisj a h1 h2⟩) hdistinct).2
    intro a
    rw [List.mem_append]
    constructor
    · rintro (h1 | h2)
      · obtain ⟨k, hk, -⟩ := (hmem1 a).1 h1
        exact List.getElem?_mem hk
      · obtain ⟨k, hk, -⟩ := (hslot a).1 ((hmem2 a).1 h2).2
        exact List.getElem?_mem hk
    · intro ha
      obtain ⟨k, hk⟩ := List.mem_iff_getElem?.1 ha
      by_cases hz : st.refcounts.getD k 0 = 0
      · exact Or.inl ((hmem1 a).2 ⟨k, hk, hz⟩)
      · exact Or.inr ((hmem2 a).2 ⟨hnz a ha, (hslot a).2 ⟨k, hk, by omega⟩⟩)
  · intro i file hfile hzero
    have hi : (fds.map File.addr)[i]? = some file.addr := by
      rw [List.getElem?_map, hfile]
      rfl
    rw [hrc] at hzero
    refine ⟨(hmem1 _).2 ⟨i, hi, hzero⟩, ?_⟩
    intro hin
    obtain ⟨k, hk, hpos⟩ := (hslot _).1 ((slot_addrs_mem _ _).1 hin)
    have := hinj i k _ hi hk
    subst this
    omega
  · intro a hin
    have hex := (slot_addrs_mem _ _).1 hin
    obtain ⟨k, hk, -⟩ := (hslot a).1 hex
    have hmem : a ∈ jetex_table_destroy (some c.table) :=
      (hmem2 a).2 ⟨hnz a (List.getElem?_mem hk), hex⟩
    exact ⟨List.count_eq_one_of_mem hnd2 hmem, fun h1 => hdisj a h1 hmem⟩

/-- The table built from `file_shadowed`, `file_a` and `file_pair`: create
unmaps the shadowed input, destroy unmaps the mapping of `file_a` and, once,
the mapping that slots 2 and 3 share. -/
theorem unmapped_exactly_once_witness :
    table_shared.unmapped = [0x70000] ∧
    jetex_table_destroy (some table_shared.table) = [0x30000, 0x60000] ∧
    (table_shared.unmapped ++ jetex_table_destroy (some table_shared.table)).Perm
      ([file_shadowed, file_a, file_pair].map File.addr) :=
  ⟨rfl, by decide,
   (unmapped_exactly_once sample_uuid [file_shadowed, file_a, file_pair] table_shared
      rfl (by decide) (by decide)).1⟩

end Jetex
